import Mathlib

/-!
# Media object lifecycle: a shallow embedding of `quckapp/media-service`

The development embeds the lifecycle layer of the service
(`internal/services/media_service.go`, `version_service.go`,
`trash_service.go`, the two `media` writers of `watermark_service.go`) as
state-passing functions over an explicit model of the three backing stores:

* the MongoDB collections `media`, `media_versions`, `media_trash` are lists
  of documents; `InsertOne` refuses a duplicate `_id`, `FindOne`, `UpdateOne`
  and `DeleteOne` act on the first document matching the filter;
* the Redis cache is an association list from key to payload;
* the S3 bucket is the list of keys that hold an object.

Everything a call receives from its surroundings (clock readings, the fresh
UUID, the presigned URL, and which backend calls fail) is collected in `Env`.
A backend call that fails is taken to have had no effect.  Calls are atomic:
the model is sequential.  A value read back from a store is the value written
(JSON and BSON round trips are faithful), except that BSON keeps timestamps to
the millisecond.

Properties of the states of the system are stated over `Reachable`: the
states obtained from empty stores by any sequence of calls, client uploads and
cache expiries, in any surroundings, a UUID that becomes a media id being new.
Properties that do not speak of backend failures name, as hypotheses on `Env`,
the backend calls they need answered.
-/

/-! ## Go strings -/

/-- A Go `string`: an immutable sequence of bytes. `len` is `List.length`. -/
abbrev GoString := List UInt8

/-- The bytes of a string literal of the source (UTF-8, as Go stores it). -/
def lit (s : String) : GoString := s.toList.flatMap String.utf8EncodeChar

/-- The slice expression `s[:hi]`. `none` is the run-time panic
"slice bounds out of range", raised when `hi > len(s)`. -/
def sliceTo (s : GoString) (hi : Nat) : Option GoString :=
  if hi ≤ s.length then some (s.take hi) else none

/-- `getMediaType` of `media_service.go`. The three `case` guards of the
tagless `switch` are evaluated in order, each slicing again. `none` stands
for a panic of one of the slice expressions. -/
def getMediaType (mimeType : GoString) : Option GoString :=
  if mimeType.length < 5 then some (lit "document")
  else
    (sliceTo mimeType 5).bind fun p1 =>
    if p1 = lit "image" then some (lit "image")
    else
      (sliceTo mimeType 5).bind fun p2 =>
      if p2 = lit "video" then some (lit "video")
      else
        (sliceTo mimeType 5).bind fun p3 =>
        if p3 = lit "audio" then some (lit "audio")
        else some (lit "document")

/-! ## Data model (`internal/models/media.go`) -/

/-- A `time.Time`, as nanoseconds since the Unix epoch. -/
abbrev Time := Nat

/-- A BSON datetime keeps milliseconds: what a stored `time.Time` reads back as. -/
def bsonTime (t : Time) : Time := t / 1000000 * 1000000

/-- A Go `map[string]string`; a key is looked up with `List.lookup`. -/
abbrev StrMap := List (GoString × GoString)

/-- The assignment `m[k] = v` (also Mongo's `$set` of `metadata.k`). -/
def StrMap.set (m : StrMap) (k v : GoString) : StrMap :=
  (k, v) :: m.filter (fun p => p.1 ≠ k)

/-- Mongo's `$unset` of `metadata.k`. -/
def StrMap.unset (m : StrMap) (k : GoString) : StrMap :=
  m.filter (fun p => p.1 ≠ k)

structure Media where
  ID : GoString
  UserID : GoString
  /-- Field `Type` of the source (a reserved word here). -/
  Type_ : GoString
  Filename : GoString
  MimeType : GoString
  Size : Int
  URL : GoString
  ThumbnailURL : GoString
  S3Key : GoString
  Metadata : StrMap
  CreatedAt : Time
  UpdatedAt : Time
deriving DecidableEq, Repr

structure UploadRequest where
  Filename : GoString
  MimeType : GoString
  Size : Int
deriving DecidableEq, Repr

structure MediaVersion where
  ID : GoString
  MediaID : GoString
  Version : Int
  Filename : GoString
  MimeType : GoString
  Size : Int
  S3Key : GoString
  URL : GoString
  UploadedBy : GoString
  Comment : GoString
  CreatedAt : Time
deriving DecidableEq, Repr

structure CreateVersionRequest where
  Filename : GoString
  MimeType : GoString
  Size : Int
  Comment : GoString
deriving DecidableEq, Repr

structure TrashedMedia where
  ID : GoString
  MediaID : GoString
  UserID : GoString
  OriginalDoc : Media
  TrashedAt : Time
  ExpiresAt : Time
deriving DecidableEq, Repr

structure ApplyWatermarkRequest where
  MediaID : GoString
  WatermarkID : GoString
  Position : GoString
deriving DecidableEq, Repr

/-- The document a `Media` value is stored as and decoded back from:
both timestamps lose their sub-millisecond part. -/
def bsonMedia (m : Media) : Media :=
  { m with CreatedAt := bsonTime m.CreatedAt, UpdatedAt := bsonTime m.UpdatedAt }

/-! ## The stores -/

/-- The Go `error` values the lifecycle layer can return. -/
inductive Err where
  /-- `fmt.Errorf("unauthorized")`. -/
  | unauthorized
  /-- `mongo.ErrNoDocuments`: `FindOne` matched nothing. -/
  | noDocuments
  /-- A write rejected by the unique index on `_id`. -/
  | duplicateKey
  /-- Any other failure of a backend call (network, timeout, server error). -/
  | backend
  /-- A run-time panic of a slice expression. -/
  | sliceOutOfRange
deriving DecidableEq, Repr

/-- A cached payload: `some m` is a payload `json.Unmarshal` decodes to `m`
(the JSON image of a `Media` is identified with the value it decodes to),
`none` is a payload that does not decode. -/
abbrev Payload := Option Media

structure StorageQuota where
  ID : GoString
  WorkspaceID : GoString
  MaxStorageMB : Int
  UsedStorageMB : Int
  MaxFileCount : Int
  CurrentFileCount : Int
  CreatedAt : Time
  UpdatedAt : Time
deriving DecidableEq, Repr

structure SetQuotaRequest where
  WorkspaceID : GoString
  MaxStorageMB : Int
  MaxFileCount : Int
deriving DecidableEq, Repr

structure State where
  /-- Collection `media`. -/
  media : List Media
  /-- Collection `media_versions`. -/
  versions : List MediaVersion
  /-- Collection `media_trash`. -/
  trash : List TrashedMedia
  /-- Keys of the bucket that hold an object. -/
  blobs : List GoString
  /-- Redis database: key to payload. -/
  cache : List (GoString × Payload)
  /-- Collection `storage_quotas`. -/
  quotas : List StorageQuota := []
deriving DecidableEq, Repr

/-- What one call receives from its surroundings. -/
structure Env where
  /-- The successive readings of `time.Now()` during the call. -/
  clock : Nat → Time
  /-- The value of `uuid.New().String()`. -/
  uuid : GoString
  /-- The string `GetPresignedDownloadURL` hands back for a key (its error
  is discarded by every caller). -/
  presign : GoString → GoString
  /-- `redis.Get` returns an error other than a miss. -/
  cacheGetFails : Bool
  /-- `json.Marshal` or `redis.Set` fails (nothing is written). -/
  cacheSetFails : Bool
  /-- `redis.Del` fails (nothing is removed). -/
  cacheDelFails : Bool
  /-- `FindOne` / `Find` fails with a backend error. -/
  findFails : Bool
  /-- `InsertOne` fails with a backend error. -/
  insertFails : Bool
  /-- `UpdateOne` fails with a backend error (a write the server rejects
  included). -/
  updateFails : Bool
  /-- `DeleteOne` / `DeleteMany` fails with a backend error. -/
  deleteFails : Bool
  /-- `S3Storage.Delete` fails for the given key. -/
  blobDeleteFails : GoString → Bool

/-- `UpdateOne`: apply `f` to the first document satisfying `p`; no match is
not an error. -/
def updateOne {α : Type} (p : α → Bool) (f : α → α) : List α → List α
  | [] => []
  | d :: ds => if p d then f d :: ds else d :: updateOne p f ds

/-- `DeleteOne`: remove the first document satisfying `p`; no match is not
an error. -/
def deleteOne {α : Type} (p : α → Bool) (c : List α) : List α := c.eraseP p

/-- `Redis GET`. `none` is a miss. -/
def cacheGet (c : List (GoString × Payload)) (key : GoString) : Option Payload :=
  c.lookup key

/-- `Redis SET`: the key now holds `v` and nothing else. -/
def cacheSet (c : List (GoString × Payload)) (key : GoString) (v : Payload) :
    List (GoString × Payload) :=
  (key, v) :: c.filter (fun p => p.1 ≠ key)

/-- `Redis DEL`. -/
def cacheDel (c : List (GoString × Payload)) (key : GoString) :
    List (GoString × Payload) :=
  c.filter (fun p => p.1 ≠ key)

/-- `S3 DeleteObject`: idempotent, deleting a missing key changes nothing. -/
def blobDelete (b : List GoString) (key : GoString) : List GoString :=
  b.filter (fun k => k ≠ key)

/-- The key `fmt.Sprintf("media:%s", mediaID)`. -/
def cacheKey (mediaID : GoString) : GoString := lit "media:" ++ mediaID

/-- `InsertOne` into `media`. -/
def insertMedia (e : Env) (c : List Media) (d : Media) : Except Err (List Media) :=
  if e.insertFails then .error .backend
  else if c.any (fun m => m.ID = d.ID) then .error .duplicateKey
  else .ok (c ++ [bsonMedia d])

/-- `FindOne` on `media` filtered by `_id`. -/
def findMedia (e : Env) (c : List Media) (mediaID : GoString) : Except Err Media :=
  if e.findFails then .error .backend
  else match c.find? (fun m => m.ID = mediaID) with
    | none => .error .noDocuments
    | some m => .ok m

/-! ## `MediaService` (`media_service.go`) -/

/-- The outcome of a call: the returned value or error, and the stores as the
call leaves them (an erroring call may already have written). -/
abbrev Outcome (α : Type) := Except Err α × State

/-- `MediaService.Create`. The returned value is the in-memory struct; the
collection receives its BSON image. -/
def MediaService.Create (e : Env) (s : State) (userID : GoString) (req : UploadRequest) :
    Outcome Media :=
  let mediaID := e.uuid
  let s3Key := lit "media/" ++ userID ++ lit "/" ++ mediaID ++ lit "/" ++ req.Filename
  match getMediaType req.MimeType with
  | none => (.error .sliceOutOfRange, s)
  | some ty =>
    let media : Media :=
      { ID := mediaID, UserID := userID, Type_ := ty, Filename := req.Filename,
        MimeType := req.MimeType, Size := req.Size, URL := [], ThumbnailURL := [],
        S3Key := s3Key, Metadata := [], CreatedAt := e.clock 0, UpdatedAt := e.clock 1 }
    match insertMedia e s.media media with
    | .error err => (.error err, s)
    | .ok c => (.ok media, { s with media := c })

/-- `MediaService.Get`: cache first, then the collection, then a cache write
whose failure is ignored. -/
def MediaService.Get (e : Env) (s : State) (mediaID : GoString) : Outcome Media :=
  match (if e.cacheGetFails then none else cacheGet s.cache (cacheKey mediaID)) with
  | some (some media) => (.ok media, s)
  | _ =>
    match findMedia e s.media mediaID with
    | .error err => (.error err, s)
    | .ok found =>
      let media := { found with URL := e.presign found.S3Key }
      if e.cacheSetFails then (.ok media, s)
      else (.ok media, { s with cache := cacheSet s.cache (cacheKey mediaID) (some media) })

/-- `MediaService.Delete`. -/
def MediaService.Delete (e : Env) (s : State) (mediaID userID : GoString) : Outcome Unit :=
  match MediaService.Get e s mediaID with
  | (.error err, s1) => (.error err, s1)
  | (.ok media, s1) =>
    if media.UserID ≠ userID then (.error .unauthorized, s1)
    else if e.blobDeleteFails media.S3Key then (.error .backend, s1)
    else
      let s2 := { s1 with blobs := blobDelete s1.blobs media.S3Key }
      if e.deleteFails then (.error .backend, s2)
      else
        let s3 := { s2 with media := deleteOne (fun m => m.ID = mediaID) s2.media }
        if e.cacheDelFails then (.ok (), s3)
        else (.ok (), { s3 with cache := cacheDel s3.cache (cacheKey mediaID) })

/-- `MediaService.SetURL`. -/
def MediaService.SetURL (e : Env) (s : State) (mediaID url : GoString) : Outcome Unit :=
  if e.updateFails then (.error .backend, s)
  else
    let upd := fun (m : Media) => { m with URL := url, UpdatedAt := bsonTime (e.clock 0) }
    (.ok (), { s with media := updateOne (fun m => m.ID = mediaID) upd s.media })

/-- `MediaService.UpdateMetadata`. -/
def MediaService.UpdateMetadata (e : Env) (s : State) (mediaID userID : GoString)
    (metadata : StrMap) : Outcome Unit :=
  match MediaService.Get e s mediaID with
  | (.error err, s1) => (.error err, s1)
  | (.ok media, s1) =>
    if media.UserID ≠ userID then (.error .unauthorized, s1)
    else if e.updateFails then (.error .backend, s1)
    else
      let upd := fun (m : Media) =>
        { m with Metadata := metadata, UpdatedAt := bsonTime (e.clock 0) }
      let s2 := { s1 with media := updateOne (fun m => m.ID = mediaID) upd s1.media }
      if e.cacheDelFails then (.ok (), s2)
      else (.ok (), { s2 with cache := cacheDel s2.cache (cacheKey mediaID) })

/-- `MediaService.Rename`. -/
def MediaService.Rename (e : Env) (s : State) (mediaID userID newFilename : GoString) :
    Outcome Unit :=
  match MediaService.Get e s mediaID with
  | (.error err, s1) => (.error err, s1)
  | (.ok media, s1) =>
    if media.UserID ≠ userID then (.error .unauthorized, s1)
    else if e.updateFails then (.error .backend, s1)
    else
      let upd := fun (m : Media) =>
        { m with Filename := newFilename, UpdatedAt := bsonTime (e.clock 0) }
      let s2 := { s1 with media := updateOne (fun m => m.ID = mediaID) upd s1.media }
      if e.cacheDelFails then (.ok (), s2)
      else (.ok (), { s2 with cache := cacheDel s2.cache (cacheKey mediaID) })

/-- `MediaService.CopyMedia`. -/
def MediaService.CopyMedia (e : Env) (s : State) (mediaID userID targetWorkspaceID : GoString) :
    Outcome Media :=
  match MediaService.Get e s mediaID with
  | (.error err, s1) => (.error err, s1)
  | (.ok media, s1) =>
    if media.UserID ≠ userID then (.error .unauthorized, s1)
    else
      let newMedia : Media :=
        { ID := e.uuid, UserID := userID, Type_ := media.Type_, Filename := media.Filename,
          MimeType := media.MimeType, Size := media.Size, URL := [], ThumbnailURL := [],
          S3Key := media.S3Key, Metadata := [(lit "workspaceId", targetWorkspaceID)],
          CreatedAt := e.clock 0, UpdatedAt := e.clock 1 }
      match insertMedia e s1.media newMedia with
      | .error err => (.error err, s1)
      | .ok c => (.ok newMedia, { s1 with media := c })

/-- `MediaService.MoveMedia`. -/
def MediaService.MoveMedia (e : Env) (s : State) (mediaID userID targetWorkspaceID : GoString) :
    Outcome Unit :=
  match MediaService.Get e s mediaID with
  | (.error err, s1) => (.error err, s1)
  | (.ok media, s1) =>
    if media.UserID ≠ userID then (.error .unauthorized, s1)
    else if e.updateFails then (.error .backend, s1)
    else
      let upd := fun (m : Media) =>
        { m with Metadata := m.Metadata.set (lit "workspaceId") targetWorkspaceID,
                 UpdatedAt := bsonTime (e.clock 0) }
      let s2 := { s1 with media := updateOne (fun m => m.ID = mediaID) upd s1.media }
      if e.cacheDelFails then (.ok (), s2)
      else (.ok (), { s2 with cache := cacheDel s2.cache (cacheKey mediaID) })

/-! ## `VersionService` (`version_service.go`) -/

/-- Go `int` arithmetic on a 64-bit platform: the result wraps. -/
def wrap64 (x : Int) : Int := (x + 2 ^ 63) % 2 ^ 64 - 2 ^ 63

/-- The verb `%d` of `fmt.Sprintf`: the decimal rendering of an `int`. -/
def fmtInt (n : Int) : GoString := lit (toString n)

/-- `FindOne` on `media_versions` filtered by `mediaId`, sorted by `version`
descending: a version of the media with the largest number. -/
def latestVersion (c : List MediaVersion) (mediaID : GoString) : Option MediaVersion :=
  (c.filter (fun v => v.MediaID = mediaID)).foldl
    (fun acc v => match acc with
      | none => some v
      | some a => if a.Version < v.Version then some v else some a) none

/-- `InsertOne` into `media_versions`. -/
def insertVersion (e : Env) (c : List MediaVersion) (d : MediaVersion) :
    Except Err (List MediaVersion) :=
  if e.insertFails then .error .backend
  else if c.any (fun v => v.ID = d.ID) then .error .duplicateKey
  else .ok (c ++ [{ d with CreatedAt := bsonTime d.CreatedAt }])

/-- `VersionService.CreateVersion`. Whatever error the lookup of the latest
version returns, the number falls back to 1. -/
def VersionService.CreateVersion (e : Env) (s : State) (mediaID userID : GoString)
    (req : CreateVersionRequest) : Outcome MediaVersion :=
  let found := if e.findFails then none else latestVersion s.versions mediaID
  let nextVersion : Int :=
    match found with
    | some latest => wrap64 (latest.Version + 1)
    | none => 1
  let s3Key := lit "media/" ++ userID ++ lit "/" ++ mediaID ++ lit "/v" ++ fmtInt nextVersion
    ++ lit "/" ++ req.Filename
  let version : MediaVersion :=
    { ID := e.uuid, MediaID := mediaID, Version := nextVersion, Filename := req.Filename,
      MimeType := req.MimeType, Size := req.Size, S3Key := s3Key, URL := [],
      UploadedBy := userID, Comment := req.Comment, CreatedAt := e.clock 0 }
  match insertVersion e s.versions version with
  | .error err => (.error err, s)
  | .ok c => (.ok version, { s with versions := c })

/-- `VersionService.GetVersion`. -/
def VersionService.GetVersion (e : Env) (s : State) (versionID : GoString) :
    Outcome MediaVersion :=
  if e.findFails then (.error .backend, s)
  else match s.versions.find? (fun v => v.ID = versionID) with
    | none => (.error .noDocuments, s)
    | some v => (.ok { v with URL := e.presign v.S3Key }, s)

/-- `VersionService.DeleteVersion`. The blob deletion error is discarded. -/
def VersionService.DeleteVersion (e : Env) (s : State) (versionID userID : GoString) :
    Outcome Unit :=
  match VersionService.GetVersion e s versionID with
  | (.error err, s1) => (.error err, s1)
  | (.ok version, s1) =>
    if version.UploadedBy ≠ userID then (.error .unauthorized, s1)
    else
      let s2 := if e.blobDeleteFails version.S3Key then s1
        else { s1 with blobs := blobDelete s1.blobs version.S3Key }
      if e.deleteFails then (.error .backend, s2)
      else (.ok (), { s2 with versions := deleteOne (fun v => v.ID = versionID) s2.versions })

/-- `VersionService.RestoreVersion`. The parameter `userID` is not used by
the source. -/
def VersionService.RestoreVersion (e : Env) (s : State) (versionID _userID : GoString) :
    Outcome Unit :=
  match VersionService.GetVersion e s versionID with
  | (.error err, s1) => (.error err, s1)
  | (.ok version, s1) =>
    if e.updateFails then (.error .backend, s1)
    else
      let upd := fun (m : Media) =>
        { m with Filename := version.Filename, MimeType := version.MimeType,
                 Size := version.Size, S3Key := version.S3Key,
                 UpdatedAt := bsonTime (e.clock 0) }
      (.ok (), { s1 with media := updateOne (fun m => m.ID = version.MediaID) upd s1.media })

/-! ## `TrashService` (`trash_service.go`) -/

/-- The constant `time.Hour`, in nanoseconds. -/
def Hour : Nat := 3600000000000

/-- `InsertOne` into `media_trash`. -/
def insertTrash (e : Env) (c : List TrashedMedia) (d : TrashedMedia) :
    Except Err (List TrashedMedia) :=
  if e.insertFails then .error .backend
  else if c.any (fun t => t.ID = d.ID) then .error .duplicateKey
  else .ok (c ++ [{ d with OriginalDoc := bsonMedia d.OriginalDoc,
                           TrashedAt := bsonTime d.TrashedAt,
                           ExpiresAt := bsonTime d.ExpiresAt }])

/-- `FindOne` on `media_trash` filtered by `_id` and `userId`. -/
def findTrash (e : Env) (c : List TrashedMedia) (trashID userID : GoString) :
    Except Err TrashedMedia :=
  if e.findFails then .error .backend
  else match c.find? (fun t => t.ID = trashID ∧ t.UserID = userID) with
    | none => .error .noDocuments
    | some t => .ok t

/-- `TrashService.MoveToTrash`. `time.Now()` is read twice. -/
def TrashService.MoveToTrash (e : Env) (s : State) (mediaID userID : GoString) : Outcome Unit :=
  match findMedia e s.media mediaID with
  | .error err => (.error err, s)
  | .ok media =>
    if media.UserID ≠ userID then (.error .unauthorized, s)
    else
      let trashed : TrashedMedia :=
        { ID := e.uuid, MediaID := mediaID, UserID := userID, OriginalDoc := media,
          TrashedAt := e.clock 0, ExpiresAt := e.clock 1 + 30 * 24 * Hour }
      match insertTrash e s.trash trashed with
      | .error err => (.error err, s)
      | .ok c =>
        let s1 := { s with trash := c }
        if e.deleteFails then (.error .backend, s1)
        else
          let s2 := { s1 with media := deleteOne (fun m => m.ID = mediaID) s1.media }
          if e.cacheDelFails then (.ok (), s2)
          else (.ok (), { s2 with cache := cacheDel s2.cache (cacheKey mediaID) })

/-- `TrashService.RestoreFromTrash`. -/
def TrashService.RestoreFromTrash (e : Env) (s : State) (trashID userID : GoString) :
    Outcome Unit :=
  match findTrash e s.trash trashID userID with
  | .error err => (.error err, s)
  | .ok trashed =>
    match insertMedia e s.media trashed.OriginalDoc with
    | .error err => (.error err, s)
    | .ok c =>
      let s1 := { s with media := c }
      if e.deleteFails then (.error .backend, s1)
      else (.ok (), { s1 with trash := deleteOne (fun t => t.ID = trashID) s1.trash })

/-- `TrashService.PermanentDelete`. The blob deletion error is discarded. -/
def TrashService.PermanentDelete (e : Env) (s : State) (trashID userID : GoString) :
    Outcome Unit :=
  match findTrash e s.trash trashID userID with
  | .error err => (.error err, s)
  | .ok trashed =>
    let s1 := if e.blobDeleteFails trashed.OriginalDoc.S3Key then s
      else { s with blobs := blobDelete s.blobs trashed.OriginalDoc.S3Key }
    if e.deleteFails then (.error .backend, s1)
    else (.ok (), { s1 with trash := deleteOne (fun t => t.ID = trashID) s1.trash })

/-- `TrashService.EmptyTrash`. Every blob deletion error is discarded; the
result is `DeletedCount`. -/
def TrashService.EmptyTrash (e : Env) (s : State) (userID : GoString) : Outcome Int :=
  if e.findFails then (.error .backend, s)
  else
    let trashed := s.trash.filter (fun t => t.UserID = userID)
    let blobs := trashed.foldl
      (fun b t => if e.blobDeleteFails t.OriginalDoc.S3Key then b
        else blobDelete b t.OriginalDoc.S3Key) s.blobs
    let s1 := { s with blobs := blobs }
    if e.deleteFails then (.error .backend, s1)
    else (.ok (trashed.length : Int), { s1 with trash := s1.trash.filter (fun t => t.UserID ≠ userID) })

/-! ## `WatermarkService` (`watermark_service.go`): the writers of `media` -/

/-- `WatermarkService.Apply`. -/
def WatermarkService.Apply (e : Env) (s : State) (req : ApplyWatermarkRequest) : Outcome Unit :=
  if e.updateFails then (.error .backend, s)
  else
    let upd := fun (m : Media) =>
      { m with Metadata := (m.Metadata.set (lit "watermarkId") req.WatermarkID).set
                 (lit "watermarkPosition") req.Position,
               UpdatedAt := bsonTime (e.clock 0) }
    (.ok (), { s with media := updateOne (fun m => m.ID = req.MediaID) upd s.media })

/-- `WatermarkService.Remove`. -/
def WatermarkService.Remove (e : Env) (s : State) (mediaID : GoString) : Outcome Unit :=
  if e.updateFails then (.error .backend, s)
  else
    let upd := fun (m : Media) =>
      { m with Metadata := (m.Metadata.unset (lit "watermarkId")).unset
                 (lit "watermarkPosition"),
               UpdatedAt := bsonTime (e.clock 0) }
    (.ok (), { s with media := updateOne (fun m => m.ID = mediaID) upd s.media })

/-! ## The reachable states -/

/-- One atomic event on the stores: a call of the services, a client upload
through a presigned URL, or the expiry of a cache key. -/
inductive Call where
  | create (userID : GoString) (req : UploadRequest)
  | get (mediaID : GoString)
  | delete (mediaID userID : GoString)
  | setURL (mediaID url : GoString)
  | updateMetadata (mediaID userID : GoString) (metadata : StrMap)
  | rename (mediaID userID newFilename : GoString)
  | copyMedia (mediaID userID targetWorkspaceID : GoString)
  | moveMedia (mediaID userID targetWorkspaceID : GoString)
  | createVersion (mediaID userID : GoString) (req : CreateVersionRequest)
  | deleteVersion (versionID userID : GoString)
  | restoreVersion (versionID userID : GoString)
  | moveToTrash (mediaID userID : GoString)
  | restoreFromTrash (trashID userID : GoString)
  | permanentDelete (trashID userID : GoString)
  | emptyTrash (userID : GoString)
  | applyWatermark (req : ApplyWatermarkRequest)
  | removeWatermark (mediaID : GoString)
  /-- A client stores an object under `key`. -/
  | upload (key : GoString)
  /-- The time-to-live of a cache key runs out. -/
  | expire (key : GoString)

/-- The stores after the event. -/
def exec (e : Env) (s : State) : Call → State
  | .create u req => (MediaService.Create e s u req).2
  | .get i => (MediaService.Get e s i).2
  | .delete i u => (MediaService.Delete e s i u).2
  | .setURL i url => (MediaService.SetURL e s i url).2
  | .updateMetadata i u md => (MediaService.UpdateMetadata e s i u md).2
  | .rename i u f => (MediaService.Rename e s i u f).2
  | .copyMedia i u w => (MediaService.CopyMedia e s i u w).2
  | .moveMedia i u w => (MediaService.MoveMedia e s i u w).2
  | .createVersion i u req => (VersionService.CreateVersion e s i u req).2
  | .deleteVersion v u => (VersionService.DeleteVersion e s v u).2
  | .restoreVersion v u => (VersionService.RestoreVersion e s v u).2
  | .moveToTrash i u => (TrashService.MoveToTrash e s i u).2
  | .restoreFromTrash t u => (TrashService.RestoreFromTrash e s t u).2
  | .permanentDelete t u => (TrashService.PermanentDelete e s t u).2
  | .emptyTrash u => (TrashService.EmptyTrash e s u).2
  | .applyWatermark req => (WatermarkService.Apply e s req).2
  | .removeWatermark i => (WatermarkService.Remove e s i).2
  | .upload key => { s with blobs := key :: blobDelete s.blobs key }
  | .expire key => { s with cache := cacheDel s.cache key }

/-- Every `Media` value held anywhere: stored, snapshotted in the trash, or
cached. -/
def docsOf (M : List Media) (T : List TrashedMedia) (C : List (GoString × Payload)) :
    List Media :=
  M ++ T.map (fun t => t.OriginalDoc) ++ C.filterMap (fun p => p.2)

/-- The `Media` values held anywhere in the stores `s`. -/
def State.docs (s : State) : List Media := docsOf s.media s.trash s.cache

/-- The calls that mint a media id from `uuid.New()`. -/
def Call.mintsMediaID : Call → Bool
  | .create _ _ => true
  | .copyMedia _ _ _ => true
  | _ => false

/-- A freshly drawn UUID is the id of no `Media` value held anywhere. -/
def FreshUUID (s : State) (e : Env) (c : Call) : Prop :=
  c.mintsMediaID = true → e.uuid ∉ s.docs.map (fun m => m.ID)

/-- The empty stores. -/
def State.init : State :=
  { media := [], versions := [], trash := [], blobs := [], cache := [] }

/-- The states the stores can be in: from empty stores, any sequence of
events, each in any surroundings (backend failures included) that draw a
fresh UUID. -/
inductive Reachable : State → Prop
  | init : Reachable State.init
  | step {s : State} (e : Env) (c : Call) :
      Reachable s → FreshUUID s e c → Reachable (exec e s c)

/-- The invariant of the reachable states, on the three stores it speaks of:
ids are unique in `media`, a decodable cache payload sits under the key of its
own id, and all `Media` values with one id agree on the owner. -/
structure StoreInvOn (M : List Media) (T : List TrashedMedia) (C : List (GoString × Payload)) :
    Prop where
  nodup : (M.map (fun m => m.ID)).Nodup
  keyed : ∀ k m, (k, some m) ∈ C → k = cacheKey m.ID
  owner : ∀ d1 ∈ docsOf M T C, ∀ d2 ∈ docsOf M T C, d1.ID = d2.ID → d1.UserID = d2.UserID

/-- The invariant of the reachable states. -/
def StoreInv (s : State) : Prop := StoreInvOn s.media s.trash s.cache

/-- A call was refused as unauthorized and wrote to none of the media
collection, the version collection, the trash collection and the bucket. -/
def Refused {α : Type} (s : State) (o : Outcome α) : Prop :=
  (∀ a, o.1 ≠ .ok a) ∧ o.1 = .error .unauthorized ∧
    o.2.media = s.media ∧ o.2.versions = s.versions ∧ o.2.trash = s.trash ∧ o.2.blobs = s.blobs

/-- Surroundings in which every backend answers: the clock reads `t`, `t+1`,
..., the UUID drawn is `uuid`. -/
def Env.calm (uuid : GoString) (t : Time) : Env :=
  { clock := fun n => t + n, uuid := uuid, presign := fun k => lit "https://bucket/" ++ k,
    cacheGetFails := false, cacheSetFails := false, cacheDelFails := false,
    findFails := false, insertFails := false, updateFails := false, deleteFails := false,
    blobDeleteFails := fun _ => false }

/-! ## A worked scenario -/

/-- The owner of the scenario. -/
def Ex.u1 : GoString := lit "u1"

/-- The media id drawn at creation. -/
def Ex.m1 : GoString := lit "m1"

/-- The version id drawn when the version is created. -/
def Ex.v1 : GoString := lit "v1"

/-- The upload request of the scenario of the specification. -/
def Ex.catReq : UploadRequest :=
  { Filename := lit "cat.png", MimeType := lit "image/png", Size := 2048 }

/-- The request for the first version. -/
def Ex.editReq : CreateVersionRequest :=
  { Filename := lit "cat_edit.png", MimeType := lit "image/png", Size := 3000, Comment := [] }

/-- The blob key of the created media. -/
def Ex.key0 : GoString := lit "media/u1/m1/cat.png"

/-- The blob key of version 1. -/
def Ex.keyV : GoString := lit "media/u1/m1/v1/cat_edit.png"

/-- `u1` creates `cat.png`. -/
def Ex.s1 : State := exec (Env.calm Ex.m1 1000000000) State.init (.create Ex.u1 Ex.catReq)

/-- The bytes are uploaded. -/
def Ex.s2 : State := exec (Env.calm [] 2000000000) Ex.s1 (.upload Ex.key0)

/-- The media is read, which caches it. -/
def Ex.s3 : State := exec (Env.calm [] 3000000000) Ex.s2 (.get Ex.m1)

/-- `u1` creates version 1. -/
def Ex.s4 : State :=
  exec (Env.calm Ex.v1 4000000000) Ex.s3 (.createVersion Ex.m1 Ex.u1 Ex.editReq)

/-- The bytes of version 1 are uploaded. -/
def Ex.s5 : State := exec (Env.calm [] 5000000000) Ex.s4 (.upload Ex.keyV)

/-- Version 1 is restored. -/
def Ex.s6 : State := exec (Env.calm [] 6000000000) Ex.s5 (.restoreVersion Ex.v1 Ex.u1)

/-- The record of `cat.png` as the collection holds it. -/
def Ex.catStored : Media :=
  { ID := Ex.m1, UserID := Ex.u1, Type_ := lit "image", Filename := lit "cat.png",
    MimeType := lit "image/png", Size := 2048, URL := [], ThumbnailURL := [],
    S3Key := Ex.key0, Metadata := [], CreatedAt := 1000000000, UpdatedAt := 1000000000 }

/-- Surroundings in which the cache does not answer. -/
def Env.cacheDown (uuid : GoString) (t : Time) : Env :=
  { Env.calm uuid t with cacheGetFails := true, cacheSetFails := true, cacheDelFails := true }

/-! ## `CreateVersion`, step by step -/

/-- The first backend call of `CreateVersion`: the lookup of the latest
version and the number derived from it. -/
def VersionService.readNextVersion (e : Env) (s : State) (mediaID : GoString) : Int :=
  match (if e.findFails then none else latestVersion s.versions mediaID) with
  | some latest => wrap64 (latest.Version + 1)
  | none => 1

/-- The rest of `CreateVersion`: the key is derived from the number read and
the version is inserted. -/
def VersionService.insertNumbered (e : Env) (s : State) (mediaID userID : GoString)
    (req : CreateVersionRequest) (nextVersion : Int) : Outcome MediaVersion :=
  let s3Key := lit "media/" ++ userID ++ lit "/" ++ mediaID ++ lit "/v" ++ fmtInt nextVersion
    ++ lit "/" ++ req.Filename
  let version : MediaVersion :=
    { ID := e.uuid, MediaID := mediaID, Version := nextVersion, Filename := req.Filename,
      MimeType := req.MimeType, Size := req.Size, S3Key := s3Key, URL := [],
      UploadedBy := userID, Comment := req.Comment, CreatedAt := e.clock 0 }
  match insertVersion e s.versions version with
  | .error err => (.error err, s)
  | .ok c => (.ok version, { s with versions := c })

/-- One call of `CreateVersion` on a fixed media id: its surroundings, its
caller and its request. -/
structure VersionCall where
  env : Env
  userID : GoString
  req : CreateVersionRequest

/-- Successive calls of `CreateVersion` on one media id, none overlapping
another: the results in call order and the stores at the end. -/
def createVersions (mediaID : GoString) :
    List VersionCall → State → List (Except Err MediaVersion) × State
  | [], s => ([], s)
  | c :: cs, s =>
    let o := VersionService.CreateVersion c.env s mediaID c.userID c.req
    let r := createVersions mediaID cs o.2
    (o.1 :: r.1, r.2)

/-- The version number a call was answered with. -/
def assigned : Except Err MediaVersion → Option Int
  | .ok v => some v.Version
  | .error _ => none

/-- The numbers of the stored versions of a media id. -/
def versionNumbers (s : State) (mediaID : GoString) : List Int :=
  (s.versions.filter (fun v => v.MediaID = mediaID)).map (fun v => v.Version)

/-- No two stored versions of one media id share a number. -/
def VersionsDistinct (s : State) : Prop := ∀ m, (versionNumbers s m).Nodup

/-- The values of a Go `int` on a 64-bit platform. -/
def fitsInt64 (x : Int) : Prop := -2 ^ 63 ≤ x ∧ x < 2 ^ 63

/-- The events in which a `CreateVersion` has its lookup answered and reads
a number whose successor is still a Go `int`. -/
def LookupAnswers (e : Env) (s : State) : Call → Prop
  | .createVersion i _ _ =>
    e.findFails = false ∧ ∀ v ∈ s.versions, v.MediaID = i → fitsInt64 (v.Version + 1)
  | _ => True

/-- Where a concurrent `CreateVersion` stands: not started, holding the number
it read, or returned. -/
inductive Phase where
  | idle
  | holds (next : Int)
  | done (r : Except Err MediaVersion)

/-- The next backend call of a `CreateVersion` in flight. -/
def VersionCall.step (mediaID : GoString) (c : VersionCall) (s : State) :
    Phase → Phase × State
  | .idle => (.holds (VersionService.readNextVersion c.env s mediaID), s)
  | .holds n =>
    let o := VersionService.insertNumbered c.env s mediaID c.userID c.req n
    (.done o.1, o.2)
  | .done r => (.done r, s)

/-- Concurrent calls of `CreateVersion` on one media id under a schedule: each
entry of the schedule names the call that performs its next backend call. -/
def runSchedule (mediaID : GoString) (calls : List VersionCall) :
    List Nat → State × List Phase → State × List Phase
  | [], c => c
  | i :: rest, (s, ps) =>
    match calls[i]?, ps[i]? with
    | some c, some p =>
      let r := c.step mediaID s p
      runSchedule mediaID calls rest (r.2, ps.set i r.1)
    | _, _ => runSchedule mediaID calls rest (s, ps)

/-- The version number a call in flight was answered with. -/
def Phase.number : Phase → Option Int
  | .done r => assigned r
  | _ => none

/-- The schedule in which no two calls overlap: call 0 reads and inserts,
then call 1, and so on. -/
def serialSchedule (n : Nat) : List Nat := (List.range n).flatMap (fun i => [i, i])

/-- Two calls by `u1` on the media of the scenario. -/
def Ex.twoCalls : List VersionCall :=
  [{ env := Env.calm (lit "va") 4000000000, userID := Ex.u1, req := Ex.editReq },
   { env := Env.calm (lit "vb") 4000000001, userID := Ex.u1, req := Ex.editReq }]


/-- The largest version number stored for a media id is `k`; `k = 0` stands
for a media id with no stored version. -/
def TopNumber (s : State) (mediaID : GoString) (k : Nat) : Prop :=
  (k = 0 ∧ ∀ v ∈ s.versions, v.MediaID ≠ mediaID) ∨
  (∃ v0 ∈ s.versions, v0.MediaID = mediaID ∧ v0.Version = (k : Int) ∧
    ∀ w ∈ s.versions, w.MediaID = mediaID → w.Version ≤ (k : Int))

/-! ## A scenario with a deleted version -/

/-- After the read of the scenario, `u1` creates a first version of `m1`. -/
def Ex.r1 : State :=
  exec (Env.calm (lit "va") 4000000000) Ex.s3 (.createVersion Ex.m1 Ex.u1 Ex.editReq)

/-- A second version of `m1`. -/
def Ex.r2 : State :=
  exec (Env.calm (lit "vb") 5000000000) Ex.r1 (.createVersion Ex.m1 Ex.u1 Ex.editReq)

/-- The second version is deleted. -/
def Ex.r3 : State := exec (Env.calm [] 6000000000) Ex.r2 (.deleteVersion (lit "vb") Ex.u1)

/-- The blob key a result carries. -/
def keyOf : Except Err MediaVersion → Option GoString
  | .ok v => some v.S3Key
  | .error _ => none

/-- The record of version 1 as the collection holds it. -/
def Ex.v1Stored : MediaVersion :=
  { ID := Ex.v1, MediaID := Ex.m1, Version := 1, Filename := lit "cat_edit.png",
    MimeType := lit "image/png", Size := 3000, S3Key := Ex.keyV, URL := [],
    UploadedBy := Ex.u1, Comment := [], CreatedAt := 4000000000 }

/-- After the restore, the cache entry of `m1` expires. -/
def Ex.s7 : State := exec (Env.calm [] 7000000000) Ex.s6 (.expire (cacheKey Ex.m1))

/-! ## A scenario with a version of another category -/

/-- A request for a version that is a video. -/
def Ex.clipReq : CreateVersionRequest :=
  { Filename := lit "cat.mp4", MimeType := lit "video/mp4", Size := 90000, Comment := [] }

/-- After the read of the scenario, `u1` creates a video version of the image `m1`. -/
def Ex.q1 : State :=
  exec (Env.calm (lit "vm") 4000000000) Ex.s3 (.createVersion Ex.m1 Ex.u1 Ex.clipReq)

/-- The video version is restored. -/
def Ex.q2 : State := exec (Env.calm [] 5000000000) Ex.q1 (.restoreVersion (lit "vm") Ex.u1)

/-- The category of a record is the one `getMediaType` derives from its MIME
type. -/
def CategoryOK (m : Media) : Prop := getMediaType m.MimeType = some m.Type_

instance (m : Media) : Decidable (CategoryOK m) := by
  unfold CategoryOK
  infer_instance

/-! ## Blob keys -/

/-- The key `fmt.Sprintf("media/%s/%s/%s", userID, mediaID, req.Filename)` of
`MediaService.Create`. -/
def mediaKey (userID mediaID filename : GoString) : GoString :=
  lit "media/" ++ userID ++ lit "/" ++ mediaID ++ lit "/" ++ filename

/-- The key `fmt.Sprintf("media/%s/%s/v%d/%s", userID, mediaID, nextVersion,
req.Filename)` of `VersionService.CreateVersion`. -/
def versionKey (userID mediaID : GoString) (nextVersion : Int) (filename : GoString) :
    GoString :=
  lit "media/" ++ userID ++ lit "/" ++ mediaID ++ lit "/v" ++ fmtInt nextVersion
    ++ lit "/" ++ filename

/-- The string holds no `/`. -/
def slashFree (s : GoString) : Prop := (47 : UInt8) ∉ s

/-- The decimal digits of `n` in front of `ds`, as bytes: what `Nat.toDigits`
computes, in UTF-8. -/
def digitsB : Nat → Nat → List UInt8 → List UInt8
  | 0, _, ds => ds
  | fuel + 1, n, ds =>
    if n / 10 = 0 then UInt8.ofNat (48 + n % 10) :: ds
    else digitsB fuel (n / 10) (UInt8.ofNat (48 + n % 10) :: ds)

/-- The number a string of decimal digits denotes. -/
def valB : List UInt8 → Nat
  | [] => 0
  | b :: bs => (b.toNat - 48) * 10 ^ bs.length + valB bs

/-- The integer a decimal rendering denotes. -/
def decInt : GoString → Int
  | 45 :: t => -(valB t : Int)
  | l => (valB l : Int)

/-- The blob key a `Create` result carries. -/
def mediaKeyOf : Except Err Media → Option GoString
  | .ok m => some m.S3Key
  | .error _ => none

/-- An upload whose filename holds a `/`. -/
def Ex.slashReq : UploadRequest :=
  { Filename := lit "v1/cat.png", MimeType := lit "image/png", Size := 2048 }

/-- A request for a version named `cat.png`. -/
def Ex.catVersionReq : CreateVersionRequest :=
  { Filename := lit "cat.png", MimeType := lit "image/png", Size := 2048, Comment := [] }

/-- The stores after `u1` created `v1/cat.png` as media `m1`. -/
def Ex.t1 : State := exec (Env.calm Ex.m1 1000000000) State.init (.create Ex.u1 Ex.slashReq)

/-- Every record of the collection is its own BSON image: its timestamps are
whole milliseconds. -/
def BsonNormal (M : List Media) : Prop := ∀ d ∈ M, bsonMedia d = d

/-- Surroundings whose first clock reading is the last nanosecond of a
millisecond. -/
def Ex.lateEnv : Env := Env.calm (lit "t1") 4000999999

/-- The stores after `u1` moved `m1` to the trash in these surroundings. -/
def Ex.w1 : State := exec Ex.lateEnv Ex.s3 (.moveToTrash Ex.m1 Ex.u1)

/-- Every `Media` value held in the three stores has the category of its
MIME type. -/
def CatOn (M : List Media) (T : List TrashedMedia) (C : List (GoString × Payload)) : Prop :=
  ∀ d ∈ docsOf M T C, CategoryOK d

/-- Every `Media` value held anywhere has the category of its MIME type. -/
def CategoryInv (s : State) : Prop := CatOn s.media s.trash s.cache

/-! ## The bulk operations of `MediaService` -/

structure BulkDeleteResponse where
  Deleted : List GoString
  Failed : List GoString
deriving DecidableEq, Repr

/-- The loop `for _, id := range mediaIDs` of `BulkDelete` and of `BulkMove`,
from the item at position `k` on: `op k` is the single-item call made for that
item, in its own surroundings. An id is appended to `Failed` when the call
returns an error and to `Deleted` otherwise. -/
def bulkLoop (op : Nat → State → GoString → Outcome Unit) :
    Nat → List GoString → BulkDeleteResponse × State → BulkDeleteResponse × State
  | _, [], acc => acc
  | k, id :: rest, (resp, s) =>
    match op k s id with
    | (.error _, s1) =>
      bulkLoop op (k + 1) rest ({ resp with Failed := resp.Failed ++ [id] }, s1)
    | (.ok _, s1) =>
      bulkLoop op (k + 1) rest ({ resp with Deleted := resp.Deleted ++ [id] }, s1)

/-- `MediaService.BulkDelete`; `e k` are the surroundings of the call for the
item at position `k`. -/
def MediaService.BulkDelete (e : Nat → Env) (s : State) (mediaIDs : List GoString)
    (userID : GoString) : BulkDeleteResponse × State :=
  bulkLoop (fun k s1 id => MediaService.Delete (e k) s1 id userID) 0 mediaIDs
    ({ Deleted := [], Failed := [] }, s)

/-- `MediaService.BulkMove`. -/
def MediaService.BulkMove (e : Nat → Env) (s : State) (mediaIDs : List GoString)
    (userID targetWorkspaceID : GoString) : BulkDeleteResponse × State :=
  bulkLoop (fun k s1 id => MediaService.MoveMedia (e k) s1 id userID targetWorkspaceID) 0
    mediaIDs ({ Deleted := [], Failed := [] }, s)

/-- The items of `ids` whose flag in `ok` is `b`, in order. -/
def pick (b : Bool) (ids : List GoString) (ok : List Bool) : List GoString :=
  ((ids.zip ok).filter (fun p => p.2 == b)).map (fun p => p.1)

/-! ## `QuotaService` (`quota_service.go`) -/

/-- `QuotaService.GetByWorkspace`: `FindOne` on `storage_quotas` filtered by
`workspaceId`. -/
def QuotaService.GetByWorkspace (e : Env) (s : State) (workspaceID : GoString) :
    Outcome StorageQuota :=
  if e.findFails then (.error .backend, s)
  else match s.quotas.find? (fun q => q.WorkspaceID = workspaceID) with
    | none => (.error .noDocuments, s)
    | some q => (.ok q, s)

/-- The upsert of `SetQuota` on the collection: `$set` on the first record of
the workspace, or the insert of a record with the `$set` and `$setOnInsert`
fields when the workspace has none. -/
def upsertQuota (e : Env) (c : List StorageQuota) (req : SetQuotaRequest) (now : Time) :
    Except Err (List StorageQuota) :=
  if e.updateFails then .error .backend
  else if c.any (fun q => q.WorkspaceID = req.WorkspaceID) then
    .ok (updateOne (fun q => q.WorkspaceID = req.WorkspaceID)
      (fun q => { q with MaxStorageMB := req.MaxStorageMB, MaxFileCount := req.MaxFileCount,
                         UpdatedAt := bsonTime now }) c)
  else if c.any (fun q => q.ID = e.uuid) then .error .duplicateKey
  else
    .ok (c ++ [{ ID := e.uuid, WorkspaceID := req.WorkspaceID,
                 MaxStorageMB := req.MaxStorageMB, UsedStorageMB := 0,
                 MaxFileCount := req.MaxFileCount, CurrentFileCount := 0,
                 CreatedAt := bsonTime now, UpdatedAt := bsonTime now }])

/-- `QuotaService.SetQuota`. The clock is read once. -/
def QuotaService.SetQuota (e : Env) (s : State) (req : SetQuotaRequest) :
    Outcome StorageQuota :=
  let now := e.clock 0
  match upsertQuota e s.quotas req now with
  | .error err => (.error err, s)
  | .ok c => QuotaService.GetByWorkspace e { s with quotas := c } req.WorkspaceID

/-- A quota request of the scenario. -/
def Ex.quotaReq : SetQuotaRequest :=
  { WorkspaceID := lit "w1", MaxStorageMB := 1024, MaxFileCount := 500 }

/-- A second quota request for the same workspace. -/
def Ex.quotaReq2 : SetQuotaRequest :=
  { WorkspaceID := lit "w1", MaxStorageMB := 2048, MaxFileCount := 900 }

/-- The stores after the first `SetQuota` on `w1`. -/
def Ex.k1 : State := (QuotaService.SetQuota (Env.calm (lit "q1") 8000000000) Ex.s3 Ex.quotaReq).2

/-! ## The states of the whole system -/

/-- The states the stores can be in when `SetQuota` and the bulk operations
are called as well: from empty stores, any sequence of events of the lifecycle
services, bulk operations and `SetQuota` calls, each in any surroundings. -/
inductive Operated : State → Prop
  | init : Operated State.init
  | call {s : State} (e : Env) (c : Call) : Operated s → Operated (exec e s c)
  | bulkDelete {s : State} (e : Nat → Env) (ids : List GoString) (u : GoString) :
      Operated s → Operated (MediaService.BulkDelete e s ids u).2
  | bulkMove {s : State} (e : Nat → Env) (ids : List GoString) (u w : GoString) :
      Operated s → Operated (MediaService.BulkMove e s ids u w).2
  | setQuota {s : State} (e : Env) (req : SetQuotaRequest) :
      Operated s → Operated (QuotaService.SetQuota e s req).2

/-- Surroundings in which `DeleteOne` fails and every other backend answers. -/
def Env.deleteDown (uuid : GoString) (t : Time) : Env :=
  { Env.calm uuid t with deleteFails := true }

/-! ## `MediaHandler.Upload` (`media_handler.go`) -/

/-- The check of `c.ShouldBindJSON(&req)` on a decoded `UploadRequest`: the
tag `binding:"required"` on `Filename`, `MimeType` and `Size` makes the bind
fail for a field that is absent or has the zero value of its type. -/
def bindUploadRequest (req : UploadRequest) : Bool :=
  req.Filename ≠ [] ∧ req.MimeType ≠ [] ∧ req.Size ≠ 0

/-- `MediaHandler.Upload`: the HTTP status written, and the stores afterwards.
`body` is the request body as decoded into `UploadRequest`, `none` when it is
not JSON of that shape. -/
def MediaHandler.Upload (e : Env) (s : State) (userID : GoString)
    (body : Option UploadRequest) : Nat × State :=
  match body with
  | none => (400, s)
  | some req =>
    if bindUploadRequest req = false then (400, s)
    else
      match MediaService.Create e s userID req with
      | (.error _, s1) => (500, s1)
      | (.ok _, s1) => (200, s1)

/-- An upload request with a zero-length filename. -/
def Ex.noNameReq : UploadRequest :=
  { Filename := [], MimeType := lit "image/png", Size := 2048 }

/-- Surroundings in which `FindOne` fails with a backend error and every other
backend answers. -/
def Env.findDown (uuid : GoString) (t : Time) : Env :=
  { Env.calm uuid t with findFails := true }

/-! ## The order of the backend calls -/

/-- A call to a backend as a service function issues it; `ok` tells whether
the call returned without error. -/
inductive Effect where
  /-- `redis.Get`. -/
  | cacheGet (key : GoString)
  /-- `json.Marshal` and `redis.Set`. -/
  | cacheSet (key : GoString) (ok : Bool)
  /-- `redis.Del`. -/
  | cacheDel (key : GoString)
  /-- `FindOne` on `media`. -/
  | findMedia (mediaID : GoString)
  /-- `S3Storage.Delete`. -/
  | blobDelete (key : GoString) (ok : Bool)
  /-- `InsertOne` into `media_trash`. -/
  | insertTrash (trashID : GoString) (ok : Bool)
  /-- `UpdateOne` on `media`. -/
  | updateMedia (mediaID : GoString) (ok : Bool)
  /-- `DeleteOne` on `media`. -/
  | deleteMedia (mediaID : GoString) (ok : Bool)
deriving DecidableEq, Repr

/-- `MediaService.Get`, with the backend calls it issued, in order. -/
def MediaService.GetT (e : Env) (s : State) (mediaID : GoString) :
    Outcome Media × List Effect :=
  match (if e.cacheGetFails then none else cacheGet s.cache (cacheKey mediaID)) with
  | some (some media) => ((.ok media, s), [.cacheGet (cacheKey mediaID)])
  | _ =>
    match findMedia e s.media mediaID with
    | .error err => ((.error err, s), [.cacheGet (cacheKey mediaID), .findMedia mediaID])
    | .ok found =>
      let media := { found with URL := e.presign found.S3Key }
      if e.cacheSetFails then
        ((.ok media, s),
          [.cacheGet (cacheKey mediaID), .findMedia mediaID, .cacheSet (cacheKey mediaID) false])
      else
        ((.ok media, { s with cache := cacheSet s.cache (cacheKey mediaID) (some media) }),
          [.cacheGet (cacheKey mediaID), .findMedia mediaID, .cacheSet (cacheKey mediaID) true])

/-- `MediaService.Delete`, with the backend calls it issued, in order. -/
def MediaService.DeleteT (e : Env) (s : State) (mediaID userID : GoString) :
    Outcome Unit × List Effect :=
  match MediaService.GetT e s mediaID with
  | ((.error err, s1), log) => ((.error err, s1), log)
  | ((.ok media, s1), log) =>
    if media.UserID ≠ userID then ((.error .unauthorized, s1), log)
    else if e.blobDeleteFails media.S3Key then
      ((.error .backend, s1), log ++ [.blobDelete media.S3Key false])
    else
      let s2 := { s1 with blobs := blobDelete s1.blobs media.S3Key }
      if e.deleteFails then
        ((.error .backend, s2),
          log ++ [.blobDelete media.S3Key true, .deleteMedia mediaID false])
      else
        let s3 := { s2 with media := deleteOne (fun m => m.ID = mediaID) s2.media }
        if e.cacheDelFails then
          ((.ok (), s3), log ++ [.blobDelete media.S3Key true, .deleteMedia mediaID true,
            .cacheDel (cacheKey mediaID)])
        else
          ((.ok (), { s3 with cache := cacheDel s3.cache (cacheKey mediaID) }),
            log ++ [.blobDelete media.S3Key true, .deleteMedia mediaID true,
              .cacheDel (cacheKey mediaID)])

/-- The part `UpdateMetadata`, `Rename` and `MoveMedia` have in common after
the ownership check: `UpdateOne` with the `$set` given as `upd`, then
`redis.Del`. -/
def updateThenInvalidate (e : Env) (s1 : State) (mediaID : GoString) (upd : Media → Media)
    (log : List Effect) : Outcome Unit × List Effect :=
  if e.updateFails then ((.error .backend, s1), log ++ [.updateMedia mediaID false])
  else
    let s2 := { s1 with media := updateOne (fun m => m.ID = mediaID) upd s1.media }
    if e.cacheDelFails then
      ((.ok (), s2), log ++ [.updateMedia mediaID true, .cacheDel (cacheKey mediaID)])
    else
      ((.ok (), { s2 with cache := cacheDel s2.cache (cacheKey mediaID) }),
        log ++ [.updateMedia mediaID true, .cacheDel (cacheKey mediaID)])

/-- `MediaService.UpdateMetadata`, with the backend calls it issued. -/
def MediaService.UpdateMetadataT (e : Env) (s : State) (mediaID userID : GoString)
    (metadata : StrMap) : Outcome Unit × List Effect :=
  match MediaService.GetT e s mediaID with
  | ((.error err, s1), log) => ((.error err, s1), log)
  | ((.ok media, s1), log) =>
    if media.UserID ≠ userID then ((.error .unauthorized, s1), log)
    else
      updateThenInvalidate e s1 mediaID
        (fun m => { m with Metadata := metadata, UpdatedAt := bsonTime (e.clock 0) }) log

/-- `MediaService.Rename`, with the backend calls it issued. -/
def MediaService.RenameT (e : Env) (s : State) (mediaID userID newFilename : GoString) :
    Outcome Unit × List Effect :=
  match MediaService.GetT e s mediaID with
  | ((.error err, s1), log) => ((.error err, s1), log)
  | ((.ok media, s1), log) =>
    if media.UserID ≠ userID then ((.error .unauthorized, s1), log)
    else
      updateThenInvalidate e s1 mediaID
        (fun m => { m with Filename := newFilename, UpdatedAt := bsonTime (e.clock 0) }) log

/-- `MediaService.MoveMedia`, with the backend calls it issued. -/
def MediaService.MoveMediaT (e : Env) (s : State) (mediaID userID targetWorkspaceID : GoString) :
    Outcome Unit × List Effect :=
  match MediaService.GetT e s mediaID with
  | ((.error err, s1), log) => ((.error err, s1), log)
  | ((.ok media, s1), log) =>
    if media.UserID ≠ userID then ((.error .unauthorized, s1), log)
    else
      updateThenInvalidate e s1 mediaID
        (fun m => { m with Metadata := m.Metadata.set (lit "workspaceId") targetWorkspaceID,
                           UpdatedAt := bsonTime (e.clock 0) }) log

/-- `TrashService.MoveToTrash`, with the backend calls it issued. -/
def TrashService.MoveToTrashT (e : Env) (s : State) (mediaID userID : GoString) :
    Outcome Unit × List Effect :=
  match findMedia e s.media mediaID with
  | .error err => ((.error err, s), [.findMedia mediaID])
  | .ok media =>
    if media.UserID ≠ userID then ((.error .unauthorized, s), [.findMedia mediaID])
    else
      let trashed : TrashedMedia :=
        { ID := e.uuid, MediaID := mediaID, UserID := userID, OriginalDoc := media,
          TrashedAt := e.clock 0, ExpiresAt := e.clock 1 + 30 * 24 * Hour }
      match insertTrash e s.trash trashed with
      | .error err => ((.error err, s), [.findMedia mediaID, .insertTrash e.uuid false])
      | .ok c =>
        let s1 := { s with trash := c }
        if e.deleteFails then
          ((.error .backend, s1),
            [.findMedia mediaID, .insertTrash e.uuid true, .deleteMedia mediaID false])
        else
          let s2 := { s1 with media := deleteOne (fun m => m.ID = mediaID) s1.media }
          if e.cacheDelFails then
            ((.ok (), s2), [.findMedia mediaID, .insertTrash e.uuid true,
              .deleteMedia mediaID true, .cacheDel (cacheKey mediaID)])
          else
            ((.ok (), { s2 with cache := cacheDel s2.cache (cacheKey mediaID) }),
              [.findMedia mediaID, .insertTrash e.uuid true, .deleteMedia mediaID true,
                .cacheDel (cacheKey mediaID)])

/-- The call is the mutation of the record `mediaID` in the metadata store,
returned without error. -/
def Effect.commits (mediaID : GoString) : Effect → Bool
  | .updateMedia i ok => i = mediaID ∧ ok = true
  | .deleteMedia i ok => i = mediaID ∧ ok = true
  | _ => false

/-- The call is the mutation of the record `mediaID` in the metadata store,
returned with an error. -/
def Effect.aborts (mediaID : GoString) : Effect → Bool
  | .updateMedia i ok => i = mediaID ∧ ok = false
  | .deleteMedia i ok => i = mediaID ∧ ok = false
  | _ => false

/-- In the sequence of calls `log`, every invalidation of `media:<mediaID>`
comes after a mutation of that record that returned without error, and there
is none when a mutation of that record returned an error. -/
def InvalidateAfterCommit (mediaID : GoString) (log : List Effect) : Prop :=
  (∀ p : Nat, log[p]? = some (Effect.cacheDel (cacheKey mediaID)) →
    ∃ (q : Nat) (x : Effect), q < p ∧ log[q]? = some x ∧ x.commits mediaID = true) ∧
  ((∃ x ∈ log, x.aborts mediaID = true) → Effect.cacheDel (cacheKey mediaID) ∉ log)

/-- The call is neither a mutation of `media` nor a cache invalidation. -/
def Effect.quiet : Effect → Bool
  | .updateMedia _ _ => false
  | .deleteMedia _ _ => false
  | .cacheDel _ => false
  | _ => true

/-- The three ways a mutating call can have gone: it returned an error before
the mutation of record `mediaID` was issued, and only quiet calls were made;
the mutation was issued last and returned an error, which the call returns;
the mutation returned without error, the invalidation of `media:<mediaID>`
followed, and the call returned no error. -/
def CommitShape (mediaID : GoString) (r : Outcome Unit × List Effect) : Prop :=
  ∃ pre : List Effect, (∀ x ∈ pre, x.quiet = true) ∧
    ((∃ err, r.1.1 = .error err ∧
        (r.2 = pre ∨ ∃ x : Effect, x.aborts mediaID = true ∧ r.2 = pre ++ [x])) ∨
      (r.1.1 = .ok () ∧
        ∃ x : Effect, x.commits mediaID = true ∧
          r.2 = pre ++ [x, Effect.cacheDel (cacheKey mediaID)]))

/-- Surroundings in which `redis.Del` fails and every other backend
answers. -/
def Env.delLost (uuid : GoString) (t : Time) : Env :=
  { Env.calm uuid t with cacheDelFails := true }

/-! ## Theorems: `getMediaType` -/

theorem sliceTo_of_le {s : GoString} {hi : Nat} (h : hi ≤ s.length) :
    sliceTo s hi = some (s.take hi) := by
  simp [sliceTo, h]

/-- What `getMediaType` computes, with the slices resolved. -/
theorem getMediaType_eq (m : GoString) :
    getMediaType m =
      some (if m.take 5 = lit "image" then lit "image"
        else if m.take 5 = lit "video" then lit "video"
        else if m.take 5 = lit "audio" then lit "audio"
        else lit "document") := by
  unfold getMediaType
  by_cases h : m.length < 5
  · have hne : ∀ t : GoString, t.length = 5 → m.take 5 ≠ t := by
      intro t ht heq
      have := congrArg List.length heq
      simp [List.length_take] at this
      omega
    have h1 := hne (lit "image") (by decide)
    have h2 := hne (lit "video") (by decide)
    have h3 := hne (lit "audio") (by decide)
    simp [h, h1, h2, h3]
  · have hle : 5 ≤ m.length := by omega
    simp only [h, if_false, sliceTo_of_le hle, Option.some_bind]
    split_ifs <;> rfl

theorem take_eq_iff_isPrefix (t m : GoString) : m.take t.length = t ↔ t <+: m := by
  rw [List.prefix_iff_eq_take]
  exact eq_comm

/-- C1 (as stated, refuted): the MIME type `images` does not start with
`image/`, yet `getMediaType` classifies it as `image`. -/
theorem C1_counterexample :
    getMediaType (lit "images") = some (lit "image") ∧ ¬ (lit "image/" <+: lit "images") := by
  decide

/-- C1 (amended): `getMediaType m` is `image` exactly when the first five
bytes of `m` are `image` (no `/` is required after them), `video` exactly when
they are `video`, `audio` exactly when they are `audio`, and `document`
exactly when they are none of the three. -/
theorem C1_getMediaType_first_five_bytes (m : GoString) :
    (getMediaType m = some (lit "image") ↔ lit "image" <+: m) ∧
    (getMediaType m = some (lit "video") ↔ lit "video" <+: m) ∧
    (getMediaType m = some (lit "audio") ↔ lit "audio" <+: m) ∧
    (getMediaType m = some (lit "document") ↔
      ¬ (lit "image" <+: m) ∧ ¬ (lit "video" <+: m) ∧ ¬ (lit "audio" <+: m)) := by
  have e1 := take_eq_iff_isPrefix (lit "image") m
  have e2 := take_eq_iff_isPrefix (lit "video") m
  have e3 := take_eq_iff_isPrefix (lit "audio") m
  have l1 : (lit "image").length = 5 := by decide
  have l2 : (lit "video").length = 5 := by decide
  have l3 : (lit "audio").length = 5 := by decide
  rw [l1] at e1
  rw [l2] at e2
  rw [l3] at e3
  rw [← e1, ← e2, ← e3, getMediaType_eq]
  have d12 : lit "image" ≠ lit "video" := by decide
  have d13 : lit "image" ≠ lit "audio" := by decide
  have d14 : lit "image" ≠ lit "document" := by decide
  have d23 : lit "video" ≠ lit "audio" := by decide
  have d24 : lit "video" ≠ lit "document" := by decide
  have d34 : lit "audio" ≠ lit "document" := by decide
  by_cases h1 : m.take 5 = lit "image"
  · simp [h1, d12, d13, d14]
  · by_cases h2 : m.take 5 = lit "video"
    · simp [h2, d12.symm, d23, d24]
    · by_cases h3 : m.take 5 = lit "audio"
      · simp [h3, d13.symm, d23.symm, d34]
      · simp [h1, h2, h3, d14.symm, d24.symm, d34.symm]

/-- C2: `getMediaType` is total. For every byte string, the empty one and
those shorter than five bytes included, no slice expression panics, the
result is one of `image`, `video`, `audio`, `document`, and it is `document`
whenever the first five bytes are none of `image`, `video`, `audio`. -/
theorem C2_getMediaType_total (m : GoString) :
    ∃ r, getMediaType m = some r ∧
      r ∈ [lit "image", lit "video", lit "audio", lit "document"] ∧
      (m.take 5 ≠ lit "image" → m.take 5 ≠ lit "video" → m.take 5 ≠ lit "audio" →
        r = lit "document") := by
  refine ⟨_, getMediaType_eq m, ?_, ?_⟩
  · split_ifs <;> simp
  · intro h1 h2 h3
    simp [h1, h2, h3]

/-! ## Theorems: the store primitives -/

theorem cacheKey_injective {a b : GoString} (h : cacheKey a = cacheKey b) : a = b := by
  unfold cacheKey at h
  exact List.append_cancel_left h

theorem map_updateOne {α β : Type} (g : α → β) (p : α → Bool) (f : α → α)
    (hg : ∀ x, g (f x) = g x) (l : List α) : (updateOne p f l).map g = l.map g := by
  induction l with
  | nil => rfl
  | cons d ds ih =>
    unfold updateOne
    split_ifs
    · simp [hg]
    · simp [ih]

theorem find_updateOne {α : Type} (p : α → Bool) (f : α → α)
    (hp : ∀ x, p x = true → p (f x) = true) (l : List α) :
    (updateOne p f l).find? p = (l.find? p).map f := by
  induction l with
  | nil => rfl
  | cons d ds ih =>
    unfold updateOne
    by_cases h : p d = true
    · simp [h, hp d h]
    · simp [h, ih]

theorem find_append_new {α : Type} (p : α → Bool) (l : List α) (x : α)
    (hl : l.any p = false) (hx : p x = true) : (l ++ [x]).find? p = some x := by
  induction l with
  | nil => simp [hx]
  | cons d ds ih =>
    simp only [List.any_cons, Bool.or_eq_false_iff] at hl
    simp [hl.1, ih hl.2]

theorem find_deleteOne_none (l : List Media) (i : GoString)
    (hn : (l.map (fun m => m.ID)).Nodup) :
    (deleteOne (fun m => decide (m.ID = i)) l).find? (fun m => decide (m.ID = i)) = none := by
  induction l with
  | nil => rfl
  | cons d ds ih =>
    simp only [List.map_cons, List.nodup_cons] at hn
    unfold deleteOne at *
    by_cases h : d.ID = i
    · simp only [List.eraseP_cons, h, decide_True, cond_true]
      rw [List.find?_eq_none]
      intro x hx hxi
      simp only [decide_eq_true_eq] at hxi
      apply hn.1
      rw [h, ← hxi]
      exact List.mem_map_of_mem _ hx
    · simp [List.eraseP_cons, h, ih hn.2]

theorem cacheGet_cacheDel (c : List (GoString × Payload)) (k : GoString) :
    cacheGet (cacheDel c k) k = none := by
  simp only [cacheGet, cacheDel, List.lookup_eq_none_iff]
  intro p hp
  simp only [List.mem_filter, decide_eq_true_eq] at hp
  simp only [bne_iff_ne, ne_eq]
  exact fun h => hp.2 h.symm

theorem mem_of_cacheGet {c : List (GoString × Payload)} {k : GoString} {v : Payload}
    (h : cacheGet c k = some v) : (k, v) ∈ c := by
  unfold cacheGet at h
  induction c with
  | nil => simp at h
  | cons p ps ih =>
    obtain ⟨a, b⟩ := p
    by_cases hk : k = a
    · subst hk
      simp only [List.lookup_cons, beq_self_eq_true, Option.some.injEq] at h
      simp [h]
    · have hb : (k == a) = false := by simpa using hk
      simp only [List.lookup_cons, hb] at h
      exact List.mem_cons_of_mem _ (ih h)

/-! ## Theorems: the invariant of the reachable states -/

theorem mem_docsOf {M : List Media} {T : List TrashedMedia} {C : List (GoString × Payload)}
    {d : Media} :
    d ∈ docsOf M T C ↔ d ∈ M ∨ (∃ t ∈ T, t.OriginalDoc = d) ∨ ∃ k, (k, some d) ∈ C := by
  simp only [docsOf, List.mem_append, List.mem_map, List.mem_filterMap, Prod.exists, or_assoc]
  constructor
  · rintro (h | h | ⟨k, v, h, rfl⟩)
    · exact Or.inl h
    · exact Or.inr (Or.inl h)
    · exact Or.inr (Or.inr ⟨k, h⟩)
  · rintro (h | h | ⟨k, h⟩)
    · exact Or.inl h
    · exact Or.inr (Or.inl h)
    · exact Or.inr (Or.inr ⟨k, _, h, rfl⟩)

theorem StoreInvOn.of_updateOne {M : List Media} {T : List TrashedMedia}
    {C : List (GoString × Payload)} (h : StoreInvOn M T C) (p : Media → Bool) (f : Media → Media)
    (hid : ∀ m, (f m).ID = m.ID) (hu : ∀ m, (f m).UserID = m.UserID) :
    StoreInvOn (updateOne p f M) T C := by
  have key : ∀ d ∈ docsOf (updateOne p f M) T C,
      ∃ d0 ∈ docsOf M T C, d.ID = d0.ID ∧ d.UserID = d0.UserID := by
    intro d hd
    rw [mem_docsOf] at hd
    rcases hd with hd | hd | hd
    · have : (d.ID, d.UserID) ∈ (updateOne p f M).map (fun m => (m.ID, m.UserID)) :=
        List.mem_map_of_mem (fun m => (m.ID, m.UserID)) hd
      rw [map_updateOne _ _ _ (by intro x; simp [hid, hu])] at this
      obtain ⟨d0, hd0, he⟩ := List.mem_map.1 this
      simp only [Prod.mk.injEq] at he
      exact ⟨d0, mem_docsOf.2 (Or.inl hd0), he.1.symm, he.2.symm⟩
    · exact ⟨d, mem_docsOf.2 (Or.inr (Or.inl hd)), rfl, rfl⟩
    · exact ⟨d, mem_docsOf.2 (Or.inr (Or.inr hd)), rfl, rfl⟩
  refine ⟨?_, h.keyed, ?_⟩
  · rw [map_updateOne _ _ _ hid]
    exact h.nodup
  · intro d1 h1 d2 h2 he
    obtain ⟨a1, ha1, e1, u1⟩ := key d1 h1
    obtain ⟨a2, ha2, e2, u2⟩ := key d2 h2
    rw [u1, u2]
    exact h.owner a1 ha1 a2 ha2 (by rw [← e1, ← e2, he])

theorem StoreInvOn.shrink {M M1 : List Media} {T T1 : List TrashedMedia}
    {C C1 : List (GoString × Payload)} (h : StoreInvOn M T C)
    (hM : M1.Sublist M) (hT : ∀ t ∈ T1, t ∈ T) (hC : ∀ p ∈ C1, p ∈ C) :
    StoreInvOn M1 T1 C1 := by
  have key : ∀ d ∈ docsOf M1 T1 C1, d ∈ docsOf M T C := by
    intro d hd
    rw [mem_docsOf] at hd ⊢
    rcases hd with hd | ⟨t, ht, rfl⟩ | ⟨k, hk⟩
    · exact Or.inl (hM.subset hd)
    · exact Or.inr (Or.inl ⟨t, hT t ht, rfl⟩)
    · exact Or.inr (Or.inr ⟨k, hC _ hk⟩)
  refine ⟨?_, ?_, ?_⟩
  · exact h.nodup.sublist (hM.map _)
  · exact fun k m hm => h.keyed k m (hC _ hm)
  · exact fun d1 h1 d2 h2 he => h.owner d1 (key d1 h1) d2 (key d2 h2) he

theorem StoreInvOn.of_deleteMedia {M : List Media} {T : List TrashedMedia}
    {C : List (GoString × Payload)} (h : StoreInvOn M T C) (p : Media → Bool) :
    StoreInvOn (deleteOne p M) T C :=
  h.shrink (List.eraseP_sublist M) (fun _ ht => ht) (fun _ hp => hp)

theorem StoreInvOn.of_deleteTrash {M : List Media} {T : List TrashedMedia}
    {C : List (GoString × Payload)} (h : StoreInvOn M T C) (p : TrashedMedia → Bool) :
    StoreInvOn M (deleteOne p T) C :=
  h.shrink (List.Sublist.refl M) (fun _ ht => (List.eraseP_sublist T).subset ht) (fun _ hp => hp)

theorem StoreInvOn.of_filterTrash {M : List Media} {T : List TrashedMedia}
    {C : List (GoString × Payload)} (h : StoreInvOn M T C) (p : TrashedMedia → Bool) :
    StoreInvOn M (T.filter p) C :=
  h.shrink (List.Sublist.refl M) (fun _ ht => (List.mem_filter.1 ht).1) (fun _ hp => hp)

theorem StoreInvOn.of_cacheDel {M : List Media} {T : List TrashedMedia}
    {C : List (GoString × Payload)} (h : StoreInvOn M T C) (k : GoString) :
    StoreInvOn M T (cacheDel C k) :=
  h.shrink (List.Sublist.refl M) (fun _ ht => ht) (fun _ hp => (List.mem_filter.1 hp).1)

/-- Adding `Media` values whose id and owner agree with a value already held,
or that carry an id `a` no held value disagrees on. -/
theorem StoreInvOn.extend {M M1 : List Media} {T T1 : List TrashedMedia}
    {C C1 : List (GoString × Payload)} (h : StoreInvOn M T C) (a b : GoString)
    (hn : (M1.map (fun m => m.ID)).Nodup)
    (hk : ∀ k m, (k, some m) ∈ C1 → k = cacheKey m.ID)
    (hd : ∀ d ∈ docsOf M1 T1 C1,
      (∃ d0 ∈ docsOf M T C, d.ID = d0.ID ∧ d.UserID = d0.UserID) ∨ (d.ID = a ∧ d.UserID = b))
    (hab : ∀ d ∈ docsOf M T C, d.ID = a → d.UserID = b) :
    StoreInvOn M1 T1 C1 := by
  refine ⟨hn, hk, ?_⟩
  intro d1 h1 d2 h2 he
  rcases hd d1 h1 with ⟨a1, ha1, e1, u1⟩ | ⟨e1, u1⟩ <;>
    rcases hd d2 h2 with ⟨a2, ha2, e2, u2⟩ | ⟨e2, u2⟩
  · rw [u1, u2]
    exact h.owner a1 ha1 a2 ha2 (by rw [← e1, ← e2, he])
  · rw [u1, u2]
    exact hab a1 ha1 (by rw [← e1, he, e2])
  · rw [u1, u2]
    exact (hab a2 ha2 (by rw [← e2, ← he, e1])).symm
  · rw [u1, u2]

theorem insertMedia_ok {e : Env} {M M1 : List Media} {d : Media}
    (h : insertMedia e M d = .ok M1) :
    e.insertFails = false ∧ M.any (fun m => decide (m.ID = d.ID)) = false ∧
      M1 = M ++ [bsonMedia d] := by
  unfold insertMedia at h
  split_ifs at h with h1 h2
  simp only [Except.ok.injEq] at h
  exact ⟨by simpa using h1, by simpa using h2, h.symm⟩

theorem findMedia_ok {e : Env} {M : List Media} {i : GoString} {found : Media}
    (h : findMedia e M i = .ok found) :
    e.findFails = false ∧ M.find? (fun m => decide (m.ID = i)) = some found ∧
      found ∈ M ∧ found.ID = i := by
  unfold findMedia at h
  split_ifs at h with h1
  split at h
  · cases h
  · rename_i m hm
    simp only [Except.ok.injEq] at h
    subst h
    refine ⟨by simpa using h1, hm, List.mem_of_find?_eq_some hm, ?_⟩
    simpa using List.find?_some hm

theorem StoreInvOn.of_insertMedia {M M1 : List Media} {T : List TrashedMedia}
    {C : List (GoString × Payload)} (h : StoreInvOn M T C) {e : Env} {d : Media}
    (hi : insertMedia e M d = .ok M1)
    (hab : ∀ d0 ∈ docsOf M T C, d0.ID = d.ID → d0.UserID = d.UserID) :
    StoreInvOn M1 T C := by
  obtain ⟨-, hany, rfl⟩ := insertMedia_ok hi
  refine h.extend d.ID d.UserID ?_ h.keyed ?_ hab
  · rw [List.map_append, List.nodup_append]
    refine ⟨h.nodup, by simp, ?_⟩
    intro a ha hb
    simp only [List.map_cons, List.map_nil, List.mem_singleton] at hb
    obtain ⟨m, hm, rfl⟩ := List.mem_map.1 ha
    have := List.any_eq_false.1 hany m hm
    simp only [decide_eq_true_eq] at this
    exact this hb
  · intro x hx
    rw [mem_docsOf] at hx
    rcases hx with hx | hx | hx
    · rcases List.mem_append.1 hx with hx | hx
      · exact Or.inl ⟨x, mem_docsOf.2 (Or.inl hx), rfl, rfl⟩
      · simp only [List.mem_singleton] at hx
        subst hx
        exact Or.inr ⟨rfl, rfl⟩
    · exact Or.inl ⟨x, mem_docsOf.2 (Or.inr (Or.inl hx)), rfl, rfl⟩
    · exact Or.inl ⟨x, mem_docsOf.2 (Or.inr (Or.inr hx)), rfl, rfl⟩

theorem StoreInvOn.of_cacheSet {M : List Media} {T : List TrashedMedia}
    {C : List (GoString × Payload)} (h : StoreInvOn M T C) (m : Media)
    (hm : ∃ d0 ∈ docsOf M T C, m.ID = d0.ID ∧ m.UserID = d0.UserID) :
    StoreInvOn M T (cacheSet C (cacheKey m.ID) (some m)) := by
  obtain ⟨d0, hd0, e0, u0⟩ := hm
  refine h.extend m.ID m.UserID h.nodup ?_ ?_ ?_
  · intro k x hx
    simp only [cacheSet, List.mem_cons, Prod.mk.injEq, Option.some.injEq, List.mem_filter] at hx
    rcases hx with ⟨rfl, rfl⟩ | ⟨hx, -⟩
    · rfl
    · exact h.keyed k x hx
  · intro x hx
    rw [mem_docsOf] at hx
    rcases hx with hx | hx | ⟨k, hx⟩
    · exact Or.inl ⟨x, mem_docsOf.2 (Or.inl hx), rfl, rfl⟩
    · exact Or.inl ⟨x, mem_docsOf.2 (Or.inr (Or.inl hx)), rfl, rfl⟩
    · simp only [cacheSet, List.mem_cons, Prod.mk.injEq, Option.some.injEq,
        List.mem_filter] at hx
      rcases hx with ⟨-, rfl⟩ | ⟨hx, -⟩
      · exact Or.inr ⟨rfl, rfl⟩
      · exact Or.inl ⟨x, mem_docsOf.2 (Or.inr (Or.inr ⟨k, hx⟩)), rfl, rfl⟩
  · intro d hd he
    rw [u0]
    exact h.owner d hd d0 hd0 (by rw [he, e0])

theorem StoreInvOn.of_insertTrash {M : List Media} {T T1 : List TrashedMedia}
    {C : List (GoString × Payload)} (h : StoreInvOn M T C) {e : Env} {t : TrashedMedia}
    (hi : insertTrash e T t = .ok T1) (hm : t.OriginalDoc ∈ M) :
    StoreInvOn M T1 C := by
  unfold insertTrash at hi
  split_ifs at hi
  simp only [Except.ok.injEq] at hi
  subst hi
  have hin : t.OriginalDoc ∈ docsOf M T C := mem_docsOf.2 (Or.inl hm)
  refine h.extend t.OriginalDoc.ID t.OriginalDoc.UserID h.nodup h.keyed ?_ ?_
  · intro x hx
    rw [mem_docsOf] at hx
    rcases hx with hx | ⟨t0, ht0, rfl⟩ | hx
    · exact Or.inl ⟨x, mem_docsOf.2 (Or.inl hx), rfl, rfl⟩
    · rcases List.mem_append.1 ht0 with ht0 | ht0
      · exact Or.inl ⟨_, mem_docsOf.2 (Or.inr (Or.inl ⟨t0, ht0, rfl⟩)), rfl, rfl⟩
      · simp only [List.mem_singleton] at ht0
        subst ht0
        exact Or.inr ⟨rfl, rfl⟩
    · exact Or.inl ⟨x, mem_docsOf.2 (Or.inr (Or.inr hx)), rfl, rfl⟩
  · intro d hd he
    exact h.owner d hd _ hin he

/-! ## Theorems: `MediaService.Get` -/

/-- The three ways `Get` can go: a decodable cache hit, a failed store read,
or a store read followed by a cache write that may have been lost. -/
theorem Get_cases (e : Env) (s : State) (i : GoString) :
    (∃ m, e.cacheGetFails = false ∧ cacheGet s.cache (cacheKey i) = some (some m) ∧
      MediaService.Get e s i = (.ok m, s)) ∨
    (∃ err, findMedia e s.media i = .error err ∧ MediaService.Get e s i = (.error err, s)) ∨
    (∃ found, findMedia e s.media i = .ok found ∧
      ((e.cacheSetFails = true ∧
        MediaService.Get e s i = (.ok { found with URL := e.presign found.S3Key }, s)) ∨
       (e.cacheSetFails = false ∧
        MediaService.Get e s i = (.ok { found with URL := e.presign found.S3Key },
        { s with cache :=
            cacheSet s.cache (cacheKey i) (some { found with URL := e.presign found.S3Key }) }))))
    := by
  unfold MediaService.Get
  split
  · rename_i m hm
    left
    refine ⟨m, ?_, ?_, rfl⟩
    · by_contra hc
      simp only [Bool.not_eq_false] at hc
      simp [hc] at hm
    · split_ifs at hm
      exact hm
  · right
    cases hf : findMedia e s.media i with
    | error err => exact Or.inl ⟨err, rfl, rfl⟩
    | ok found =>
      right
      refine ⟨found, rfl, ?_⟩
      simp only
      split_ifs with hw
      · exact Or.inl ⟨hw, rfl⟩
      · exact Or.inr ⟨by simpa using hw, rfl⟩

/-- `Get` writes to the cache only. -/
theorem Get_frame (e : Env) (s : State) (i : GoString) :
    (MediaService.Get e s i).2.media = s.media ∧
    (MediaService.Get e s i).2.versions = s.versions ∧
    (MediaService.Get e s i).2.trash = s.trash ∧
    (MediaService.Get e s i).2.blobs = s.blobs := by
  rcases Get_cases e s i with ⟨m, -, -, h⟩ | ⟨err, -, h⟩ | ⟨found, -, ⟨-, h⟩ | ⟨-, h⟩⟩ <;>
    rw [h] <;> exact ⟨rfl, rfl, rfl, rfl⟩

/-- The record `Get` returns carries the id asked for and the owner of a held
`Media` value. -/
theorem Get_ok_doc {e : Env} {s s1 : State} {i : GoString} {m : Media}
    (hinv : StoreInv s) (h : MediaService.Get e s i = (.ok m, s1)) :
    m.ID = i ∧ ∃ d0 ∈ s.docs, m.ID = d0.ID ∧ m.UserID = d0.UserID := by
  rcases Get_cases e s i with ⟨m1, -, hc, h1⟩ | ⟨err, -, h1⟩ | ⟨found, hf, ⟨-, h1⟩ | ⟨-, h1⟩⟩
  · rw [h1] at h
    simp only [Prod.mk.injEq, Except.ok.injEq] at h
    obtain ⟨rfl, -⟩ := h
    have hmem := mem_of_cacheGet hc
    exact ⟨(cacheKey_injective (hinv.keyed _ _ hmem)).symm,
      m1, mem_docsOf.2 (Or.inr (Or.inr ⟨_, hmem⟩)), rfl, rfl⟩
  · rw [h1] at h
    simp at h
  all_goals
    rw [h1] at h
    simp only [Prod.mk.injEq, Except.ok.injEq] at h
    obtain ⟨rfl, -⟩ := h
    obtain ⟨-, -, hmem, hid⟩ := findMedia_ok hf
    exact ⟨hid, found, mem_docsOf.2 (Or.inl hmem), rfl, rfl⟩

theorem StoreInv_Get {e : Env} {s : State} (i : GoString) (hinv : StoreInv s) :
    StoreInv (MediaService.Get e s i).2 := by
  rcases Get_cases e s i with ⟨m, -, -, h⟩ | ⟨err, -, h⟩ | ⟨found, hf, ⟨-, h⟩ | ⟨-, h⟩⟩
  · rw [h]; exact hinv
  · rw [h]; exact hinv
  · rw [h]; exact hinv
  · obtain ⟨hid, hd⟩ := Get_ok_doc hinv h
    rw [h]
    have := StoreInvOn.of_cacheSet hinv { found with URL := e.presign found.S3Key } hd
    simp only at hid
    rw [hid] at this
    simpa only [hid] using this

/-- `Get` adds no `Media` value with a new id or a new owner. -/
theorem Get_docs {e : Env} {s : State} {i : GoString} {d : Media} (hinv : StoreInv s)
    (hd : d ∈ (MediaService.Get e s i).2.docs) :
    ∃ d0 ∈ s.docs, d.ID = d0.ID ∧ d.UserID = d0.UserID := by
  rcases Get_cases e s i with ⟨m, -, -, h⟩ | ⟨err, -, h⟩ | ⟨found, hf, ⟨-, h⟩ | ⟨-, h⟩⟩
  · rw [h] at hd; exact ⟨d, hd, rfl, rfl⟩
  · rw [h] at hd; exact ⟨d, hd, rfl, rfl⟩
  · rw [h] at hd; exact ⟨d, hd, rfl, rfl⟩
  · obtain ⟨-, hdoc⟩ := Get_ok_doc hinv h
    rw [h] at hd
    simp only [State.docs] at hd
    rw [mem_docsOf] at hd
    rcases hd with hd | hd | ⟨k, hd⟩
    · exact ⟨d, mem_docsOf.2 (Or.inl hd), rfl, rfl⟩
    · exact ⟨d, mem_docsOf.2 (Or.inr (Or.inl hd)), rfl, rfl⟩
    · simp only [cacheSet, List.mem_cons, Prod.mk.injEq, Option.some.injEq,
        List.mem_filter] at hd
      rcases hd with ⟨-, rfl⟩ | ⟨hd, -⟩
      · exact hdoc
      · exact ⟨d, mem_docsOf.2 (Or.inr (Or.inr ⟨k, hd⟩)), rfl, rfl⟩

/-! ## Theorems: every event keeps the invariant -/

theorem StoreInv_Create {e : Env} {s : State} (u : GoString) (req : UploadRequest)
    (hinv : StoreInv s) (hfresh : e.uuid ∉ s.docs.map (fun m => m.ID)) :
    StoreInv (MediaService.Create e s u req).2 := by
  unfold MediaService.Create
  split
  · exact hinv
  · simp only
    split
    · exact hinv
    · rename_i c hc
      refine StoreInvOn.of_insertMedia hinv hc ?_
      intro d0 hd0 he
      exact absurd (List.mem_map.2 ⟨d0, hd0, he⟩) hfresh

theorem StoreInv_Delete {e : Env} {s : State} (i u : GoString) (hinv : StoreInv s) :
    StoreInv (MediaService.Delete e s i u).2 := by
  have h1 := StoreInv_Get (e := e) i hinv
  unfold MediaService.Delete
  generalize MediaService.Get e s i = o at h1 ⊢
  obtain ⟨r, s1⟩ := o
  cases r with
  | error err => exact h1
  | ok media =>
    simp only
    split_ifs
    · exact h1
    · exact h1
    · exact h1
    · exact StoreInvOn.of_deleteMedia h1 _
    · exact StoreInvOn.of_cacheDel (StoreInvOn.of_deleteMedia h1 _) _

theorem StoreInv_SetURL {e : Env} {s : State} (i url : GoString) (hinv : StoreInv s) :
    StoreInv (MediaService.SetURL e s i url).2 := by
  unfold MediaService.SetURL
  split_ifs
  · exact hinv
  · refine StoreInvOn.of_updateOne hinv _ _ ?_ ?_ <;> exact fun _ => rfl

theorem StoreInv_UpdateMetadata {e : Env} {s : State} (i u : GoString) (md : StrMap)
    (hinv : StoreInv s) : StoreInv (MediaService.UpdateMetadata e s i u md).2 := by
  have h1 := StoreInv_Get (e := e) i hinv
  unfold MediaService.UpdateMetadata
  generalize MediaService.Get e s i = o at h1 ⊢
  obtain ⟨r, s1⟩ := o
  cases r with
  | error err => exact h1
  | ok media =>
    simp only
    split_ifs
    · exact h1
    · exact h1
    · refine StoreInvOn.of_updateOne h1 _ _ ?_ ?_ <;> exact fun _ => rfl
    · refine StoreInvOn.of_cacheDel (StoreInvOn.of_updateOne h1 _ _ ?_ ?_) _ <;>
        exact fun _ => rfl

theorem StoreInv_Rename {e : Env} {s : State} (i u f : GoString)
    (hinv : StoreInv s) : StoreInv (MediaService.Rename e s i u f).2 := by
  have h1 := StoreInv_Get (e := e) i hinv
  unfold MediaService.Rename
  generalize MediaService.Get e s i = o at h1 ⊢
  obtain ⟨r, s1⟩ := o
  cases r with
  | error err => exact h1
  | ok media =>
    simp only
    split_ifs
    · exact h1
    · exact h1
    · refine StoreInvOn.of_updateOne h1 _ _ ?_ ?_ <;> exact fun _ => rfl
    · refine StoreInvOn.of_cacheDel (StoreInvOn.of_updateOne h1 _ _ ?_ ?_) _ <;>
        exact fun _ => rfl

theorem StoreInv_MoveMedia {e : Env} {s : State} (i u w : GoString)
    (hinv : StoreInv s) : StoreInv (MediaService.MoveMedia e s i u w).2 := by
  have h1 := StoreInv_Get (e := e) i hinv
  unfold MediaService.MoveMedia
  generalize MediaService.Get e s i = o at h1 ⊢
  obtain ⟨r, s1⟩ := o
  cases r with
  | error err => exact h1
  | ok media =>
    simp only
    split_ifs
    · exact h1
    · exact h1
    · refine StoreInvOn.of_updateOne h1 _ _ ?_ ?_ <;> exact fun _ => rfl
    · refine StoreInvOn.of_cacheDel (StoreInvOn.of_updateOne h1 _ _ ?_ ?_) _ <;>
        exact fun _ => rfl

theorem StoreInv_CopyMedia {e : Env} {s : State} (i u w : GoString)
    (hinv : StoreInv s) (hfresh : e.uuid ∉ s.docs.map (fun m => m.ID)) :
    StoreInv (MediaService.CopyMedia e s i u w).2 := by
  have h1 := StoreInv_Get (e := e) i hinv
  have h2 : ∀ d ∈ (MediaService.Get e s i).2.docs, d.ID ≠ e.uuid := by
    intro d hd he
    obtain ⟨d0, hd0, e0, -⟩ := Get_docs hinv hd
    exact hfresh (List.mem_map.2 ⟨d0, hd0, by rw [← e0, he]⟩)
  unfold MediaService.CopyMedia
  generalize MediaService.Get e s i = o at h1 h2 ⊢
  obtain ⟨r, s1⟩ := o
  cases r with
  | error err => exact h1
  | ok media =>
    simp only
    split_ifs
    · exact h1
    · split
      · exact h1
      · rename_i c hc
        exact StoreInvOn.of_insertMedia h1 hc (fun d0 hd0 he => absurd he (h2 d0 hd0))

theorem StoreInv_CreateVersion {e : Env} {s : State} (i u : GoString)
    (req : CreateVersionRequest) (hinv : StoreInv s) :
    StoreInv (VersionService.CreateVersion e s i u req).2 := by
  unfold VersionService.CreateVersion
  simp only
  split
  · exact hinv
  · exact hinv

theorem GetVersion_state (e : Env) (s : State) (v : GoString) :
    (VersionService.GetVersion e s v).2 = s := by
  unfold VersionService.GetVersion
  split_ifs
  · rfl
  · split <;> rfl

theorem StoreInv_DeleteVersion {e : Env} {s : State} (v u : GoString) (hinv : StoreInv s) :
    StoreInv (VersionService.DeleteVersion e s v u).2 := by
  have h1 := GetVersion_state e s v
  unfold VersionService.DeleteVersion
  generalize VersionService.GetVersion e s v = o at h1 ⊢
  obtain ⟨r, s1⟩ := o
  simp only at h1
  subst h1
  cases r with
  | error err => exact hinv
  | ok version =>
    simp only
    split_ifs <;> exact hinv

theorem StoreInv_RestoreVersion {e : Env} {s : State} (v u : GoString) (hinv : StoreInv s) :
    StoreInv (VersionService.RestoreVersion e s v u).2 := by
  have h1 := GetVersion_state e s v
  unfold VersionService.RestoreVersion
  generalize VersionService.GetVersion e s v = o at h1 ⊢
  obtain ⟨r, s1⟩ := o
  simp only at h1
  subst h1
  cases r with
  | error err => exact hinv
  | ok version =>
    simp only
    split_ifs
    · exact hinv
    · refine StoreInvOn.of_updateOne hinv _ _ ?_ ?_ <;> exact fun _ => rfl

theorem StoreInv_MoveToTrash {e : Env} {s : State} (i u : GoString) (hinv : StoreInv s) :
    StoreInv (TrashService.MoveToTrash e s i u).2 := by
  unfold TrashService.MoveToTrash
  split
  · exact hinv
  · rename_i media hf
    obtain ⟨-, -, hmem, -⟩ := findMedia_ok hf
    by_cases hu : media.UserID ≠ u
    · rw [if_pos hu]
      exact hinv
    · rw [if_neg hu]
      simp only
      split
      · exact hinv
      · rename_i c hc
        have h1 : StoreInvOn s.media c s.cache := StoreInvOn.of_insertTrash hinv hc hmem
        split_ifs
        · exact h1
        · exact StoreInvOn.of_deleteMedia h1 _
        · exact StoreInvOn.of_cacheDel (StoreInvOn.of_deleteMedia h1 _) _

theorem findTrash_ok {e : Env} {T : List TrashedMedia} {i u : GoString} {t : TrashedMedia}
    (h : findTrash e T i u = .ok t) :
    e.findFails = false ∧ t ∈ T ∧ t.ID = i ∧ t.UserID = u := by
  unfold findTrash at h
  split_ifs at h with h1
  split at h
  · cases h
  · rename_i m hm
    simp only [Except.ok.injEq] at h
    subst h
    refine ⟨by simpa using h1, List.mem_of_find?_eq_some hm, ?_⟩
    simpa using List.find?_some hm

theorem StoreInv_RestoreFromTrash {e : Env} {s : State} (i u : GoString) (hinv : StoreInv s) :
    StoreInv (TrashService.RestoreFromTrash e s i u).2 := by
  unfold TrashService.RestoreFromTrash
  split
  · exact hinv
  · rename_i trashed hf
    obtain ⟨-, hmem, -, -⟩ := findTrash_ok hf
    split
    · exact hinv
    · rename_i c hc
      have hdoc : trashed.OriginalDoc ∈ docsOf s.media s.trash s.cache :=
        mem_docsOf.2 (Or.inr (Or.inl ⟨trashed, hmem, rfl⟩))
      have h1 : StoreInvOn c s.trash s.cache :=
        StoreInvOn.of_insertMedia hinv hc (fun d0 hd0 he => hinv.owner d0 hd0 _ hdoc he)
      simp only
      split_ifs
      · exact h1
      · exact StoreInvOn.of_deleteTrash h1 _

theorem StoreInv_PermanentDelete {e : Env} {s : State} (i u : GoString) (hinv : StoreInv s) :
    StoreInv (TrashService.PermanentDelete e s i u).2 := by
  unfold TrashService.PermanentDelete
  split
  · exact hinv
  · simp only
    split_ifs <;> first | exact hinv | exact StoreInvOn.of_deleteTrash hinv _

theorem StoreInv_EmptyTrash {e : Env} {s : State} (u : GoString) (hinv : StoreInv s) :
    StoreInv (TrashService.EmptyTrash e s u).2 := by
  unfold TrashService.EmptyTrash
  split_ifs
  · exact hinv
  · exact hinv
  · exact StoreInvOn.of_filterTrash hinv _

theorem StoreInv_Watermark_Apply {e : Env} {s : State} (req : ApplyWatermarkRequest)
    (hinv : StoreInv s) : StoreInv (WatermarkService.Apply e s req).2 := by
  unfold WatermarkService.Apply
  split_ifs
  · exact hinv
  · refine StoreInvOn.of_updateOne hinv _ _ ?_ ?_ <;> exact fun _ => rfl

theorem StoreInv_Watermark_Remove {e : Env} {s : State} (i : GoString)
    (hinv : StoreInv s) : StoreInv (WatermarkService.Remove e s i).2 := by
  unfold WatermarkService.Remove
  split_ifs
  · exact hinv
  · refine StoreInvOn.of_updateOne hinv _ _ ?_ ?_ <;> exact fun _ => rfl

/-- Every event keeps the invariant. -/
theorem StoreInv_exec {e : Env} {s : State} (c : Call) (hinv : StoreInv s)
    (hfresh : FreshUUID s e c) : StoreInv (exec e s c) := by
  cases c with
  | create u req => exact StoreInv_Create u req hinv (hfresh rfl)
  | get i => exact StoreInv_Get i hinv
  | delete i u => exact StoreInv_Delete i u hinv
  | setURL i url => exact StoreInv_SetURL i url hinv
  | updateMetadata i u md => exact StoreInv_UpdateMetadata i u md hinv
  | rename i u f => exact StoreInv_Rename i u f hinv
  | copyMedia i u w => exact StoreInv_CopyMedia i u w hinv (hfresh rfl)
  | moveMedia i u w => exact StoreInv_MoveMedia i u w hinv
  | createVersion i u req => exact StoreInv_CreateVersion i u req hinv
  | deleteVersion v u => exact StoreInv_DeleteVersion v u hinv
  | restoreVersion v u => exact StoreInv_RestoreVersion v u hinv
  | moveToTrash i u => exact StoreInv_MoveToTrash i u hinv
  | restoreFromTrash t u => exact StoreInv_RestoreFromTrash t u hinv
  | permanentDelete t u => exact StoreInv_PermanentDelete t u hinv
  | emptyTrash u => exact StoreInv_EmptyTrash u hinv
  | applyWatermark req => exact StoreInv_Watermark_Apply req hinv
  | removeWatermark i => exact StoreInv_Watermark_Remove i hinv
  | upload key => exact hinv
  | expire key => exact StoreInvOn.of_cacheDel hinv key

/-- The invariant holds in every reachable state. -/
theorem Reachable.storeInv {s : State} (h : Reachable s) : StoreInv s := by
  induction h with
  | init =>
    refine ⟨List.nodup_nil, ?_, ?_⟩
    · intro k m hm
      simp [State.init] at hm
    · intro d1 h1
      simp [State.init, docsOf] at h1
  | step e c _ hfresh ih => exact StoreInv_exec c ih hfresh

/-! ## Theorems: create, then read -/

theorem Create_ok {e : Env} {s s1 : State} {u : GoString} {req : UploadRequest} {m : Media}
    (h : MediaService.Create e s u req = (.ok m, s1)) :
    m.ID = e.uuid ∧ m.UserID = u ∧ getMediaType req.MimeType = some m.Type_ ∧
    m.Filename = req.Filename ∧ m.MimeType = req.MimeType ∧ m.Size = req.Size ∧
    m.S3Key = lit "media/" ++ u ++ lit "/" ++ m.ID ++ lit "/" ++ req.Filename ∧
    s.media.any (fun d => decide (d.ID = m.ID)) = false ∧
    s1 = { s with media := s.media ++ [bsonMedia m] } := by
  unfold MediaService.Create at h
  split at h
  · simp at h
  · rename_i ty hty
    simp only at h
    split at h
    · simp at h
    · rename_i c hc
      obtain ⟨-, hany, rfl⟩ := insertMedia_ok hc
      simp only [Prod.mk.injEq, Except.ok.injEq] at h
      obtain ⟨rfl, rfl⟩ := h
      exact ⟨rfl, rfl, hty, rfl, rfl, rfl, rfl, hany, rfl⟩

/-- When the cache read fails or yields no payload that decodes, `Get`
answers from the collection. -/
theorem Get_of_miss {e : Env} {s : State} {i : GoString} {found : Media}
    (hmiss : e.cacheGetFails = true ∨ ∀ m, cacheGet s.cache (cacheKey i) ≠ some (some m))
    (hf : findMedia e s.media i = .ok found) :
    ∃ s1, MediaService.Get e s i = (.ok { found with URL := e.presign found.S3Key }, s1) := by
  rcases Get_cases e s i with ⟨m, hg, hc, -⟩ | ⟨err, he, -⟩ | ⟨f1, hf1, ⟨-, h⟩ | ⟨-, h⟩⟩
  · rcases hmiss with h | h
    · rw [h] at hg
      cases hg
    · exact absurd hc (h m)
  · rw [hf] at he
    cases he
  · rw [hf] at hf1
    cases hf1
    exact ⟨_, h⟩
  · rw [hf] at hf1
    cases hf1
    exact ⟨_, h⟩

/-- C3: if `Create` succeeds and returns a record with id `i`, and the cache
holds no entry for `i`, then `Get i` (the metadata store answering the read)
succeeds and returns a record with the same id, the owner, filename, MIME
type and size of the request, the category `getMediaType mimeType`, and the
blob key `Create` derived, `media/<owner>/<id>/<filename>`. -/
theorem C3_create_then_get (e1 e2 : Env) (s s1 : State) (userID : GoString)
    (req : UploadRequest) (m : Media)
    (hcreate : MediaService.Create e1 s userID req = (.ok m, s1))
    (hmiss : cacheGet s1.cache (cacheKey m.ID) = none)
    (hfind : e2.findFails = false) :
    ∃ r s2, MediaService.Get e2 s1 m.ID = (.ok r, s2) ∧
      r.ID = m.ID ∧ r.UserID = userID ∧ r.Filename = req.Filename ∧
      r.MimeType = req.MimeType ∧ r.Size = req.Size ∧
      getMediaType req.MimeType = some r.Type_ ∧ r.S3Key = m.S3Key ∧
      m.S3Key = lit "media/" ++ userID ++ lit "/" ++ m.ID ++ lit "/" ++ req.Filename := by
  obtain ⟨-, hu, hty, hfn, hmt, hsz, hkey, hany, rfl⟩ := Create_ok hcreate
  have hf : findMedia e2 (s.media ++ [bsonMedia m]) m.ID = .ok (bsonMedia m) := by
    unfold findMedia
    rw [hfind]
    have hnew : (s.media ++ [bsonMedia m]).find? (fun d => decide (d.ID = m.ID))
        = some (bsonMedia m) :=
      find_append_new _ _ _ hany (decide_eq_true rfl)
    simp only [Bool.false_eq_true, if_false, hnew]
  obtain ⟨s2, hget⟩ := Get_of_miss (e := e2) (s := { s with media := s.media ++ [bsonMedia m] })
    (Or.inr (by intro x; simp only at hmiss; rw [hmiss]; simp)) hf
  exact ⟨_, s2, hget, rfl, hu, hfn, hmt, hsz, hty, rfl, hkey⟩

/-- C3 applied to the scenario: `u1` creates `cat.png` in empty stores and
reads it back. -/
theorem C3_create_then_get_witness :
    ∃ r s2, MediaService.Get (Env.calm [] 2000000000) Ex.s1 Ex.m1 = (.ok r, s2) ∧
      r.ID = Ex.m1 ∧ r.UserID = Ex.u1 ∧ r.Filename = Ex.catReq.Filename ∧
      r.MimeType = Ex.catReq.MimeType ∧ r.Size = Ex.catReq.Size ∧
      getMediaType Ex.catReq.MimeType = some r.Type_ ∧ r.S3Key = Ex.key0 ∧
      Ex.key0 = lit "media/" ++ Ex.u1 ++ lit "/" ++ Ex.m1 ++ lit "/" ++ Ex.catReq.Filename :=
  C3_create_then_get (Env.calm Ex.m1 1000000000) (Env.calm [] 2000000000) State.init Ex.s1 Ex.u1
    Ex.catReq
    { ID := Ex.m1, UserID := Ex.u1, Type_ := lit "image", Filename := lit "cat.png",
      MimeType := lit "image/png", Size := 2048, URL := [], ThumbnailURL := [],
      S3Key := Ex.key0, Metadata := [], CreatedAt := 1000000000, UpdatedAt := 1000000001 }
    (by rfl) (by rfl) (by rfl)

/-! ## Theorems: ownership enforcement -/

theorem findMedia_present {e : Env} {M : List Media} {r : Media}
    (hfind : e.findFails = false) (hr : r ∈ M) : ∃ found, findMedia e M r.ID = .ok found := by
  unfold findMedia
  rw [hfind]
  cases hf : M.find? (fun m => decide (m.ID = r.ID)) with
  | none =>
    rw [List.find?_eq_none] at hf
    exact absurd (decide_eq_true rfl) (hf r hr)
  | some found => exact ⟨found, by simp⟩

/-- In a state satisfying the invariant, `Get` on the id of a stored record
succeeds when the store answers, and returns a record of the same owner. -/
theorem Get_of_present {e : Env} {s : State} {r : Media} (hinv : StoreInv s)
    (hr : r ∈ s.media) (hfind : e.findFails = false) :
    ∃ m s1, MediaService.Get e s r.ID = (.ok m, s1) ∧ m.UserID = r.UserID ∧
      s1.media = s.media ∧ s1.versions = s.versions ∧ s1.trash = s.trash ∧
      s1.blobs = s.blobs := by
  have hframe := Get_frame e s r.ID
  have hrdoc : r ∈ docsOf s.media s.trash s.cache := mem_docsOf.2 (Or.inl hr)
  cases hG : MediaService.Get e s r.ID with
  | mk res s1 =>
    rw [hG] at hframe
    cases res with
    | error err =>
      exfalso
      obtain ⟨found, hfound⟩ := findMedia_present hfind hr
      rcases Get_cases e s r.ID with ⟨m, -, -, h⟩ | ⟨err1, he, -⟩ | ⟨f1, -, ⟨-, h⟩ | ⟨-, h⟩⟩
      · rw [h] at hG; cases hG
      · rw [hfound] at he; cases he
      · rw [h] at hG; cases hG
      · rw [h] at hG; cases hG
    | ok m =>
      obtain ⟨hid, d0, hd0, e0, u0⟩ := Get_ok_doc hinv hG
      refine ⟨m, s1, rfl, ?_, hframe⟩
      rw [u0]
      exact hinv.owner d0 hd0 r hrdoc (by rw [← e0, hid])

/-- C4: in every reachable state, for every stored media record `r` and every
caller `c` other than its owner, each of `Delete`, `Rename`,
`UpdateMetadata`, `MoveMedia`, `CopyMedia` and `MoveToTrash` called on `r`
with caller `c` (the metadata store answering the read) fails with the
`unauthorized` error and leaves the media collection, the version
collection, the trash collection and the bucket exactly as they were. -/
theorem C4_non_owner_is_refused (e : Env) (s : State) (r : Media) (c f w : GoString)
    (md : StrMap) (hs : Reachable s) (hr : r ∈ s.media) (hc : c ≠ r.UserID)
    (hfind : e.findFails = false) :
    Refused s (MediaService.Delete e s r.ID c) ∧
    Refused s (MediaService.Rename e s r.ID c f) ∧
    Refused s (MediaService.UpdateMetadata e s r.ID c md) ∧
    Refused s (MediaService.MoveMedia e s r.ID c w) ∧
    Refused s (MediaService.CopyMedia e s r.ID c w) ∧
    Refused s (TrashService.MoveToTrash e s r.ID c) := by
  have hinv := hs.storeInv
  obtain ⟨m, s1, hget, hown, hframe⟩ := Get_of_present hinv hr hfind
  have hne : m.UserID ≠ c := by
    rw [hown]
    exact fun h => hc h.symm
  unfold Refused
  refine ⟨?_, ?_, ?_, ?_, ?_, ?_⟩
  · unfold MediaService.Delete
    rw [hget]
    simp only [hne, ne_eq, not_false_eq_true, if_true]
    exact ⟨(fun a h => by cases h), trivial, hframe⟩
  · unfold MediaService.Rename
    rw [hget]
    simp only [hne, ne_eq, not_false_eq_true, if_true]
    exact ⟨(fun a h => by cases h), trivial, hframe⟩
  · unfold MediaService.UpdateMetadata
    rw [hget]
    simp only [hne, ne_eq, not_false_eq_true, if_true]
    exact ⟨(fun a h => by cases h), trivial, hframe⟩
  · unfold MediaService.MoveMedia
    rw [hget]
    simp only [hne, ne_eq, not_false_eq_true, if_true]
    exact ⟨(fun a h => by cases h), trivial, hframe⟩
  · unfold MediaService.CopyMedia
    rw [hget]
    simp only [hne, ne_eq, not_false_eq_true, if_true]
    exact ⟨(fun a h => by cases h), trivial, hframe⟩
  · obtain ⟨found, hfound⟩ := findMedia_present hfind hr
    obtain ⟨-, -, hmem, hid⟩ := findMedia_ok hfound
    have hfo : found.UserID ≠ c := by
      rw [hinv.owner found (mem_docsOf.2 (Or.inl hmem)) r (mem_docsOf.2 (Or.inl hr)) hid]
      exact fun h => hc h.symm
    unfold TrashService.MoveToTrash
    rw [hfound]
    simp only [hfo, ne_eq, not_false_eq_true, if_true]
    exact ⟨(fun a h => by cases h), trivial, trivial, trivial, trivial, trivial⟩

/-- The state after `u1` created `cat.png` is reachable. -/
theorem Ex.s1_reachable : Reachable Ex.s1 :=
  Reachable.step _ _ Reachable.init (by intro _; decide)

/-- C4 applied to the scenario: `u2` is refused on the record of `u1`. -/
theorem C4_non_owner_is_refused_witness :
    Refused Ex.s1 (MediaService.Delete (Env.calm [] 2000000000) Ex.s1 Ex.m1 (lit "u2")) ∧
    Refused Ex.s1 (MediaService.Rename (Env.calm [] 2000000000) Ex.s1 Ex.m1 (lit "u2")
      (lit "dog.png")) ∧
    Refused Ex.s1 (MediaService.UpdateMetadata (Env.calm [] 2000000000) Ex.s1 Ex.m1 (lit "u2")
      []) ∧
    Refused Ex.s1 (MediaService.MoveMedia (Env.calm [] 2000000000) Ex.s1 Ex.m1 (lit "u2")
      (lit "w2")) ∧
    Refused Ex.s1 (MediaService.CopyMedia (Env.calm [] 2000000000) Ex.s1 Ex.m1 (lit "u2")
      (lit "w2")) ∧
    Refused Ex.s1 (TrashService.MoveToTrash (Env.calm [] 2000000000) Ex.s1 Ex.m1 (lit "u2")) :=
  C4_non_owner_is_refused (Env.calm [] 2000000000) Ex.s1 Ex.catStored
    (lit "u2") (lit "dog.png") (lit "w2") [] Ex.s1_reachable (by decide) (by decide) (by rfl)

/-! ## Theorems: deletion -/

/-- What a successful `Delete` did. -/
theorem Delete_ok {e : Env} {s s1 : State} {i o : GoString}
    (h : MediaService.Delete e s i o = (.ok (), s1)) :
    ∃ media s0, MediaService.Get e s i = (.ok media, s0) ∧ media.UserID = o ∧
      s1.media = deleteOne (fun m => decide (m.ID = i)) s.media ∧
      s1.blobs = blobDelete s.blobs media.S3Key ∧
      s1.versions = s.versions ∧ s1.trash = s.trash ∧
      (e.cacheDelFails = false → s1.cache = cacheDel s0.cache (cacheKey i)) := by
  have hframe := Get_frame e s i
  unfold MediaService.Delete at h
  cases hG : MediaService.Get e s i with
  | mk res s0 =>
    rw [hG] at h hframe
    obtain ⟨hm, hv, ht, hb⟩ := hframe
    simp only at hm hv ht hb
    cases res with
    | error err => simp at h
    | ok media =>
      simp only at h
      split_ifs at h with h1 h2 h3 h4
      · simp at h
      · simp at h
      · simp at h
      · simp only [Prod.mk.injEq, true_and] at h
        subst h
        refine ⟨media, s0, rfl, by simpa using h1, ?_, ?_, hv, ht, ?_⟩
        · simp only [hm]
        · simp only [hb]
        · intro hc
          rw [hc] at h4
          cases h4
      · simp only [Prod.mk.injEq, true_and] at h
        subst h
        refine ⟨media, s0, rfl, by simpa using h1, ?_, ?_, hv, ht, ?_⟩
        · simp only [hm]
        · simp only [hb]
        · intro _
          rfl

/-- C7 (amended): `Delete` is not idempotent as long as the invalidation is
not lost. In every reachable state, after a
`Delete i o` that returned no error, a second `Delete i o` fails with the
not-found error `mongo.ErrNoDocuments`, and changes nothing. The
surroundings are those in which the metadata store answers the read and the
cache did not lose the invalidation (or is still unreachable at the second
call). -/
theorem C7_second_delete_not_found (e1 e2 : Env) (s s1 : State) (i o : GoString)
    (hs : Reachable s) (hfirst : MediaService.Delete e1 s i o = (.ok (), s1))
    (hdel : e1.cacheDelFails = false ∨ e2.cacheGetFails = true)
    (hfind : e2.findFails = false) :
    MediaService.Delete e2 s1 i o = (.error .noDocuments, s1) := by
  obtain ⟨media, s0, -, -, hm, -, -, -, hc⟩ := Delete_ok hfirst
  have hnone : findMedia e2 s1.media i = .error .noDocuments := by
    unfold findMedia
    rw [hfind, hm, find_deleteOne_none _ _ hs.storeInv.nodup]
    rfl
  have hget : MediaService.Get e2 s1 i = (.error .noDocuments, s1) := by
    rcases Get_cases e2 s1 i with ⟨m, hg, hhit, -⟩ | ⟨err, he, h⟩ | ⟨f1, hf1, -⟩
    · rcases hdel with hd | hd
      · rw [hc hd, cacheGet_cacheDel] at hhit
        cases hhit
      · rw [hd] at hg
        cases hg
    · rw [hnone] at he
      cases he
      exact h
    · rw [hnone] at hf1
      cases hf1
  unfold MediaService.Delete
  rw [hget]

/-- C7 applied to the scenario: `u1` deletes `cat.png` twice. -/
theorem C7_second_delete_not_found_witness :
    MediaService.Delete (Env.calm [] 3000000000)
        (MediaService.Delete (Env.calm [] 2000000000) Ex.s1 Ex.m1 Ex.u1).2 Ex.m1 Ex.u1 =
      (.error .noDocuments, (MediaService.Delete (Env.calm [] 2000000000) Ex.s1 Ex.m1 Ex.u1).2) :=
  C7_second_delete_not_found (Env.calm [] 2000000000) (Env.calm [] 3000000000) Ex.s1
    (MediaService.Delete (Env.calm [] 2000000000) Ex.s1 Ex.m1 Ex.u1).2 Ex.m1 Ex.u1
    Ex.s1_reachable (by rfl) (Or.inl rfl) (by rfl)

/-! ## Theorems: read-your-writes through the cache -/

/-- After the first record with id `i` was updated by `upd`, and with the
cache key of `i` deleted or the cache read failing, `Get i` returns the
updated record. -/
theorem Get_after_update {e : Env} {s1 : State} {M : List Media}
    {C : List (GoString × Payload)} {r : Media} {upd : Media → Media}
    (hr : r ∈ M) (hfind : e.findFails = false)
    (hm : s1.media = updateOne (fun m => decide (m.ID = r.ID)) upd M)
    (hc : e.cacheGetFails = true ∨ s1.cache = cacheDel C (cacheKey r.ID))
    (hid : ∀ m, (upd m).ID = m.ID) :
    ∃ found s2, found ∈ M ∧ found.ID = r.ID ∧
      MediaService.Get e s1 r.ID =
        (.ok { upd found with URL := e.presign (upd found).S3Key }, s2) := by
  obtain ⟨found, hfound⟩ := findMedia_present (e := e) hfind hr
  obtain ⟨-, hfd, hmem, hfid⟩ := findMedia_ok hfound
  have hf : findMedia e s1.media r.ID = .ok (upd found) := by
    unfold findMedia
    rw [hfind, hm, find_updateOne _ _ (by intro x hx; simpa [hid] using hx), hfd]
    rfl
  obtain ⟨s2, hget⟩ := Get_of_miss (e := e) (s := s1)
    (hc.imp id (fun h => by intro x; rw [h, cacheGet_cacheDel]; simp)) hf
  exact ⟨found, s2, hmem, hfid, hget⟩

/-- What a successful `Rename` did. -/
theorem Rename_ok {e : Env} {s s1 : State} {i u f : GoString}
    (h : MediaService.Rename e s i u f = (.ok (), s1)) :
    ∃ C, (e.cacheDelFails = false → s1.cache = cacheDel C (cacheKey i)) ∧
      s1.media = updateOne (fun m => decide (m.ID = i))
        (fun m => { m with Filename := f, UpdatedAt := bsonTime (e.clock 0) }) s.media := by
  have hframe := Get_frame e s i
  unfold MediaService.Rename at h
  cases hG : MediaService.Get e s i with
  | mk res s0 =>
    rw [hG] at h hframe
    cases res with
    | error err => simp at h
    | ok media =>
      simp only at h hframe
      split_ifs at h with h1 h2 h3
      · simp at h
      · simp at h
      · simp only [Prod.mk.injEq, true_and] at h
        subst h
        refine ⟨s0.cache, ?_, by simp only [hframe.1]⟩
        intro hc
        rw [hc] at h3
        cases h3
      · simp only [Prod.mk.injEq, true_and] at h
        subst h
        exact ⟨s0.cache, fun _ => rfl, by simp only [hframe.1]⟩

/-- What a successful `UpdateMetadata` did. -/
theorem UpdateMetadata_ok {e : Env} {s s1 : State} {i u : GoString} {md : StrMap}
    (h : MediaService.UpdateMetadata e s i u md = (.ok (), s1)) :
    ∃ C, (e.cacheDelFails = false → s1.cache = cacheDel C (cacheKey i)) ∧
      s1.media = updateOne (fun m => decide (m.ID = i))
        (fun m => { m with Metadata := md, UpdatedAt := bsonTime (e.clock 0) }) s.media := by
  have hframe := Get_frame e s i
  unfold MediaService.UpdateMetadata at h
  cases hG : MediaService.Get e s i with
  | mk res s0 =>
    rw [hG] at h hframe
    cases res with
    | error err => simp at h
    | ok media =>
      simp only at h hframe
      split_ifs at h with h1 h2 h3
      · simp at h
      · simp at h
      · simp only [Prod.mk.injEq, true_and] at h
        subst h
        refine ⟨s0.cache, ?_, by simp only [hframe.1]⟩
        intro hc
        rw [hc] at h3
        cases h3
      · simp only [Prod.mk.injEq, true_and] at h
        subst h
        exact ⟨s0.cache, fun _ => rfl, by simp only [hframe.1]⟩

/-- What a successful `MoveMedia` did. -/
theorem MoveMedia_ok {e : Env} {s s1 : State} {i u w : GoString}
    (h : MediaService.MoveMedia e s i u w = (.ok (), s1)) :
    ∃ C, (e.cacheDelFails = false → s1.cache = cacheDel C (cacheKey i)) ∧
      s1.media = updateOne (fun m => decide (m.ID = i))
        (fun m => { m with Metadata := m.Metadata.set (lit "workspaceId") w,
                           UpdatedAt := bsonTime (e.clock 0) }) s.media := by
  have hframe := Get_frame e s i
  unfold MediaService.MoveMedia at h
  cases hG : MediaService.Get e s i with
  | mk res s0 =>
    rw [hG] at h hframe
    cases res with
    | error err => simp at h
    | ok media =>
      simp only at h hframe
      split_ifs at h with h1 h2 h3
      · simp at h
      · simp at h
      · simp only [Prod.mk.injEq, true_and] at h
        subst h
        refine ⟨s0.cache, ?_, by simp only [hframe.1]⟩
        intro hc
        rw [hc] at h3
        cases h3
      · simp only [Prod.mk.injEq, true_and] at h
        subst h
        exact ⟨s0.cache, fun _ => rfl, by simp only [hframe.1]⟩

theorem StrMap.lookup_set (m : StrMap) (k v : GoString) : (m.set k v).lookup k = some v := by
  simp [StrMap.set, List.lookup_cons]

/-- C8 (amended): read-your-writes through the cache, as long as the
invalidation is not lost. For every stored media record
and every prior cache content (a cached copy of the pre-update record
included), after a successful `Rename` to `f` an immediately following `Get`
succeeds and returns filename `f`; after a successful `UpdateMetadata` with
`md` it returns metadata `md`; after a successful `MoveMedia` to `w` it
returns `metadata.workspaceId = w`. The surroundings are those in which the
metadata store answers the read and the cache did not lose the invalidation
(or is still unreachable at the read). -/
theorem C8_read_your_writes (e1 e2 : Env) (s : State) (r : Media) (u f w : GoString)
    (md : StrMap) (hr : r ∈ s.media)
    (hdel : e1.cacheDelFails = false ∨ e2.cacheGetFails = true)
    (hfind : e2.findFails = false) :
    (∀ s1, MediaService.Rename e1 s r.ID u f = (.ok (), s1) →
      ∃ m s2, MediaService.Get e2 s1 r.ID = (.ok m, s2) ∧ m.Filename = f) ∧
    (∀ s1, MediaService.UpdateMetadata e1 s r.ID u md = (.ok (), s1) →
      ∃ m s2, MediaService.Get e2 s1 r.ID = (.ok m, s2) ∧ m.Metadata = md) ∧
    (∀ s1, MediaService.MoveMedia e1 s r.ID u w = (.ok (), s1) →
      ∃ m s2, MediaService.Get e2 s1 r.ID = (.ok m, s2) ∧
        m.Metadata.lookup (lit "workspaceId") = some w) := by
  refine ⟨?_, ?_, ?_⟩
  · intro s1 h
    obtain ⟨C, hc, hm⟩ := Rename_ok h
    obtain ⟨found, s2, -, -, hget⟩ :=
      Get_after_update hr hfind hm (hdel.symm.imp id hc) (fun _ => rfl)
    exact ⟨_, s2, hget, rfl⟩
  · intro s1 h
    obtain ⟨C, hc, hm⟩ := UpdateMetadata_ok h
    obtain ⟨found, s2, -, -, hget⟩ :=
      Get_after_update hr hfind hm (hdel.symm.imp id hc) (fun _ => rfl)
    exact ⟨_, s2, hget, rfl⟩
  · intro s1 h
    obtain ⟨C, hc, hm⟩ := MoveMedia_ok h
    obtain ⟨found, s2, -, -, hget⟩ :=
      Get_after_update hr hfind hm (hdel.symm.imp id hc) (fun _ => rfl)
    exact ⟨_, s2, hget, StrMap.lookup_set _ _ _⟩

/-- C8 applied to the scenario: the cache holds the copy of `cat.png` made
before the update, and each update is read back. -/
theorem C8_read_your_writes_witness :
    cacheGet Ex.s3.cache (cacheKey Ex.m1) ≠ none ∧
    (∃ m s2, MediaService.Get (Env.calm [] 5000000000)
        (MediaService.Rename (Env.calm [] 4000000000) Ex.s3 Ex.m1 Ex.u1 (lit "dog.png")).2
        Ex.m1 = (.ok m, s2) ∧ m.Filename = lit "dog.png") ∧
    (∃ m s2, MediaService.Get (Env.calm [] 5000000000)
        (MediaService.UpdateMetadata (Env.calm [] 4000000000) Ex.s3 Ex.m1 Ex.u1
          [(lit "channelId", lit "c1")]).2
        Ex.m1 = (.ok m, s2) ∧ m.Metadata = [(lit "channelId", lit "c1")]) ∧
    (∃ m s2, MediaService.Get (Env.calm [] 5000000000)
        (MediaService.MoveMedia (Env.calm [] 4000000000) Ex.s3 Ex.m1 Ex.u1 (lit "w2")).2
        Ex.m1 = (.ok m, s2) ∧ m.Metadata.lookup (lit "workspaceId") = some (lit "w2")) :=
  have h := C8_read_your_writes (Env.calm [] 4000000000) (Env.calm [] 5000000000) Ex.s3
    Ex.catStored Ex.u1 (lit "dog.png") (lit "w2") [(lit "channelId", lit "c1")]
    (by decide) (Or.inl rfl) (by rfl)
  ⟨by decide, h.1 _ (by rfl), h.2.1 _ (by rfl), h.2.2 _ (by rfl)⟩

/-! ## Theorems: version restore -/

/-- The scenario up to the upload of version 1 is reachable. -/
theorem Ex.s5_reachable : Reachable Ex.s5 :=
  Reachable.step _ _
    (Reachable.step _ _
      (Reachable.step _ _
        (Reachable.step _ _ Ex.s1_reachable (by intro h; cases h))
        (by intro h; cases h))
      (by intro h; cases h))
    (by intro h; cases h)

/-- The scenario up to the restore of version 1 is reachable. -/
theorem Ex.s6_reachable : Reachable Ex.s6 :=
  Reachable.step _ _ Ex.s5_reachable (by intro h; cases h)

/-- C5 (the code at the failing input): the record `m1` is owned by `u1`,
its version `v1` was uploaded by `u1`, and `RestoreVersion` called by `u2`
returns no error and rewrites the parent record. -/
theorem C5_restoreVersion_checks_no_owner :
    (∃ r ∈ Ex.s5.media, r.ID = Ex.m1 ∧ r.UserID = Ex.u1 ∧ r.Filename = lit "cat.png" ∧
      r.S3Key = Ex.key0) ∧
    (∃ v ∈ Ex.s5.versions, v.ID = Ex.v1 ∧ v.MediaID = Ex.m1 ∧ v.UploadedBy = Ex.u1) ∧
    (VersionService.RestoreVersion (Env.calm [] 6000000000) Ex.s5 Ex.v1 (lit "u2")).1
      = .ok () ∧
    (∃ r ∈ (VersionService.RestoreVersion (Env.calm [] 6000000000) Ex.s5 Ex.v1
        (lit "u2")).2.media,
      r.ID = Ex.m1 ∧ r.UserID = Ex.u1 ∧ r.Filename = lit "cat_edit.png" ∧ r.S3Key = Ex.keyV) :=
  ⟨by decide, by decide, rfl, by decide⟩

/-- C9 (the code at the failing input): `Get` cached `m1`, then
`RestoreVersion` succeeded; the cache still holds the entry of `media:m1`,
and the following `Get` returns the filename and blob key from before the
restore, not those of the version. -/
theorem C9_restoreVersion_keeps_cache_entry :
    (VersionService.RestoreVersion (Env.calm [] 6000000000) Ex.s5 Ex.v1 Ex.u1).1 = .ok () ∧
    (VersionService.RestoreVersion (Env.calm [] 6000000000) Ex.s5 Ex.v1 Ex.u1).2 = Ex.s6 ∧
    cacheGet Ex.s6.cache (cacheKey Ex.m1) ≠ none ∧
    (∃ v ∈ Ex.s6.versions, v.ID = Ex.v1 ∧ v.Filename = lit "cat_edit.png" ∧
      v.S3Key = Ex.keyV) ∧
    (∃ m, (MediaService.Get (Env.calm [] 7000000000) Ex.s6 Ex.m1).1 = .ok m ∧
      m.Filename = lit "cat.png" ∧ m.S3Key = Ex.key0 ∧ m.Size = 2048) :=
  ⟨rfl, rfl, by decide, by decide, ⟨_, rfl, by decide, by decide, by decide⟩⟩

/-- C6 (the code at the failing input): in the reachable state after the
restore, the record `m1` of `u1` has blob key `keyV` and the bucket holds an
object under it; `Delete` returns no error and the object under `keyV` is
still in the bucket (the key deleted is the one of the stale cached copy). -/
theorem C6_delete_leaves_restored_blob :
    (∃ r ∈ Ex.s6.media, r.ID = Ex.m1 ∧ r.UserID = Ex.u1 ∧ r.S3Key = Ex.keyV) ∧
    Ex.keyV ∈ Ex.s6.blobs ∧
    (MediaService.Delete (Env.calm [] 7000000000) Ex.s6 Ex.m1 Ex.u1).1 = .ok () ∧
    (MediaService.Delete (Env.calm [] 7000000000) Ex.s6 Ex.m1 Ex.u1).2.media = [] ∧
    Ex.keyV ∈ (MediaService.Delete (Env.calm [] 7000000000) Ex.s6 Ex.m1 Ex.u1).2.blobs ∧
    Ex.key0 ∉ (MediaService.Delete (Env.calm [] 7000000000) Ex.s6 Ex.m1 Ex.u1).2.blobs :=
  ⟨by decide, by decide, rfl, by decide, by decide, by decide⟩

/-! ## Theorems: cache failures -/

/-- C10: cache failures are never fatal to `Get`. If the stored record of id
`i` is `found`, the cache read fails or yields no payload that decodes
(a miss or undecodable bytes), and the cache write fails, then `Get i` (the
metadata store answering) returns no error, returns `found` with its download
URL filled in, and leaves the stores as they were. And whenever `Get` returns
an error, the stores are untouched and either the metadata store read failed
or it found no record. -/
theorem C10_cache_failures_not_fatal (e : Env) (s : State) (i : GoString) (found : Media)
    (hrec : s.media.find? (fun m => decide (m.ID = i)) = some found)
    (hread : e.cacheGetFails = true ∨ ∀ m, cacheGet s.cache (cacheKey i) ≠ some (some m))
    (hwrite : e.cacheSetFails = true) (hfind : e.findFails = false) :
    MediaService.Get e s i = (.ok { found with URL := e.presign found.S3Key }, s) ∧
    ∀ (e1 : Env) (s1 s2 : State) (j : GoString) (err : Err),
      MediaService.Get e1 s1 j = (.error err, s2) →
        s2 = s1 ∧ ((e1.findFails = true ∧ err = .backend) ∨
          (s1.media.find? (fun m => decide (m.ID = j)) = none ∧ err = .noDocuments)) := by
  constructor
  · have hf : findMedia e s.media i = .ok found := by
      unfold findMedia
      rw [hfind, hrec]
      rfl
    rcases Get_cases e s i with ⟨m, hg, hhit, -⟩ | ⟨err, he, -⟩ | ⟨f1, hf1, ⟨-, h⟩ | ⟨hw, -⟩⟩
    · rcases hread with h | h
      · rw [h] at hg
        cases hg
      · exact absurd hhit (h m)
    · rw [hf] at he
      cases he
    · rw [hf] at hf1
      cases hf1
      exact h
    · rw [hwrite] at hw
      cases hw
  · intro e1 s1 s2 j err h
    rcases Get_cases e1 s1 j with ⟨m, -, -, h1⟩ | ⟨err1, he, h1⟩ | ⟨f1, -, ⟨-, h1⟩ | ⟨-, h1⟩⟩
    · rw [h1] at h; cases h
    · rw [h1] at h
      simp only [Prod.mk.injEq, Except.error.injEq] at h
      obtain ⟨rfl, rfl⟩ := h
      refine ⟨rfl, ?_⟩
      unfold findMedia at he
      split_ifs at he with hff
      · left
        simp only [Except.error.injEq] at he
        exact ⟨hff, he.symm⟩
      · right
        split at he
        · rename_i hnone
          simp only [Except.error.injEq] at he
          exact ⟨hnone, he.symm⟩
        · cases he
    · rw [h1] at h; cases h
    · rw [h1] at h; cases h

/-- C10 applied to the scenario: `cat.png` is read while the cache is down. -/
theorem C10_cache_failures_not_fatal_witness :
    MediaService.Get (Env.cacheDown [] 2000000000) Ex.s1 Ex.m1 =
      (.ok { Ex.catStored with URL := lit "https://bucket/media/u1/m1/cat.png" }, Ex.s1) :=
  (C10_cache_failures_not_fatal (Env.cacheDown [] 2000000000) Ex.s1 Ex.m1 Ex.catStored
    (by decide) (Or.inl rfl) rfl rfl).1

/-! ## Theorems: deletion with a coherent cache -/

theorem eq_of_mem_of_id {M : List Media} (hn : (M.map (fun m => m.ID)).Nodup) {x y : Media}
    (hx : x ∈ M) (hy : y ∈ M) (h : x.ID = y.ID) : x = y :=
  List.inj_on_of_nodup_map hn hx hy h

/-- When the cache holds no copy of the record with another blob key, a
successful `Delete` removes the record, the object under its blob key and the
cache entry, and no other record. -/
theorem Delete_ok_of_coherent {e : Env} {s s1 : State} {r : Media} {o : GoString}
    (hinv : StoreInv s) (hr : r ∈ s.media)
    (hcoh : ∀ m, cacheGet s.cache (cacheKey r.ID) = some (some m) → m.S3Key = r.S3Key)
    (hdel : e.cacheDelFails = false)
    (h : MediaService.Delete e s r.ID o = (.ok (), s1)) :
    (∀ x ∈ s1.media, x.ID ≠ r.ID) ∧ r.S3Key ∉ s1.blobs ∧
    cacheGet s1.cache (cacheKey r.ID) = none ∧
    (∀ x : Media, x.ID ≠ r.ID → (x ∈ s1.media ↔ x ∈ s.media)) := by
  obtain ⟨media, s0, hget, -, hm, hb, -, -, hc⟩ := Delete_ok h
  have hkey : media.S3Key = r.S3Key := by
    rcases Get_cases e s r.ID with ⟨m, -, hhit, h1⟩ | ⟨err, -, h1⟩ | ⟨f1, hf1, ⟨-, h1⟩ | ⟨-, h1⟩⟩
    · rw [h1] at hget
      simp only [Prod.mk.injEq, Except.ok.injEq] at hget
      rw [← hget.1]
      exact hcoh m hhit
    · rw [h1] at hget
      simp at hget
    all_goals
      obtain ⟨-, -, hmem, hid⟩ := findMedia_ok hf1
      rw [h1] at hget
      simp only [Prod.mk.injEq, Except.ok.injEq] at hget
      rw [← hget.1, ← eq_of_mem_of_id hinv.nodup hmem hr hid]
  refine ⟨?_, ?_, ?_, ?_⟩
  · intro x hx hxi
    have hnone := find_deleteOne_none s.media r.ID hinv.nodup
    rw [← hm, List.find?_eq_none] at hnone
    exact hnone x hx (decide_eq_true hxi)
  · rw [hb, hkey]
    simp [blobDelete]
  · rw [hc hdel]
    exact cacheGet_cacheDel _ _
  · intro x hx
    rw [hm]
    exact List.mem_eraseP_of_neg (by simpa using hx)

/-! ## Theorems: version numbering -/

/-- The fold of `latestVersion`, started from any candidate. -/
theorem latest_fold (l : List MediaVersion) (acc : Option MediaVersion) :
    ∃ r, l.foldl (fun acc v => match acc with
        | none => some v
        | some a => if a.Version < v.Version then some v else some a) acc = r ∧
      (r = none ↔ acc = none ∧ l = []) ∧
      ∀ v, r = some v → (acc = some v ∨ v ∈ l) ∧ (∀ w ∈ l, w.Version ≤ v.Version) ∧
        ∀ a, acc = some a → a.Version ≤ v.Version := by
  induction l generalizing acc with
  | nil =>
    refine ⟨acc, rfl, by simp, ?_⟩
    intro v hv
    refine ⟨Or.inl hv, by simp, ?_⟩
    intro a ha
    rw [hv] at ha
    cases ha
    exact le_refl _
  | cons x xs ih =>
    simp only [List.foldl_cons]
    cases acc with
    | none =>
      obtain ⟨r, hr, hnone, hsome⟩ := ih (some x)
      refine ⟨r, hr, ?_, ?_⟩
      · simp only [hnone]
        simp
      · intro v hv
        obtain ⟨hmem, hmax, hacc⟩ := hsome v hv
        refine ⟨Or.inr ?_, ?_, by simp⟩
        · rcases hmem with h | h
          · cases h
            exact List.mem_cons_self _ _
          · exact List.mem_cons_of_mem _ h
        · intro w hw
          rcases List.mem_cons.1 hw with rfl | hw
          · exact hacc _ rfl
          · exact hmax w hw
    | some a =>
      by_cases hlt : a.Version < x.Version
      · simp only [hlt, if_true]
        obtain ⟨r, hr, hnone, hsome⟩ := ih (some x)
        refine ⟨r, hr, ?_, ?_⟩
        · simp only [hnone]
          simp
        · intro v hv
          obtain ⟨hmem, hmax, hacc⟩ := hsome v hv
          have hx := hacc x rfl
          refine ⟨Or.inr ?_, ?_, ?_⟩
          · rcases hmem with h | h
            · cases h
              exact List.mem_cons_self _ _
            · exact List.mem_cons_of_mem _ h
          · intro w hw
            rcases List.mem_cons.1 hw with rfl | hw
            · exact hx
            · exact hmax w hw
          · intro b hb
            cases hb
            exact le_of_lt (lt_of_lt_of_le hlt hx)
      · simp only [hlt, if_false]
        obtain ⟨r, hr, hnone, hsome⟩ := ih (some a)
        refine ⟨r, hr, ?_, ?_⟩
        · simp only [hnone]
          simp
        · intro v hv
          obtain ⟨hmem, hmax, hacc⟩ := hsome v hv
          have ha := hacc a rfl
          refine ⟨?_, ?_, ?_⟩
          · rcases hmem with h | h
            · exact Or.inl h
            · exact Or.inr (List.mem_cons_of_mem _ h)
          · intro w hw
            rcases List.mem_cons.1 hw with rfl | hw
            · exact le_trans (not_lt.1 hlt) ha
            · exact hmax w hw
          · intro b hb
            cases hb
            exact ha

/-- `latestVersion` finds nothing exactly when the media has no version. -/
theorem latestVersion_none (c : List MediaVersion) (m : GoString) :
    latestVersion c m = none ↔ ∀ v ∈ c, v.MediaID ≠ m := by
  obtain ⟨r, hr, hnone, -⟩ := latest_fold (c.filter (fun v => decide (v.MediaID = m))) none
  have hr1 : latestVersion c m = r := hr
  rw [hr1, hnone]
  simp [List.filter_eq_nil_iff]

/-- What `latestVersion` finds is a version of the media with the largest
number. -/
theorem latestVersion_some {c : List MediaVersion} {m : GoString} {v : MediaVersion}
    (h : latestVersion c m = some v) :
    v ∈ c ∧ v.MediaID = m ∧ ∀ w ∈ c, w.MediaID = m → w.Version ≤ v.Version := by
  obtain ⟨r, hr, -, hsome⟩ := latest_fold (c.filter (fun v => decide (v.MediaID = m))) none
  have hr1 : latestVersion c m = r := hr
  rw [hr1] at h
  obtain ⟨hmem, hmax, -⟩ := hsome v h
  rcases hmem with hmem | hmem
  · cases hmem
  · simp only [List.mem_filter, decide_eq_true_eq] at hmem
    refine ⟨hmem.1, hmem.2, ?_⟩
    intro w hw hwm
    exact hmax w (by simp [List.mem_filter, hw, hwm])

theorem wrap64_of_fits {x : Int} (h : fitsInt64 x) : wrap64 x = x := by
  unfold fitsInt64 at h
  unfold wrap64
  have h1 : (x + 2 ^ 63) % 2 ^ 64 = x + 2 ^ 63 :=
    Int.emod_eq_of_lt (by omega) (by omega)
  rw [h1]
  omega

/-- `CreateVersion` is its lookup followed by its insert. -/
theorem CreateVersion_eq_steps (e : Env) (s : State) (m u : GoString)
    (req : CreateVersionRequest) :
    VersionService.CreateVersion e s m u req =
      VersionService.insertNumbered e s m u req (VersionService.readNextVersion e s m) := by
  unfold VersionService.CreateVersion VersionService.insertNumbered
    VersionService.readNextVersion
  rfl

theorem readNextVersion_first {e : Env} {s : State} {m : GoString}
    (hfind : e.findFails = false) (hnone : ∀ v ∈ s.versions, v.MediaID ≠ m) :
    VersionService.readNextVersion e s m = 1 := by
  unfold VersionService.readNextVersion
  rw [hfind, (latestVersion_none s.versions m).2 hnone]
  rfl

theorem readNextVersion_succ {e : Env} {s : State} {m : GoString} {v0 : MediaVersion}
    (hfind : e.findFails = false) (hmem : v0 ∈ s.versions) (hm : v0.MediaID = m)
    (hmax : ∀ w ∈ s.versions, w.MediaID = m → w.Version ≤ v0.Version)
    (hfit : fitsInt64 (v0.Version + 1)) :
    VersionService.readNextVersion e s m = v0.Version + 1 := by
  unfold VersionService.readNextVersion
  rw [hfind]
  cases hl : latestVersion s.versions m with
  | none => exact absurd hm ((latestVersion_none s.versions m).1 hl v0 hmem)
  | some v =>
    obtain ⟨hv, hvm, hvmax⟩ := latestVersion_some hl
    have heq : v.Version = v0.Version :=
      le_antisymm (hmax v hv hvm) (hvmax v0 hmem hm)
    simp only [Bool.false_eq_true, if_false, heq]
    exact wrap64_of_fits hfit

/-- What a successful insert of `CreateVersion` did. -/
theorem insertNumbered_ok {e : Env} {s s1 : State} {m u : GoString}
    {req : CreateVersionRequest} {n : Int} {v : MediaVersion}
    (h : VersionService.insertNumbered e s m u req n = (.ok v, s1)) :
    v.Version = n ∧ v.MediaID = m ∧ v.ID = e.uuid ∧
    (∃ w : MediaVersion, w.Version = n ∧ w.MediaID = m ∧ s1.versions = s.versions ++ [w]) ∧
    s1.media = s.media ∧ s1.trash = s.trash ∧ s1.blobs = s.blobs ∧ s1.cache = s.cache := by
  unfold VersionService.insertNumbered at h
  simp only at h
  split at h
  · simp at h
  · rename_i c hc
    unfold insertVersion at hc
    split_ifs at hc
    simp only [Except.ok.injEq] at hc
    simp only [Prod.mk.injEq, Except.ok.injEq] at h
    obtain ⟨rfl, rfl⟩ := h
    subst hc
    exact ⟨rfl, rfl, rfl, ⟨_, rfl, rfl, rfl⟩, rfl, rfl, rfl, rfl⟩

/-- A failed insert of `CreateVersion` changes nothing. -/
theorem insertNumbered_error {e : Env} {s s1 : State} {m u : GoString}
    {req : CreateVersionRequest} {n : Int} {err : Err}
    (h : VersionService.insertNumbered e s m u req n = (.error err, s1)) : s1 = s := by
  unfold VersionService.insertNumbered at h
  simp only at h
  split at h
  · simp only [Prod.mk.injEq] at h
    exact h.2.symm
  · simp at h

theorem readNextVersion_of_top {e : Env} {s : State} {m : GoString} {k : Nat}
    (hfind : e.findFails = false) (htop : TopNumber s m k) (hk : k + 1 < 2 ^ 63) :
    VersionService.readNextVersion e s m = (k : Int) + 1 := by
  rcases htop with ⟨rfl, hnone⟩ | ⟨v0, hmem, hm, hv, hmax⟩
  · rw [readNextVersion_first hfind hnone]
    rfl
  · rw [← hv]
    refine readNextVersion_succ hfind hmem hm (by rw [hv]; exact hmax) ?_
    rw [hv]
    constructor
    · have : (0 : Int) ≤ (k : Int) := Int.ofNat_nonneg k
      omega
    · have : ((k + 1 : Nat) : Int) < 2 ^ 63 := by exact_mod_cast hk
      push_cast at this
      exact this

theorem TopNumber_after_insert {e : Env} {s s1 : State} {m u : GoString}
    {req : CreateVersionRequest} {k : Nat} {v : MediaVersion} (htop : TopNumber s m k)
    (h : VersionService.insertNumbered e s m u req ((k : Int) + 1) = (.ok v, s1)) :
    TopNumber s1 m (k + 1) := by
  obtain ⟨-, -, -, ⟨w, hwv, hwm, hs1⟩, -⟩ := insertNumbered_ok h
  right
  refine ⟨w, by rw [hs1]; simp, hwm, by rw [hwv]; push_cast; rfl, ?_⟩
  intro x hx hxm
  rw [hs1] at hx
  rcases List.mem_append.1 hx with hx | hx
  · rcases htop with ⟨-, hnone⟩ | ⟨v0, -, -, -, hmax⟩
    · exact absurd hxm (hnone x hx)
    · have := hmax x hx hxm
      push_cast
      omega
  · simp only [List.mem_singleton] at hx
    rw [hx, hwv]
    push_cast
    exact le_refl _

/-- Successive calls whose lookups answer and whose inserts succeed are
numbered consecutively above the largest stored number. -/
theorem createVersions_numbers (m : GoString) (calls : List VersionCall) :
    ∀ (s : State) (k : Nat), TopNumber s m k →
      (∀ c ∈ calls, c.env.findFails = false) →
      (∀ r ∈ (createVersions m calls s).1, ∃ v, r = .ok v) →
      k + calls.length < 2 ^ 63 →
      (createVersions m calls s).1.map assigned =
        (List.range' (k + 1) calls.length).map (fun j => some (j : Int)) := by
  induction calls with
  | nil => intro s k _ _ _ _; rfl
  | cons c cs ih =>
    intro s k htop hfind hok hlen
    simp only [List.length_cons] at hlen
    have hread := readNextVersion_of_top (hfind c (List.mem_cons_self _ _)) htop
      (by omega : k + 1 < 2 ^ 63)
    simp only [createVersions, CreateVersion_eq_steps, hread] at hok ⊢
    obtain ⟨v, hv⟩ := hok _ (List.mem_cons_self _ _)
    have hins : VersionService.insertNumbered c.env s m c.userID c.req ((k : Int) + 1) =
        (.ok v, (VersionService.insertNumbered c.env s m c.userID c.req ((k : Int) + 1)).2) :=
      Prod.ext hv rfl
    have htop1 := TopNumber_after_insert htop hins
    have hnum := (insertNumbered_ok hins).1
    have := ih _ (k + 1) htop1 (fun c hc => hfind c (List.mem_cons_of_mem _ hc))
      (fun r hr => hok r (List.mem_cons_of_mem _ hr)) (by omega)
    simp only [List.map_cons, List.length_cons, List.range'_succ, this, hv, assigned, hnum]
    rfl

/-! ## Theorems: who writes the version collection -/

/-- The calls that insert into the version collection. -/
theorem exec_versions_sublist (e : Env) (s : State) (c : Call)
    (hc : ∀ i u r, c ≠ .createVersion i u r) :
    (exec e s c).versions.Sublist s.versions := by
  have hget : ∀ i, (MediaService.Get e s i).2.versions = s.versions :=
    fun i => (Get_frame e s i).2.1
  cases c with
  | createVersion i u r => exact absurd rfl (hc i u r)
  | create u req =>
    simp only [exec, MediaService.Create]
    split
    · exact List.Sublist.refl _
    · split <;> exact List.Sublist.refl _
  | get i =>
    simp only [exec, hget]
    exact List.Sublist.refl _
  | delete i u =>
    have h1 := hget i
    simp only [exec, MediaService.Delete]
    generalize MediaService.Get e s i = o at h1 ⊢
    obtain ⟨r, s1⟩ := o
    simp only at h1
    cases r with
    | error err => simp only [h1]; exact List.Sublist.refl _
    | ok media =>
      simp only
      split_ifs <;> simp only [h1] <;> exact List.Sublist.refl _
  | setURL i url =>
    simp only [exec, MediaService.SetURL]
    split_ifs <;> exact List.Sublist.refl _
  | updateMetadata i u md =>
    have h1 := hget i
    simp only [exec, MediaService.UpdateMetadata]
    generalize MediaService.Get e s i = o at h1 ⊢
    obtain ⟨r, s1⟩ := o
    simp only at h1
    cases r with
    | error err => simp only [h1]; exact List.Sublist.refl _
    | ok media =>
      simp only
      split_ifs <;> simp only [h1] <;> exact List.Sublist.refl _
  | rename i u f =>
    have h1 := hget i
    simp only [exec, MediaService.Rename]
    generalize MediaService.Get e s i = o at h1 ⊢
    obtain ⟨r, s1⟩ := o
    simp only at h1
    cases r with
    | error err => simp only [h1]; exact List.Sublist.refl _
    | ok media =>
      simp only
      split_ifs <;> simp only [h1] <;> exact List.Sublist.refl _
  | copyMedia i u w =>
    have h1 := hget i
    simp only [exec, MediaService.CopyMedia]
    generalize MediaService.Get e s i = o at h1 ⊢
    obtain ⟨r, s1⟩ := o
    simp only at h1
    cases r with
    | error err => simp only [h1]; exact List.Sublist.refl _
    | ok media =>
      simp only
      split_ifs
      · simp only [h1]; exact List.Sublist.refl _
      · split <;> simp only [h1] <;> exact List.Sublist.refl _
  | moveMedia i u w =>
    have h1 := hget i
    simp only [exec, MediaService.MoveMedia]
    generalize MediaService.Get e s i = o at h1 ⊢
    obtain ⟨r, s1⟩ := o
    simp only at h1
    cases r with
    | error err => simp only [h1]; exact List.Sublist.refl _
    | ok media =>
      simp only
      split_ifs <;> simp only [h1] <;> exact List.Sublist.refl _
  | deleteVersion v u =>
    have h1 := GetVersion_state e s v
    simp only [exec, VersionService.DeleteVersion]
    generalize VersionService.GetVersion e s v = o at h1 ⊢
    obtain ⟨r, s1⟩ := o
    simp only at h1
    subst h1
    cases r with
    | error err => exact List.Sublist.refl _
    | ok version =>
      simp only
      split_ifs <;> first | exact List.Sublist.refl _ | exact List.eraseP_sublist _
  | restoreVersion v u =>
    have h1 := GetVersion_state e s v
    simp only [exec, VersionService.RestoreVersion]
    generalize VersionService.GetVersion e s v = o at h1 ⊢
    obtain ⟨r, s1⟩ := o
    simp only at h1
    subst h1
    cases r with
    | error err => exact List.Sublist.refl _
    | ok version =>
      simp only
      split_ifs <;> exact List.Sublist.refl _
  | moveToTrash i u =>
    simp only [exec, TrashService.MoveToTrash]
    repeat' (first | exact List.Sublist.refl _ | split)
  | restoreFromTrash t u =>
    simp only [exec, TrashService.RestoreFromTrash]
    repeat' (first | exact List.Sublist.refl _ | split)
  | permanentDelete t u =>
    simp only [exec, TrashService.PermanentDelete]
    repeat' (first | exact List.Sublist.refl _ | split)
  | emptyTrash u =>
    simp only [exec, TrashService.EmptyTrash]
    split_ifs <;> exact List.Sublist.refl _
  | applyWatermark req =>
    simp only [exec, WatermarkService.Apply]
    split_ifs <;> exact List.Sublist.refl _
  | removeWatermark i =>
    simp only [exec, WatermarkService.Remove]
    split_ifs <;> exact List.Sublist.refl _
  | upload key => exact List.Sublist.refl _
  | expire key => exact List.Sublist.refl _

/-- The insert of `CreateVersion` succeeds when the backend answers and the
drawn id is new; the collection gains the BSON image of the returned value. -/
theorem insertNumbered_answers {e : Env} {s : State} (m u : GoString)
    (req : CreateVersionRequest) (n : Int) (hins : e.insertFails = false)
    (hfresh : ∀ v ∈ s.versions, v.ID ≠ e.uuid) :
    ∃ v, VersionService.insertNumbered e s m u req n =
        (.ok v, { s with versions :=
          s.versions ++ [{ v with CreatedAt := bsonTime v.CreatedAt }] }) ∧
      v.ID = e.uuid ∧ v.Version = n ∧ v.MediaID = m := by
  have hany : (s.versions.any (fun v => decide (v.ID = e.uuid))) = false := by
    rw [List.any_eq_false]
    intro v hv
    simpa using hfresh v hv
  unfold VersionService.insertNumbered insertVersion
  simp only [hins, hany, Bool.false_eq_true, if_false]
  exact ⟨_, rfl, rfl, rfl, rfl⟩

/-- With the lookup answering and no overflow, the number read is above every
stored number of the media id. -/
theorem readNextVersion_gt {e : Env} {s : State} {i : GoString}
    (hfind : e.findFails = false)
    (hfit : ∀ v ∈ s.versions, v.MediaID = i → fitsInt64 (v.Version + 1)) :
    ∀ w ∈ s.versions, w.MediaID = i → w.Version < VersionService.readNextVersion e s i := by
  intro w hw hwm
  cases hl : latestVersion s.versions i with
  | none => exact absurd hwm ((latestVersion_none s.versions i).1 hl w hw)
  | some v0 =>
    obtain ⟨hmem, hm, hmax⟩ := latestVersion_some hl
    rw [readNextVersion_succ hfind hmem hm hmax (hfit v0 hmem hm)]
    have := hmax w hw hwm
    omega

theorem VersionsDistinct_init : VersionsDistinct State.init := by
  intro m
  exact List.nodup_nil

theorem VersionsDistinct_exec {e : Env} {s : State} {c : Call} (h : VersionsDistinct s)
    (hl : LookupAnswers e s c) : VersionsDistinct (exec e s c) := by
  intro m
  by_cases hc : ∀ i u r, c ≠ .createVersion i u r
  · exact (h m).sublist (((exec_versions_sublist e s c hc).filter _).map _)
  · push_neg at hc
    obtain ⟨i, u, r, rfl⟩ := hc
    obtain ⟨hfind, hfit⟩ := hl
    simp only [exec, CreateVersion_eq_steps]
    cases ho : VersionService.insertNumbered e s i u r (VersionService.readNextVersion e s i) with
    | mk res s1 =>
    cases res with
    | error err =>
      rw [insertNumbered_error ho]
      exact h m
    | ok v =>
      obtain ⟨-, -, -, ⟨w, hwv, hwm, hs1⟩, -⟩ := insertNumbered_ok ho
      have hn : versionNumbers s1 m =
          versionNumbers s m ++ (if w.MediaID = m then [w.Version] else []) := by
        unfold versionNumbers
        rw [hs1]
        by_cases h : w.MediaID = m <;> simp [List.filter_append, List.filter_cons, h]
      simp only
      rw [hn]
      split_ifs with hm
      · rw [List.nodup_append]
        refine ⟨h m, List.nodup_singleton _, ?_⟩
        intro a ha hb
        simp only [List.mem_singleton] at hb
        subst hb
        unfold versionNumbers at ha
        obtain ⟨x, hx, hxv⟩ := List.mem_map.1 ha
        simp only [List.mem_filter, decide_eq_true_eq] at hx
        have := readNextVersion_gt hfind hfit x hx.1 (by rw [hx.2, ← hm, hwm])
        rw [hwv] at hxv
        omega
      · rw [List.append_nil]
        exact h m

/-- Successive calls whose inserts are answered and that draw distinct new ids
all succeed. -/
theorem createVersions_answer (m : GoString) (calls : List VersionCall) :
    ∀ s : State, (∀ c ∈ calls, c.env.insertFails = false) →
      (calls.map (fun c => c.env.uuid)).Nodup →
      (∀ c ∈ calls, ∀ v ∈ s.versions, v.ID ≠ c.env.uuid) →
      ∀ r ∈ (createVersions m calls s).1, ∃ v, r = .ok v := by
  induction calls with
  | nil => intro s _ _ _ r hr; cases hr
  | cons c cs ih =>
    intro s hins hnd hfresh r hr
    simp only [List.map_cons, List.nodup_cons] at hnd
    obtain ⟨v, hv, hid, -, -⟩ := insertNumbered_answers m c.userID c.req
      (VersionService.readNextVersion c.env s m) (hins c (List.mem_cons_self _ _))
      (hfresh c (List.mem_cons_self _ _))
    simp only [createVersions, CreateVersion_eq_steps, hv, List.mem_cons] at hr
    rcases hr with rfl | hr
    · exact ⟨v, rfl⟩
    · refine ih _ (fun c hc => hins c (List.mem_cons_of_mem _ hc)) hnd.2 ?_ r hr
      intro c1 hc1 x hx
      simp only [List.mem_append, List.mem_singleton] at hx
      rcases hx with hx | rfl
      · exact hfresh c1 (List.mem_cons_of_mem _ hc1) x hx
      · intro he
        apply hnd.1
        simp only at he
        rw [← hid, he]
        exact List.mem_map_of_mem (fun c => c.env.uuid) hc1

/-! ## Theorems: the numbers `CreateVersion` assigns -/

/-- The numbering when the lookup answers: for every media id `m`, a
`CreateVersion` on `m` whose lookup and
insert are answered and that draws a new id succeeds and stores what it
returns; the number is 1 when no version of `m` is stored and `max + 1` (within
the range of `int`) when the largest stored number of `m` is `max`. Hence
successive calls on a media id without versions are numbered `1, 2, ..., N` in
call order, and no sequence of events whose version lookups are answered makes
two stored versions of one media id share a number. -/
theorem createVersion_numbers_of_answered_lookup (m : GoString) :
    (∀ (e : Env) (s : State) (u : GoString) (req : CreateVersionRequest),
      e.findFails = false → e.insertFails = false → (∀ x ∈ s.versions, x.ID ≠ e.uuid) →
      ∃ v, VersionService.CreateVersion e s m u req =
          (.ok v, { s with versions :=
            s.versions ++ [{ v with CreatedAt := bsonTime v.CreatedAt }] }) ∧
        v.MediaID = m ∧
        ((∀ x ∈ s.versions, x.MediaID ≠ m) → v.Version = 1) ∧
        ∀ v0 ∈ s.versions, v0.MediaID = m →
          (∀ x ∈ s.versions, x.MediaID = m → x.Version ≤ v0.Version) →
          fitsInt64 (v0.Version + 1) → v.Version = v0.Version + 1) ∧
    (∀ (calls : List VersionCall) (s : State), (∀ x ∈ s.versions, x.MediaID ≠ m) →
      (∀ c ∈ calls, c.env.findFails = false ∧ c.env.insertFails = false) →
      (calls.map (fun c => c.env.uuid)).Nodup →
      (∀ c ∈ calls, ∀ x ∈ s.versions, x.ID ≠ c.env.uuid) →
      calls.length < 2 ^ 63 →
      (createVersions m calls s).1.map assigned =
        (List.range' 1 calls.length).map (fun j => some (j : Int))) ∧
    VersionsDistinct State.init ∧
    ∀ (e : Env) (s : State) (c : Call), VersionsDistinct s → LookupAnswers e s c →
      VersionsDistinct (exec e s c) := by
  refine ⟨?_, ?_, VersionsDistinct_init, fun e s c h hl => VersionsDistinct_exec h hl⟩
  · intro e s u req hfind hins hfresh
    obtain ⟨v, hv, -, hnum, hm⟩ := insertNumbered_answers m u req
      (VersionService.readNextVersion e s m) hins hfresh
    refine ⟨v, by rw [CreateVersion_eq_steps, hv], hm, ?_, ?_⟩
    · intro hnone
      rw [hnum, readNextVersion_first hfind hnone]
    · intro v0 hmem hvm hmax hfit
      rw [hnum, readNextVersion_succ hfind hmem hvm hmax hfit]
  · intro calls s hnone hans hnd hfresh hlen
    have h := createVersions_numbers m calls s 0 (Or.inl ⟨rfl, hnone⟩)
      (fun c hc => (hans c hc).1)
      (createVersions_answer m calls s (fun c hc => (hans c hc).2) hnd hfresh)
      (by omega)
    simpa using h

/-- The numbering on the scenario: two calls in a row get 1 and 2. -/
theorem createVersion_numbers_of_answered_lookup_witness :
    (createVersions Ex.m1 Ex.twoCalls Ex.s3).1.map assigned = [some 1, some 2] ∧
    VersionsDistinct (exec (Env.calm Ex.v1 4000000000) State.init
      (.createVersion Ex.m1 Ex.u1 Ex.editReq)) :=
  ⟨(createVersion_numbers_of_answered_lookup Ex.m1).2.1 Ex.twoCalls Ex.s3 (by decide) (by decide) (by decide)
      (by decide) (by decide),
    (createVersion_numbers_of_answered_lookup Ex.m1).2.2.2 _ _ _ (createVersion_numbers_of_answered_lookup Ex.m1).2.2.1
      ⟨rfl, (fun v hv => absurd hv (List.not_mem_nil v))⟩⟩

/-! ## Theorems: interleaved `CreateVersion` calls -/

/-- The two steps of one call, taken back to back, are the call. -/
theorem runSchedule_call (m : GoString) (calls : List VersionCall) (i : Nat) (rest : List Nat)
    (s : State) (ps : List Phase) (c : VersionCall) (hc : calls[i]? = some c)
    (hp : ps[i]? = some .idle) :
    runSchedule m calls (i :: i :: rest) (s, ps) =
      runSchedule m calls rest
        ((VersionService.CreateVersion c.env s m c.userID c.req).2,
          ps.set i (.done (VersionService.CreateVersion c.env s m c.userID c.req).1)) := by
  have hi : i < ps.length := by
    by_contra h
    rw [List.getElem?_eq_none (by omega)] at hp
    cases hp
  have h2 : (ps.set i (.holds (VersionService.readNextVersion c.env s m)))[i]? =
      some (.holds (VersionService.readNextVersion c.env s m)) := by
    rw [List.getElem?_set_self hi]
  rw [runSchedule, hc, hp]
  simp only [VersionCall.step]
  rw [runSchedule, hc, h2]
  simp only [VersionCall.step, List.set_set, CreateVersion_eq_steps]

theorem take_succ_set {α : Type} (ps : List α) (a : Nat) (x : α) (h : a < ps.length) :
    (ps.set a x).take (a + 1) = ps.take a ++ [x] := by
  induction ps generalizing a with
  | nil => simp at h
  | cons p ps ih =>
    cases a with
    | zero => simp
    | succ a =>
      simp only [List.length_cons, Nat.add_lt_add_iff_right] at h
      simp [ih a h]

/-- Calls that run one after the other: the schedule that gives each call
from position `a` on its two steps in turn. -/
theorem runSchedule_serial_from (m : GoString) (calls : List VersionCall) :
    ∀ (k a : Nat) (s : State) (ps : List Phase), a + k = calls.length →
      ps.length = calls.length →
      (∀ i, a ≤ i → i < calls.length → ps[i]? = some .idle) →
      runSchedule m calls ((List.range' a k).flatMap (fun i => [i, i])) (s, ps) =
        ((createVersions m (calls.drop a) s).2,
          ps.take a ++ (createVersions m (calls.drop a) s).1.map Phase.done) := by
  intro k
  induction k with
  | zero =>
    intro a s ps ha hlen _
    have : calls.drop a = [] := List.drop_eq_nil_of_le (by omega)
    rw [this]
    simp only [List.range'_zero, List.flatMap_nil, runSchedule, createVersions, List.map_nil,
      List.append_nil]
    rw [List.take_of_length_le (by omega)]
  | succ k ih =>
    intro a s ps ha hlen hidle
    have hlt : a < calls.length := by omega
    have hdrop : calls.drop a = calls[a] :: calls.drop (a + 1) := List.drop_eq_getElem_cons hlt
    have hc : calls[a]? = some calls[a] := List.getElem?_eq_getElem hlt
    rw [List.range'_succ, List.flatMap_cons, List.cons_append, List.cons_append, List.nil_append,
      runSchedule_call m calls a _ s ps _ hc (hidle a (le_refl a) hlt), hdrop]
    rw [ih (a + 1) _ _ (by omega) (by rw [List.length_set]; exact hlen) ?_]
    · simp only [createVersions, List.map_cons]
      rw [take_succ_set ps a _ (by omega), List.append_assoc]
      rfl
    · intro i hai hi
      rw [List.getElem?_set_ne (by omega)]
      exact hidle i (by omega) hi

/-- C12 (counterexample): two `CreateVersion` calls on the media `m1`, which
has no versions, both read the maximum before either inserts: both succeed
with number 1, and the collection holds two versions of `m1` numbered 1. -/
theorem C12_counterexample :
    (runSchedule Ex.m1 Ex.twoCalls [0, 1, 0, 1] (Ex.s3, [.idle, .idle])).2.map Phase.number =
      [some 1, some 1] ∧
    versionNumbers (runSchedule Ex.m1 Ex.twoCalls [0, 1, 0, 1] (Ex.s3, [.idle, .idle])).1 Ex.m1 =
      [1, 1] := by
  decide

/-- C12 (amended): `N` `CreateVersion` calls on a media id without versions
that do not overlap (each call inserts before the next one reads), with
lookups and inserts answered and distinct new ids drawn, all succeed and are
numbered `1, 2, ..., N` in call order. -/
theorem C12_serial_calls_numbered (m : GoString) (calls : List VersionCall) (s : State)
    (hnone : ∀ x ∈ s.versions, x.MediaID ≠ m)
    (hans : ∀ c ∈ calls, c.env.findFails = false ∧ c.env.insertFails = false)
    (hnd : (calls.map (fun c => c.env.uuid)).Nodup)
    (hfresh : ∀ c ∈ calls, ∀ x ∈ s.versions, x.ID ≠ c.env.uuid)
    (hlen : calls.length < 2 ^ 63) :
    (runSchedule m calls (serialSchedule calls.length)
        (s, List.replicate calls.length .idle)).2.map Phase.number =
      (List.range' 1 calls.length).map (fun j => some (j : Int)) := by
  have hrun := runSchedule_serial_from m calls calls.length 0 s
    (List.replicate calls.length .idle) (by omega) (by simp)
    (by
      intro i _ hi
      rw [List.getElem?_replicate, if_pos hi])
  have hnum := createVersions_numbers m calls s 0 (Or.inl ⟨rfl, hnone⟩)
    (fun c hc => (hans c hc).1)
    (createVersions_answer m calls s (fun c hc => (hans c hc).2) hnd hfresh) (by omega)
  unfold serialSchedule
  rw [List.range_eq_range', hrun]
  simp only [List.drop_zero, List.take_zero, List.nil_append, List.map_map]
  have hf : Phase.number ∘ Phase.done = assigned := rfl
  rw [hf, hnum]

theorem C12_serial_calls_numbered_witness :
    (runSchedule Ex.m1 Ex.twoCalls (serialSchedule 2) (Ex.s3, [.idle, .idle])).2.map
      Phase.number = [some 1, some 2] :=
  C12_serial_calls_numbered Ex.m1 Ex.twoCalls Ex.s3 (by decide) (by decide) (by decide)
    (by decide) (by decide)

/-! ## Theorems: version numbers over deletions -/

/-- C13 (counterexample): `m1` gets versions 1 and 2, version 2 is deleted,
and the next `CreateVersion` assigns 2 again, under the blob key version 2
had. -/
theorem C13_counterexample :
    assigned (VersionService.CreateVersion (Env.calm (lit "vb") 5000000000) Ex.r1 Ex.m1 Ex.u1
      Ex.editReq).1 = some 2 ∧
    (VersionService.DeleteVersion (Env.calm [] 6000000000) Ex.r2 (lit "vb") Ex.u1).1 = .ok () ∧
    assigned (VersionService.CreateVersion (Env.calm (lit "vc") 7000000000) Ex.r3 Ex.m1 Ex.u1
      Ex.editReq).1 = some 2 ∧
    keyOf (VersionService.CreateVersion (Env.calm (lit "vc") 7000000000) Ex.r3 Ex.m1 Ex.u1
      Ex.editReq).1 =
      keyOf (VersionService.CreateVersion (Env.calm (lit "vb") 5000000000) Ex.r1 Ex.m1 Ex.u1
        Ex.editReq).1 :=
  ⟨by decide, rfl, by decide, by decide⟩

/-- C13 (amended): a `CreateVersion` on `m` whose lookup and insert are
answered and that draws a new id succeeds with a number strictly greater than
every number stored for `m` at the time of the call (numbers within the range
of `int`); numbers of versions deleted earlier are not excluded. -/
theorem C13_number_above_stored (e : Env) (s : State) (m u : GoString)
    (req : CreateVersionRequest) (hfind : e.findFails = false) (hins : e.insertFails = false)
    (hfresh : ∀ x ∈ s.versions, x.ID ≠ e.uuid)
    (hfit : ∀ x ∈ s.versions, x.MediaID = m → fitsInt64 (x.Version + 1)) :
    ∃ v s1, VersionService.CreateVersion e s m u req = (.ok v, s1) ∧
      ∀ w ∈ s.versions, w.MediaID = m → w.Version < v.Version := by
  obtain ⟨v, hv, -, hnum, -⟩ := insertNumbered_answers m u req
    (VersionService.readNextVersion e s m) hins hfresh
  refine ⟨v, _, by rw [CreateVersion_eq_steps, hv], ?_⟩
  rw [hnum]
  exact readNextVersion_gt hfind hfit

theorem C13_number_above_stored_witness :
    ∃ v s1, VersionService.CreateVersion (Env.calm (lit "vc") 7000000000) Ex.r3 Ex.m1 Ex.u1
        Ex.editReq = (.ok v, s1) ∧
      ∀ w ∈ Ex.r3.versions, w.MediaID = Ex.m1 → w.Version < v.Version :=
  C13_number_above_stored (Env.calm (lit "vc") 7000000000) Ex.r3 Ex.m1 Ex.u1 Ex.editReq rfl rfl
    (by decide) (by unfold fitsInt64; decide)

/-! ## Theorems: the effect of `RestoreVersion` -/

/-- With unique ids, `UpdateOne` by id rewrites the record with that id and
no other. -/
theorem updateOne_eq_map (f : Media → Media) (i : GoString) (l : List Media)
    (hn : (l.map (fun m => m.ID)).Nodup) :
    updateOne (fun m => decide (m.ID = i)) f l = l.map (fun m => if m.ID = i then f m else m) := by
  induction l with
  | nil => rfl
  | cons d ds ih =>
    simp only [List.map_cons, List.nodup_cons] at hn
    unfold updateOne
    by_cases h : d.ID = i
    · simp only [h, decide_True, if_true, List.map_cons]
      congr 1
      have hds : ∀ x ∈ ds, (if x.ID = i then f x else x) = id x := by
        intro x hx
        rw [if_neg]
        · rfl
        · intro hxi
          apply hn.1
          rw [h, ← hxi]
          exact List.mem_map_of_mem (fun m => m.ID) hx
      rw [List.map_congr_left hds, List.map_id]
    · simp only [h, decide_False, Bool.false_eq_true, if_false, List.map_cons, ih hn.2]

/-- C14: in a reachable state, for a stored version `v` (found under the id
asked for) a `RestoreVersion` whose lookup and update are answered returns no
error and leaves the stores as they were except that the media record with id
`v.MediaID` has the filename, MIME type, size and blob key of `v` and a
refreshed `updatedAt`: its other fields, every other media record, the version
collection, the trash, the bucket and the cache are unchanged. A parent record
`p` thereby becomes `p` with these five fields replaced. -/
theorem C14_restoreVersion_effect (e : Env) (s : State) (versionID userID : GoString)
    (v : MediaVersion) (p : Media) (hs : Reachable s)
    (hv : s.versions.find? (fun x => decide (x.ID = versionID)) = some v)
    (hp : p ∈ s.media) (hpid : p.ID = v.MediaID)
    (hfind : e.findFails = false) (hupd : e.updateFails = false) :
    VersionService.RestoreVersion e s versionID userID =
      (.ok (), { s with media := s.media.map (fun m =>
        if m.ID = v.MediaID then
          { m with Filename := v.Filename, MimeType := v.MimeType, Size := v.Size,
                   S3Key := v.S3Key, UpdatedAt := bsonTime (e.clock 0) }
        else m) }) ∧
    { p with Filename := v.Filename, MimeType := v.MimeType, Size := v.Size,
             S3Key := v.S3Key, UpdatedAt := bsonTime (e.clock 0) } ∈
      (VersionService.RestoreVersion e s versionID userID).2.media ∧
    (∀ m ∈ s.media, m.ID ≠ v.MediaID →
      m ∈ (VersionService.RestoreVersion e s versionID userID).2.media) ∧
    (VersionService.RestoreVersion e s versionID userID).2.media.length = s.media.length := by
  have hinv := hs.storeInv
  have h1 : VersionService.RestoreVersion e s versionID userID =
      (.ok (), { s with media := s.media.map (fun m =>
        if m.ID = v.MediaID then
          { m with Filename := v.Filename, MimeType := v.MimeType, Size := v.Size,
                   S3Key := v.S3Key, UpdatedAt := bsonTime (e.clock 0) }
        else m) }) := by
    unfold VersionService.RestoreVersion VersionService.GetVersion
    simp only [hfind, hv, hupd, Bool.false_eq_true, if_false]
    rw [updateOne_eq_map _ _ _ hinv.nodup]
  refine ⟨h1, ?_, ?_, ?_⟩
  · rw [h1]
    simp only [List.mem_map]
    exact ⟨p, hp, by rw [if_pos hpid]⟩
  · intro m hm hne
    rw [h1]
    simp only [List.mem_map]
    exact ⟨m, hm, by rw [if_neg hne]⟩
  · rw [h1]
    simp

theorem C14_restoreVersion_effect_witness :
    VersionService.RestoreVersion (Env.calm [] 6000000000) Ex.s5 Ex.v1 Ex.u1 =
      (.ok (), { Ex.s5 with media := Ex.s5.media.map (fun m =>
        if m.ID = Ex.m1 then
          { m with Filename := lit "cat_edit.png", MimeType := lit "image/png", Size := 3000,
                   S3Key := Ex.keyV, UpdatedAt := bsonTime 6000000000 }
        else m) }) :=
  (C14_restoreVersion_effect (Env.calm [] 6000000000) Ex.s5 Ex.v1 Ex.u1 Ex.v1Stored Ex.catStored
    Ex.s5_reachable (by decide) (by decide) rfl rfl rfl).1

/-! ## Theorems: a blob key shared by a media record and a version -/

/-- C15 (counterexample): after the restore the record `m1` and version `v1`
both carry the key `keyV`, under which the bucket holds one object.
`DeleteVersion` of `v1` returns no error and removes that object while the
record `m1` keeps the key; and, once the cache entry has expired, `Delete` of
`m1` returns no error and removes that object while version `v1` keeps the
key. -/
theorem C15_counterexample :
    (∃ m ∈ Ex.s6.media, m.ID = Ex.m1 ∧ m.S3Key = Ex.keyV) ∧ Ex.keyV ∈ Ex.s6.blobs ∧
    (VersionService.DeleteVersion (Env.calm [] 7000000000) Ex.s6 Ex.v1 Ex.u1).1 = .ok () ∧
    Ex.keyV ∉ (VersionService.DeleteVersion (Env.calm [] 7000000000) Ex.s6 Ex.v1 Ex.u1).2.blobs ∧
    (∃ m ∈ (VersionService.DeleteVersion (Env.calm [] 7000000000) Ex.s6 Ex.v1 Ex.u1).2.media,
      m.ID = Ex.m1 ∧ m.S3Key = Ex.keyV) ∧
    Ex.keyV ∈ Ex.s7.blobs ∧
    (MediaService.Delete (Env.calm [] 8000000000) Ex.s7 Ex.m1 Ex.u1).1 = .ok () ∧
    Ex.keyV ∉ (MediaService.Delete (Env.calm [] 8000000000) Ex.s7 Ex.m1 Ex.u1).2.blobs ∧
    (∃ v ∈ (MediaService.Delete (Env.calm [] 8000000000) Ex.s7 Ex.m1 Ex.u1).2.versions,
      v.ID = Ex.v1 ∧ v.S3Key = Ex.keyV) :=
  ⟨by decide, by decide, rfl, by decide, by decide, by decide, rfl, by decide, by decide⟩

theorem not_mem_blobDelete (b : List GoString) (k : GoString) : k ∉ blobDelete b k := by
  unfold blobDelete
  simp

/-- C15 (amended): a blob key shared by a media record and a version names
one object, which either deletion removes. A `DeleteVersion` by the uploader
whose lookup, blob deletion and record deletion are answered returns no error,
leaves the media collection as it was and removes the object under the key of
the version: a media record carrying that key stays, without its object.
In a reachable state whose cache holds no copy of the record with another
key, a `Delete` of the record that returns no error leaves the version
collection as it was and removes the object under the key of the record: a
version carrying that key stays, without its object. -/
theorem C15_shared_blob_is_removed :
    (∀ (e : Env) (s : State) (versionID userID : GoString) (v : MediaVersion) (m : Media),
      s.versions.find? (fun x => decide (x.ID = versionID)) = some v →
      m ∈ s.media → m.S3Key = v.S3Key → v.UploadedBy = userID →
      e.findFails = false → e.blobDeleteFails v.S3Key = false → e.deleteFails = false →
      (VersionService.DeleteVersion e s versionID userID).1 = .ok () ∧
      m ∈ (VersionService.DeleteVersion e s versionID userID).2.media ∧
      m.S3Key ∉ (VersionService.DeleteVersion e s versionID userID).2.blobs) ∧
    (∀ (e : Env) (s s1 : State) (r : Media) (o : GoString) (v : MediaVersion),
      Reachable s → r ∈ s.media → v ∈ s.versions → v.S3Key = r.S3Key →
      (∀ c, cacheGet s.cache (cacheKey r.ID) = some (some c) → c.S3Key = r.S3Key) →
      MediaService.Delete e s r.ID o = (.ok (), s1) →
      v ∈ s1.versions ∧ v.S3Key ∉ s1.blobs) := by
  constructor
  · intro e s versionID userID v m hv hm hkey hu hfind hblob hdel
    have h1 : VersionService.DeleteVersion e s versionID userID =
        (.ok (), { s with blobs := blobDelete s.blobs v.S3Key,
                          versions := deleteOne (fun x => decide (x.ID = versionID)) s.versions }) := by
      unfold VersionService.DeleteVersion VersionService.GetVersion
      simp only [hfind, hv, hu, hblob, hdel, Bool.false_eq_true, if_false, ne_eq,
        not_true_eq_false]
    rw [h1]
    refine ⟨rfl, hm, ?_⟩
    rw [hkey]
    exact not_mem_blobDelete _ _
  · intro e s s1 r o v hs hr hv hkey hcoh h
    have hinv := hs.storeInv
    obtain ⟨media, s0, hget, -, -, hb, hvers, -, -⟩ := Delete_ok h
    have hk : media.S3Key = r.S3Key := by
      rcases Get_cases e s r.ID with ⟨m, -, hhit, h1⟩ | ⟨err, -, h1⟩ | ⟨f1, hf1, ⟨-, h1⟩ | ⟨-, h1⟩⟩
      · rw [h1] at hget
        simp only [Prod.mk.injEq, Except.ok.injEq] at hget
        rw [← hget.1]
        exact hcoh m hhit
      · rw [h1] at hget
        simp at hget
      all_goals
        obtain ⟨-, -, hmem, hid⟩ := findMedia_ok hf1
        rw [h1] at hget
        simp only [Prod.mk.injEq, Except.ok.injEq] at hget
        rw [← hget.1, ← eq_of_mem_of_id hinv.nodup hmem hr hid]
    refine ⟨by rw [hvers]; exact hv, ?_⟩
    rw [hb, hkey, hk]
    exact not_mem_blobDelete _ _

theorem C15_shared_blob_is_removed_witness :
    (VersionService.DeleteVersion (Env.calm [] 7000000000) Ex.s6 Ex.v1 Ex.u1).1 = .ok () ∧
    Ex.keyV ∉ (VersionService.DeleteVersion (Env.calm [] 7000000000) Ex.s6 Ex.v1 Ex.u1).2.blobs :=
  have h := C15_shared_blob_is_removed.1 (Env.calm [] 7000000000) Ex.s6 Ex.v1 Ex.u1 Ex.v1Stored
    { Ex.catStored with Filename := lit "cat_edit.png", Size := 3000, S3Key := Ex.keyV,
                        UpdatedAt := 6000000000 }
    (by decide) (by decide) rfl rfl rfl rfl rfl
  ⟨h.1, h.2.2⟩

/-! ## Theorems: the category of a record -/

/-- C16 (the code at the failing input): every record of the media collection
has the category of its MIME type before the call; `RestoreVersion` of a video
version of the image `m1` returns no error and leaves the record `m1` with MIME
type `video/mp4` and category `image`, where `getMediaType` gives `video`. -/
theorem C16_restoreVersion_keeps_category :
    (∀ m ∈ Ex.q1.media, CategoryOK m) ∧
    (VersionService.RestoreVersion (Env.calm [] 5000000000) Ex.q1 (lit "vm") Ex.u1).1 = .ok () ∧
    (VersionService.RestoreVersion (Env.calm [] 5000000000) Ex.q1 (lit "vm") Ex.u1).2 = Ex.q2 ∧
    (∃ m ∈ Ex.q2.media, m.ID = Ex.m1 ∧ m.MimeType = lit "video/mp4" ∧
      m.Type_ = lit "image" ∧ getMediaType m.MimeType = some (lit "video") ∧ ¬ CategoryOK m) :=
  ⟨by decide, rfl, rfl, by decide⟩

/-! ## Theorems: the decimal rendering of `%d` -/

theorem utf8_digitChar (k : Nat) (hk : k < 10) :
    String.utf8EncodeChar (Nat.digitChar k) = [UInt8.ofNat (48 + k)] := by
  interval_cases k <;> rfl

theorem toDigitsCore_bytes (fuel : Nat) : ∀ (n : Nat) (cs : List Char),
    (Nat.toDigitsCore 10 fuel n cs).flatMap String.utf8EncodeChar =
      digitsB fuel n (cs.flatMap String.utf8EncodeChar) := by
  induction fuel with
  | zero => intro n cs; rfl
  | succ fuel ih =>
    intro n cs
    unfold Nat.toDigitsCore digitsB
    simp only
    split_ifs
    · rw [List.flatMap_cons, utf8_digitChar _ (Nat.mod_lt _ (by omega))]
      rfl
    · rw [ih, List.flatMap_cons, utf8_digitChar _ (Nat.mod_lt _ (by omega))]
      rfl

theorem lit_repr (n : Nat) : lit (Nat.repr n) = digitsB (n + 1) n [] := by
  unfold lit Nat.repr Nat.toDigits
  exact toDigitsCore_bytes (n + 1) n []

theorem fmtInt_ofNat (n : Nat) : fmtInt (n : Int) = digitsB (n + 1) n [] := lit_repr n

theorem fmtInt_negSucc (n : Nat) :
    fmtInt (Int.negSucc n) = 45 :: digitsB (n + 2) (n + 1) [] := by
  have h : fmtInt (Int.negSucc n) = lit ("-" ++ Nat.repr (n + 1)) := rfl
  rw [h]
  unfold lit
  rw [String.toList, String.data_append, List.flatMap_append]
  exact congrArg (fun l => 45 :: l) (lit_repr (n + 1))

theorem toNat_digit (k : Nat) (hk : k < 10) : (UInt8.ofNat (48 + k)).toNat = 48 + k := by
  interval_cases k <;> rfl

theorem valB_digitsB (fuel : Nat) : ∀ (n : Nat) (ds : List UInt8), n < fuel →
    valB (digitsB fuel n ds) = n * 10 ^ ds.length + valB ds := by
  induction fuel with
  | zero => intro n ds h; omega
  | succ fuel ih =>
    intro n ds h
    have hd := toNat_digit (n % 10) (Nat.mod_lt _ (by omega))
    unfold digitsB
    split_ifs with h0
    · simp only [valB, hd, Nat.add_sub_cancel_left]
      have : n % 10 = n := by omega
      rw [this]
    · rw [ih (n / 10) _ (by omega)]
      simp only [valB, hd, Nat.add_sub_cancel_left, List.length_cons, pow_succ]
      have hn : n = n / 10 * 10 + n % 10 := by omega
      have h2 : n * 10 ^ ds.length = (n / 10 * 10 + n % 10) * 10 ^ ds.length := by rw [← hn]
      rw [h2]
      ring

theorem mem_digitsB (fuel : Nat) : ∀ (n : Nat) (ds : List UInt8) (b : UInt8),
    b ∈ digitsB fuel n ds → b ∈ ds ∨ (48 ≤ b.toNat ∧ b.toNat ≤ 57) := by
  induction fuel with
  | zero => intro n ds b h; exact Or.inl h
  | succ fuel ih =>
    intro n ds b h
    have hd := toNat_digit (n % 10) (Nat.mod_lt _ (by omega))
    have hlt : n % 10 < 10 := Nat.mod_lt _ (by omega)
    unfold digitsB at h
    split_ifs at h
    · rcases List.mem_cons.1 h with rfl | h
      · right
        rw [hd]
        omega
      · exact Or.inl h
    · rcases ih _ _ _ h with h | h
      · rcases List.mem_cons.1 h with rfl | h
        · right
          rw [hd]
          omega
        · exact Or.inl h
      · exact Or.inr h

/-- A decimal rendering holds digits and at most a leading minus sign: no `/`. -/
theorem slashFree_fmtInt (n : Int) : slashFree (fmtInt n) := by
  unfold slashFree
  cases n with
  | ofNat m =>
    intro h
    have h1 : fmtInt (Int.ofNat m) = digitsB (m + 1) m [] := fmtInt_ofNat m
    rw [h1] at h
    rcases mem_digitsB _ _ _ _ h with h | h
    · cases h
    · exact absurd h.1 (by decide)
  | negSucc m =>
    intro h
    rw [fmtInt_negSucc] at h
    rcases List.mem_cons.1 h with h | h
    · exact absurd h (by decide)
    · rcases mem_digitsB _ _ _ _ h with h | h
      · cases h
      · exact absurd h.1 (by decide)

/-- The rendering can be read back. -/
theorem decInt_fmtInt (n : Int) : decInt (fmtInt n) = n := by
  cases n with
  | ofNat m =>
    have h1 : fmtInt (Int.ofNat m) = digitsB (m + 1) m [] := fmtInt_ofNat m
    rw [h1]
    have hv := valB_digitsB (m + 1) m [] (by omega)
    simp only [List.length_nil, pow_zero, mul_one, valB, add_zero] at hv
    have hmem := mem_digitsB (m + 1) m []
    generalize digitsB (m + 1) m [] = l at hv hmem
    unfold decInt
    split
    · rename_i t
      rcases hmem 45 (List.mem_cons_self _ _) with h | h
      · cases h
      · exact absurd h.1 (by decide)
    · rw [hv]
      rfl
  | negSucc m =>
    rw [fmtInt_negSucc]
    have hv := valB_digitsB (m + 2) (m + 1) [] (by omega)
    simp only [List.length_nil, pow_zero, mul_one, valB, add_zero] at hv
    simp only [decInt, hv]
    rfl

theorem fmtInt_injective {a b : Int} (h : fmtInt a = fmtInt b) : a = b := by
  rw [← decInt_fmtInt a, ← decInt_fmtInt b, h]

/-! ## Theorems: blob keys -/

theorem append_sep_inj : ∀ {a b x y : GoString}, slashFree a → slashFree b →
    a ++ 47 :: x = b ++ 47 :: y → a = b ∧ x = y := by
  intro a
  induction a with
  | nil =>
    intro b x y _ hb h
    cases b with
    | nil => exact ⟨rfl, by simpa using h⟩
    | cons c cs =>
      simp only [List.nil_append, List.cons_append, List.cons.injEq] at h
      exact absurd (h.1 ▸ List.mem_cons_self _ _) hb
  | cons c cs ih =>
    intro b x y ha hb h
    cases b with
    | nil =>
      simp only [List.nil_append, List.cons_append, List.cons.injEq] at h
      exact absurd (h.1 ▸ List.mem_cons_self _ _) ha
    | cons d ds =>
      simp only [List.cons_append, List.cons.injEq] at h
      obtain ⟨h1, h2⟩ := ih (fun hm => ha (List.mem_cons_of_mem _ hm))
        (fun hm => hb (List.mem_cons_of_mem _ hm)) h.2
      exact ⟨by rw [h.1, h1], h2⟩

theorem mediaKey_eq (o i f : GoString) :
    mediaKey o i f = lit "media/" ++ (o ++ 47 :: (i ++ 47 :: f)) := by
  unfold mediaKey
  have h : lit "/" = [47] := rfl
  simp only [h, List.append_assoc, List.singleton_append, List.cons_append,
    List.nil_append]

theorem versionKey_eq (o i : GoString) (n : Int) (f : GoString) :
    versionKey o i n f = lit "media/" ++ (o ++ 47 :: (i ++ 47 :: (118 :: (fmtInt n ++ 47 :: f)))) := by
  unfold versionKey
  have h : lit "/" = [47] := rfl
  have h2 : lit "/v" = [47, 118] := rfl
  simp only [h, h2, List.append_assoc, List.singleton_append, List.cons_append, List.nil_append]

theorem mediaKey_inj {o o1 i i1 f f1 : GoString} (ho : slashFree o) (ho1 : slashFree o1)
    (hi : slashFree i) (hi1 : slashFree i1) (h : mediaKey o i f = mediaKey o1 i1 f1) :
    o = o1 ∧ i = i1 ∧ f = f1 := by
  rw [mediaKey_eq, mediaKey_eq] at h
  obtain ⟨h1, h2⟩ := append_sep_inj ho ho1 (List.append_cancel_left h)
  obtain ⟨h3, h4⟩ := append_sep_inj hi hi1 h2
  exact ⟨h1, h3, h4⟩

theorem versionKey_inj {o o1 i i1 f f1 : GoString} {n n1 : Int} (ho : slashFree o)
    (ho1 : slashFree o1) (hi : slashFree i) (hi1 : slashFree i1)
    (h : versionKey o i n f = versionKey o1 i1 n1 f1) :
    o = o1 ∧ i = i1 ∧ n = n1 ∧ f = f1 := by
  rw [versionKey_eq, versionKey_eq] at h
  obtain ⟨h1, h2⟩ := append_sep_inj ho ho1 (List.append_cancel_left h)
  obtain ⟨h3, h4⟩ := append_sep_inj hi hi1 h2
  simp only [List.cons.injEq, true_and] at h4
  obtain ⟨h5, h6⟩ := append_sep_inj (slashFree_fmtInt n) (slashFree_fmtInt n1) h4
  exact ⟨h1, h3, fmtInt_injective h5, h6⟩

theorem mediaKey_eq_versionKey {o o1 i i1 f f1 : GoString} {n1 : Int} (ho : slashFree o)
    (ho1 : slashFree o1) (hi : slashFree i) (hi1 : slashFree i1) :
    mediaKey o i f = versionKey o1 i1 n1 f1 ↔
      o = o1 ∧ i = i1 ∧ f = lit "v" ++ fmtInt n1 ++ lit "/" ++ f1 := by
  have hv : lit "v" ++ fmtInt n1 ++ lit "/" ++ f1 = 118 :: (fmtInt n1 ++ 47 :: f1) := by
    have h : lit "/" = [47] := rfl
    have h2 : lit "v" = [118] := rfl
    simp only [h, h2, List.append_assoc, List.singleton_append, List.cons_append,
      List.nil_append]
  rw [mediaKey_eq, versionKey_eq, hv]
  constructor
  · intro h
    obtain ⟨h1, h2⟩ := append_sep_inj ho ho1 (List.append_cancel_left h)
    obtain ⟨h3, h4⟩ := append_sep_inj hi hi1 h2
    exact ⟨h1, h3, h4⟩
  · rintro ⟨rfl, rfl, rfl⟩
    rfl

/-- C17 (counterexample): `u1` creates the media `m1` with filename
`v1/cat.png`, then version 1 of `m1` with filename `cat.png`: the media key
and the version key are the same string. And owner `a/b` with media id `c`
gives the media key of owner `a` with media id `b/c`. -/
theorem C17_counterexample :
    mediaKeyOf (MediaService.Create (Env.calm Ex.m1 1000000000) State.init Ex.u1
      Ex.slashReq).1 = some (lit "media/u1/m1/v1/cat.png") ∧
    keyOf (VersionService.CreateVersion (Env.calm Ex.v1 2000000000) Ex.t1 Ex.m1 Ex.u1
      Ex.catVersionReq).1 = some (lit "media/u1/m1/v1/cat.png") ∧
    assigned (VersionService.CreateVersion (Env.calm Ex.v1 2000000000) Ex.t1 Ex.m1 Ex.u1
      Ex.catVersionReq).1 = some 1 ∧
    Ex.slashReq.Filename ≠ Ex.catVersionReq.Filename ∧
    mediaKey (lit "a/b") (lit "c") (lit "f") = mediaKey (lit "a") (lit "b/c") (lit "f") ∧
    (lit "a/b", lit "c") ≠ (lit "a", lit "b/c") := by
  decide

/-- C17 (amended): the key of a created media is `mediaKey` of the owner, the
drawn id and the filename, and the key of a created version is `versionKey`
of the uploader, the media id, the assigned number and the filename. For
owner and media ids without `/`, two media keys are equal only for equal
(owner, media id, filename), two version keys only for equal (uploader, media
id, number, filename), and a media key equals a version key exactly when
owner and media id agree and the media filename is `v<n>/<version filename>`. -/
theorem C17_keys_of_slash_free_ids (o o1 i i1 f f1 : GoString) (n n1 : Int)
    (ho : slashFree o) (ho1 : slashFree o1) (hi : slashFree i) (hi1 : slashFree i1) :
    (∀ (e : Env) (s s1 : State) (u : GoString) (req : UploadRequest) (m : Media),
      MediaService.Create e s u req = (.ok m, s1) →
      m.S3Key = mediaKey u m.ID req.Filename) ∧
    (∀ (e : Env) (s s1 : State) (m u : GoString) (req : CreateVersionRequest)
      (v : MediaVersion), VersionService.CreateVersion e s m u req = (.ok v, s1) →
      v.S3Key = versionKey u m v.Version req.Filename) ∧
    (mediaKey o i f = mediaKey o1 i1 f1 ↔ o = o1 ∧ i = i1 ∧ f = f1) ∧
    (versionKey o i n f = versionKey o1 i1 n1 f1 ↔ o = o1 ∧ i = i1 ∧ n = n1 ∧ f = f1) ∧
    (mediaKey o i f = versionKey o1 i1 n1 f1 ↔
      o = o1 ∧ i = i1 ∧ f = lit "v" ++ fmtInt n1 ++ lit "/" ++ f1) := by
  refine ⟨?_, ?_, ⟨mediaKey_inj ho ho1 hi hi1, ?_⟩, ⟨versionKey_inj ho ho1 hi hi1, ?_⟩,
    mediaKey_eq_versionKey ho ho1 hi hi1⟩
  · intro e s s1 u req m h
    unfold MediaService.Create at h
    simp only at h
    split at h
    · simp at h
    · split at h
      · simp at h
      · simp only [Prod.mk.injEq, Except.ok.injEq] at h
        rw [← h.1]
        rfl
  · intro e s s1 m u req v h
    rw [CreateVersion_eq_steps] at h
    unfold VersionService.insertNumbered at h
    simp only at h
    split at h
    · simp at h
    · simp only [Prod.mk.injEq, Except.ok.injEq] at h
      rw [← h.1]
      rfl
  · rintro ⟨rfl, rfl, rfl⟩
    rfl
  · rintro ⟨rfl, rfl, rfl, rfl⟩
    rfl

theorem C17_keys_of_slash_free_ids_witness :
    (mediaKey Ex.u1 Ex.m1 (lit "cat.png") = versionKey Ex.u1 Ex.m1 1 (lit "cat_edit.png") ↔
      Ex.u1 = Ex.u1 ∧ Ex.m1 = Ex.m1 ∧
        lit "cat.png" = lit "v" ++ fmtInt 1 ++ lit "/" ++ lit "cat_edit.png") :=
  (C17_keys_of_slash_free_ids Ex.u1 Ex.u1 Ex.m1 Ex.m1 (lit "cat.png") (lit "cat_edit.png") 1 1
    (by unfold slashFree; decide) (by unfold slashFree; decide) (by unfold slashFree; decide)
    (by unfold slashFree; decide)).2.2.2.2

/-! ## Theorems: stored records are their own BSON image -/

theorem bsonTime_idem (t : Time) : bsonTime (bsonTime t) = bsonTime t := by
  unfold bsonTime
  rw [Nat.mul_div_cancel _ (by norm_num : 0 < 1000000)]

theorem bsonMedia_eq_iff (m : Media) :
    bsonMedia m = m ↔ bsonTime m.CreatedAt = m.CreatedAt ∧ bsonTime m.UpdatedAt = m.UpdatedAt := by
  constructor
  · intro h
    exact ⟨congrArg Media.CreatedAt h, congrArg Media.UpdatedAt h⟩
  · rintro ⟨h1, h2⟩
    cases m
    simp only [bsonMedia] at h1 h2 ⊢
    rw [h1, h2]

theorem bsonMedia_idem (m : Media) : bsonMedia (bsonMedia m) = bsonMedia m :=
  (bsonMedia_eq_iff _).2 ⟨bsonTime_idem _, bsonTime_idem _⟩

theorem mem_updateOne {α : Type} {p : α → Bool} {f : α → α} {l : List α} {x : α}
    (h : x ∈ updateOne p f l) : x ∈ l ∨ ∃ y ∈ l, x = f y := by
  induction l with
  | nil => cases h
  | cons d ds ih =>
    unfold updateOne at h
    split_ifs at h
    · rcases List.mem_cons.1 h with rfl | h
      · exact Or.inr ⟨d, List.mem_cons_self _ _, rfl⟩
      · exact Or.inl (List.mem_cons_of_mem _ h)
    · rcases List.mem_cons.1 h with rfl | h
      · exact Or.inl (List.mem_cons_self _ _)
      · rcases ih h with h | ⟨y, hy, rfl⟩
        · exact Or.inl (List.mem_cons_of_mem _ h)
        · exact Or.inr ⟨y, List.mem_cons_of_mem _ hy, rfl⟩

theorem BsonNormal.updateOne {M : List Media} (h : BsonNormal M) (p : Media → Bool)
    (f : Media → Media) (hc : ∀ m, (f m).CreatedAt = m.CreatedAt)
    (hu : ∀ m, ∃ t, (f m).UpdatedAt = bsonTime t) : BsonNormal (updateOne p f M) := by
  intro x hx
  rcases mem_updateOne hx with hx | ⟨y, hy, rfl⟩
  · exact h x hx
  · obtain ⟨t, ht⟩ := hu y
    rw [bsonMedia_eq_iff, hc, ht]
    exact ⟨((bsonMedia_eq_iff y).1 (h y hy)).1, bsonTime_idem t⟩

theorem BsonNormal.insert {M M1 : List Media} (h : BsonNormal M) {e : Env} {d : Media}
    (hi : insertMedia e M d = .ok M1) : BsonNormal M1 := by
  obtain ⟨-, -, rfl⟩ := insertMedia_ok hi
  intro x hx
  rcases List.mem_append.1 hx with hx | hx
  · exact h x hx
  · simp only [List.mem_singleton] at hx
    rw [hx]
    exact bsonMedia_idem d

theorem BsonNormal.delete {M : List Media} (h : BsonNormal M) (p : Media → Bool) :
    BsonNormal (deleteOne p M) :=
  fun x hx => h x ((List.eraseP_sublist M).subset hx)

/-- Every event leaves the media collection holding BSON images. -/
theorem BsonNormal_exec {e : Env} {s : State} (c : Call) (h : BsonNormal s.media) :
    BsonNormal (exec e s c).media := by
  have hget : ∀ i, BsonNormal (MediaService.Get e s i).2.media := by
    intro i
    rw [(Get_frame e s i).1]
    exact h
  cases c with
  | create u req =>
    simp only [exec, MediaService.Create]
    split
    · exact h
    · split
      · exact h
      · rename_i c hc
        exact h.insert hc
  | get i => exact hget i
  | delete i u =>
    have h1 := hget i
    simp only [exec, MediaService.Delete]
    generalize MediaService.Get e s i = o at h1 ⊢
    obtain ⟨r, s1⟩ := o
    cases r with
    | error err => exact h1
    | ok media =>
      simp only
      split_ifs <;> first | exact h1 | exact BsonNormal.delete h1 _
  | setURL i url =>
    simp only [exec, MediaService.SetURL]
    split_ifs
    · exact h
    · refine h.updateOne _ _ ?_ ?_
      · exact fun _ => rfl
      · exact fun _ => ⟨_, rfl⟩
  | updateMetadata i u md =>
    have h1 := hget i
    simp only [exec, MediaService.UpdateMetadata]
    generalize MediaService.Get e s i = o at h1 ⊢
    obtain ⟨r, s1⟩ := o
    cases r with
    | error err => exact h1
    | ok media =>
      simp only
      split_ifs <;> first
        | exact h1
        | exact BsonNormal.updateOne h1 _ _ (fun _ => rfl) (fun _ => ⟨_, rfl⟩)
  | rename i u f =>
    have h1 := hget i
    simp only [exec, MediaService.Rename]
    generalize MediaService.Get e s i = o at h1 ⊢
    obtain ⟨r, s1⟩ := o
    cases r with
    | error err => exact h1
    | ok media =>
      simp only
      split_ifs <;> first
        | exact h1
        | exact BsonNormal.updateOne h1 _ _ (fun _ => rfl) (fun _ => ⟨_, rfl⟩)
  | copyMedia i u w =>
    have h1 := hget i
    simp only [exec, MediaService.CopyMedia]
    generalize MediaService.Get e s i = o at h1 ⊢
    obtain ⟨r, s1⟩ := o
    cases r with
    | error err => exact h1
    | ok media =>
      simp only
      split_ifs
      · exact h1
      · split
        · exact h1
        · rename_i c hc
          exact BsonNormal.insert h1 hc
  | moveMedia i u w =>
    have h1 := hget i
    simp only [exec, MediaService.MoveMedia]
    generalize MediaService.Get e s i = o at h1 ⊢
    obtain ⟨r, s1⟩ := o
    cases r with
    | error err => exact h1
    | ok media =>
      simp only
      split_ifs <;> first
        | exact h1
        | exact BsonNormal.updateOne h1 _ _ (fun _ => rfl) (fun _ => ⟨_, rfl⟩)
  | createVersion i u req =>
    simp only [exec, VersionService.CreateVersion]
    split <;> exact h
  | deleteVersion v u =>
    have h1 := GetVersion_state e s v
    simp only [exec, VersionService.DeleteVersion]
    generalize VersionService.GetVersion e s v = o at h1 ⊢
    obtain ⟨r, s1⟩ := o
    simp only at h1
    subst h1
    cases r with
    | error err => exact h
    | ok version =>
      simp only
      split_ifs <;> exact h
  | restoreVersion v u =>
    have h1 := GetVersion_state e s v
    simp only [exec, VersionService.RestoreVersion]
    generalize VersionService.GetVersion e s v = o at h1 ⊢
    obtain ⟨r, s1⟩ := o
    simp only at h1
    subst h1
    cases r with
    | error err => exact h
    | ok version =>
      simp only
      split_ifs
      · exact h
      · exact h.updateOne _ _ (fun _ => rfl) (fun _ => ⟨_, rfl⟩)
  | moveToTrash i u =>
    simp only [exec, TrashService.MoveToTrash]
    repeat' (first | exact h | exact BsonNormal.delete h _ | split)
  | restoreFromTrash t u =>
    simp only [exec, TrashService.RestoreFromTrash]
    split
    · exact h
    · split
      · exact h
      · rename_i c hc
        split_ifs <;> exact h.insert hc
  | permanentDelete t u =>
    simp only [exec, TrashService.PermanentDelete]
    repeat' (first | exact h | split)
  | emptyTrash u =>
    simp only [exec, TrashService.EmptyTrash]
    split_ifs <;> exact h
  | applyWatermark req =>
    simp only [exec, WatermarkService.Apply]
    split_ifs
    · exact h
    · exact h.updateOne _ _ (fun _ => rfl) (fun _ => ⟨_, rfl⟩)
  | removeWatermark i =>
    simp only [exec, WatermarkService.Remove]
    split_ifs
    · exact h
    · exact h.updateOne _ _ (fun _ => rfl) (fun _ => ⟨_, rfl⟩)
  | upload key => exact h
  | expire key => exact h

theorem Reachable.bsonNormal {s : State} (h : Reachable s) : BsonNormal s.media := by
  induction h with
  | init => intro d hd; cases hd
  | step e c _ _ ih => exact BsonNormal_exec c ih

/-! ## Theorems: `MoveToTrash` -/

/-- What a `MoveToTrash` that returned no error did. -/
theorem MoveToTrash_ok {e : Env} {s s1 : State} {i o : GoString}
    (h : TrashService.MoveToTrash e s i o = (.ok (), s1)) :
    ∃ media, findMedia e s.media i = .ok media ∧ media.UserID = o ∧
      e.insertFails = false ∧ e.deleteFails = false ∧ (∀ t ∈ s.trash, t.ID ≠ e.uuid) ∧
      (∃ t : TrashedMedia, s1.trash = s.trash ++ [t] ∧ t.ID = e.uuid ∧ t.MediaID = i ∧
        t.UserID = o ∧ t.OriginalDoc = bsonMedia media ∧ t.TrashedAt = bsonTime (e.clock 0) ∧
        t.ExpiresAt = bsonTime (e.clock 1 + 30 * 24 * Hour)) ∧
      s1.media = deleteOne (fun m => decide (m.ID = i)) s.media ∧
      s1.versions = s.versions ∧ s1.blobs = s.blobs ∧
      s1.cache = (if e.cacheDelFails then s.cache else cacheDel s.cache (cacheKey i)) := by
  unfold TrashService.MoveToTrash at h
  split at h
  · simp at h
  · rename_i media hf
    by_cases hu : media.UserID ≠ o
    · rw [if_pos hu] at h
      simp at h
    · rw [if_neg hu] at h
      simp only at h
      split at h
      · simp at h
      · rename_i c hc
        unfold insertTrash at hc
        split_ifs at hc with h1 h2
        simp only [Except.ok.injEq] at hc
        subst hc
        have hfresh : ∀ t ∈ s.trash, t.ID ≠ e.uuid := by
          simpa using h2
        split_ifs at h with h3 h4
        · simp at h
        · simp only [Prod.mk.injEq, true_and] at h
          subst h
          exact ⟨media, hf, not_not.1 hu, by simpa using h1, by simpa using h3, hfresh,
            ⟨_, rfl, rfl, rfl, rfl, rfl, rfl, rfl⟩, rfl, rfl, rfl, by simp [h4]⟩
        · simp only [Prod.mk.injEq, true_and] at h
          subst h
          exact ⟨media, hf, not_not.1 hu, by simpa using h1, by simpa using h3, hfresh,
            ⟨_, rfl, rfl, rfl, rfl, rfl, rfl, rfl⟩, rfl, rfl, rfl, by simp [h4]⟩

/-- The scenario up to the read of the media is reachable. -/
theorem Ex.s3_reachable : Reachable Ex.s3 :=
  Reachable.step _ _ (Reachable.step _ _ Ex.s1_reachable (by intro h; cases h))
    (by intro h; cases h)

/-- `MoveToTrash` returns no error when the lookup, the insert and the record
deletion are answered and the drawn trash id is new. -/
theorem MoveToTrash_answers {e : Env} {s : State} {r : Media} (hn : (s.media.map (fun m => m.ID)).Nodup)
    (hr : r ∈ s.media) (hfind : e.findFails = false) (hins : e.insertFails = false)
    (hdel : e.deleteFails = false) (hfresh : ∀ t ∈ s.trash, t.ID ≠ e.uuid) :
    (TrashService.MoveToTrash e s r.ID r.UserID).1 = .ok () := by
  obtain ⟨found, hf⟩ := findMedia_present (e := e) hfind hr
  obtain ⟨-, -, hmem, hid⟩ := findMedia_ok hf
  have hfr : found = r := eq_of_mem_of_id hn hmem hr hid
  subst hfr
  have hany : (s.trash.any (fun t => decide (t.ID = e.uuid))) = false := by
    rw [List.any_eq_false]
    intro t ht
    simpa using hfresh t ht
  unfold TrashService.MoveToTrash insertTrash
  simp only [hf, hins, hany, hdel, ne_eq, not_true_eq_false, Bool.false_eq_true, if_false]
  split_ifs <;> rfl

/-- C18 (amended): in a reachable state, for a media record `r` with id `i`
and owner `o`: `MoveToTrash(i, o)` returns no error when the lookup, the insert
and the record deletion are answered and the trash id drawn is new; and
whenever it returns no error, the trash collection is the old one followed by
one entry whose `MediaID` is `i`, whose `UserID` is `o` and whose snapshot is
`r`, the media collection has lost `r` and holds no record with id `i` (every
other record is kept), the bucket and the version collection are unchanged,
and, when the cache deletion was answered, the cache has no entry under
`media:i`. -/
theorem C18_moveToTrash_effect (e : Env) (s : State) (i o : GoString) (r : Media)
    (hs : Reachable s) (hr : r ∈ s.media) (hid : r.ID = i) (ho : r.UserID = o) :
    (e.findFails = false → e.insertFails = false → e.deleteFails = false →
      (∀ t ∈ s.trash, t.ID ≠ e.uuid) → (TrashService.MoveToTrash e s i o).1 = .ok ()) ∧
    ∀ s1, TrashService.MoveToTrash e s i o = (.ok (), s1) →
      (∃ t : TrashedMedia, s1.trash = s.trash ++ [t] ∧ t.ID = e.uuid ∧ t.MediaID = i ∧
        t.UserID = o ∧ t.OriginalDoc = r) ∧
      (∀ x ∈ s1.media, x.ID ≠ i) ∧ (∀ x : Media, x.ID ≠ i → (x ∈ s1.media ↔ x ∈ s.media)) ∧
      (e.cacheDelFails = false → cacheGet s1.cache (cacheKey i) = none) ∧
      s1.blobs = s.blobs ∧ s1.versions = s.versions := by
  have hinv := hs.storeInv
  constructor
  · intro hfind hins hdel hfresh
    rw [← hid, ← ho]
    exact MoveToTrash_answers hinv.nodup hr hfind hins hdel hfresh
  · intro s1 h
    obtain ⟨media, hf, -, -, -, -, ⟨t, ht, htid, htm, htu, htd, -, -⟩, hm, hv, hb, hc⟩ :=
      MoveToTrash_ok h
    obtain ⟨-, -, hmem, hfid⟩ := findMedia_ok hf
    have hmr : media = r := eq_of_mem_of_id hinv.nodup hmem hr (by rw [hfid, hid])
    refine ⟨⟨t, ht, htid, htm, htu, ?_⟩, ?_, ?_, ?_, hb, hv⟩
    · rw [htd, hmr]
      exact hs.bsonNormal r hr
    · intro x hx hxi
      have hnone := find_deleteOne_none s.media i hinv.nodup
      rw [← hm, List.find?_eq_none] at hnone
      exact hnone x hx (by simpa using hxi)
    · intro x hx
      rw [hm]
      exact List.mem_eraseP_of_neg (by simpa using hx)
    · intro hcache
      rw [hc, hcache]
      exact cacheGet_cacheDel _ _

theorem C18_moveToTrash_effect_witness :
    (TrashService.MoveToTrash (Env.calm (lit "t1") 4000000000) Ex.s3 Ex.m1 Ex.u1).1 = .ok () ∧
    cacheGet (TrashService.MoveToTrash (Env.calm (lit "t1") 4000000000) Ex.s3 Ex.m1 Ex.u1).2.cache
      (cacheKey Ex.m1) = none ∧
    (TrashService.MoveToTrash (Env.calm (lit "t1") 4000000000) Ex.s3 Ex.m1 Ex.u1).2.blobs =
      Ex.s3.blobs :=
  have h := C18_moveToTrash_effect (Env.calm (lit "t1") 4000000000) Ex.s3 Ex.m1 Ex.u1
    Ex.catStored Ex.s3_reachable (by decide) rfl rfl
  have h2 := h.2 _ rfl
  ⟨h.1 rfl rfl rfl (by decide), h2.2.2.2.1 rfl, h2.2.2.2.2.1⟩

/-! ## Theorems: the expiry of a trash entry -/

/-- Thirty days are a whole number of milliseconds. -/
theorem bsonTime_add_days (t : Time) : bsonTime (t + 30 * 24 * Hour) = bsonTime t + 30 * 24 * Hour := by
  unfold bsonTime Hour
  have h : 30 * 24 * 3600000000000 = 2592000000 * 1000000 := by norm_num
  rw [h, Nat.add_mul_div_right _ _ (by norm_num : 0 < 1000000), Nat.add_mul]

/-- The entry a `MoveToTrash` that returned no error stored: it is trashed at
the first clock reading and expires thirty days after the second one. -/
theorem MoveToTrash_expiry {e : Env} {s s1 : State} {i o : GoString}
    (h : TrashService.MoveToTrash e s i o = (.ok (), s1)) :
    ∃ t : TrashedMedia, s1.trash = s.trash ++ [t] ∧ t.TrashedAt = bsonTime (e.clock 0) ∧
      t.ExpiresAt = bsonTime (e.clock 1) + 30 * 24 * Hour ∧
      (e.clock 1 = e.clock 0 → t.ExpiresAt = t.TrashedAt + 30 * 24 * Hour) := by
  obtain ⟨-, -, -, -, -, -, ⟨t, ht, -, -, -, -, h1, h2⟩, -⟩ := MoveToTrash_ok h
  refine ⟨t, ht, h1, by rw [h2, bsonTime_add_days], ?_⟩
  intro hc
  rw [h2, h1, bsonTime_add_days, hc]

/-- C19 (the code at the failing input): the duration of 30 days is
2,592,000 seconds in nanoseconds and fits an `int64`; but with the first
reading of the clock in the last nanosecond of a millisecond and the second
reading one nanosecond later, `MoveToTrash` returns no error and the entry it
stores expires 30 days and one millisecond after it was trashed. -/
theorem C19_expiry_from_second_reading :
    30 * 24 * Hour = 2592000 * 1000000000 ∧ 30 * 24 * Hour < 2 ^ 63 ∧
    Ex.lateEnv.clock 1 = Ex.lateEnv.clock 0 + 1 ∧
    (TrashService.MoveToTrash Ex.lateEnv Ex.s3 Ex.m1 Ex.u1).1 = .ok () ∧
    (TrashService.MoveToTrash Ex.lateEnv Ex.s3 Ex.m1 Ex.u1).2 = Ex.w1 ∧
    (∃ t ∈ Ex.w1.trash, t.MediaID = Ex.m1 ∧ t.TrashedAt = 4000000000 ∧
      t.ExpiresAt = t.TrashedAt + 30 * 24 * Hour + 1000000 ∧
      t.ExpiresAt ≠ t.TrashedAt + 30 * 24 * Hour) ∧
    ∀ t ∈ Ex.w1.trash, t.ExpiresAt ≠ t.TrashedAt + 30 * 24 * Hour :=
  ⟨by decide, by decide, rfl, rfl, rfl, by decide, by decide⟩

/-! ## Theorems: the trash round trip -/

/-- What a `RestoreFromTrash` that returned no error did. -/
theorem RestoreFromTrash_ok {e : Env} {s s1 : State} {i o : GoString}
    (h : TrashService.RestoreFromTrash e s i o = (.ok (), s1)) :
    ∃ trashed, findTrash e s.trash i o = .ok trashed ∧
      s1.media = s.media ++ [bsonMedia trashed.OriginalDoc] ∧
      s1.trash = deleteOne (fun t => decide (t.ID = i)) s.trash ∧
      s1.versions = s.versions ∧ s1.blobs = s.blobs ∧ s1.cache = s.cache := by
  unfold TrashService.RestoreFromTrash at h
  split at h
  · simp at h
  · rename_i trashed hf
    split at h
    · simp at h
    · rename_i c hc
      obtain ⟨-, -, rfl⟩ := insertMedia_ok hc
      split_ifs at h
      · simp at h
      · simp only [Prod.mk.injEq, true_and] at h
        subst h
        exact ⟨trashed, hf, rfl, rfl, rfl, rfl, rfl⟩

/-- The entry `RestoreFromTrash` finds under a trash id that only the last
entry carries. -/
theorem findTrash_last {e : Env} {T : List TrashedMedia} {t x : TrashedMedia} {i o : GoString}
    (hfresh : ∀ y ∈ T, y.ID ≠ i) (hx : findTrash e (T ++ [t]) i o = .ok x) : x = t := by
  obtain ⟨-, hmem, hid, -⟩ := findTrash_ok hx
  rcases List.mem_append.1 hmem with hm | hm
  · exact absurd hid (hfresh x hm)
  · simpa using hm

theorem deleteOne_last {T : List TrashedMedia} {t : TrashedMedia} {i : GoString}
    (hfresh : ∀ y ∈ T, y.ID ≠ i) (ht : t.ID = i) :
    deleteOne (fun y => decide (y.ID = i)) (T ++ [t]) = T := by
  unfold deleteOne
  rw [List.eraseP_append_right _ (by intro b hb; simpa using hfresh b hb)]
  simp [List.eraseP_cons, ht]

/-- C20: in a reachable state, for a media record `r`, after a `MoveToTrash`
of `r` by `o` that returned no error, `RestoreFromTrash` of the entry it
created returns no error when its lookup, insert and deletion are answered;
and whenever it returns no error the media collection holds `r` itself (all
fields equal) beside the records it held otherwise, the trash collection is
what it was before the move, with no entry under the id of the created one,
and the bucket and the version collection are unchanged. -/
theorem C20_trash_round_trip (e1 e2 : Env) (s s1 : State) (r : Media) (o : GoString)
    (hs : Reachable s) (hr : r ∈ s.media)
    (h1 : TrashService.MoveToTrash e1 s r.ID o = (.ok (), s1)) :
    (e2.findFails = false → e2.insertFails = false → e2.deleteFails = false →
      (TrashService.RestoreFromTrash e2 s1 e1.uuid o).1 = .ok ()) ∧
    ∀ s2, TrashService.RestoreFromTrash e2 s1 e1.uuid o = (.ok (), s2) →
      r ∈ s2.media ∧
      s2.media = deleteOne (fun m => decide (m.ID = r.ID)) s.media ++ [r] ∧
      (∀ x ∈ s2.media, x.ID = r.ID → x = r) ∧
      s2.trash = s.trash ∧ (∀ t ∈ s2.trash, t.ID ≠ e1.uuid) ∧
      s2.blobs = s.blobs ∧ s2.versions = s.versions := by
  have hinv := hs.storeInv
  obtain ⟨media, hf, hu, -, -, hfresh, ⟨t, ht, htid, -, htu, htd, -, -⟩, hm, hv, hb, -⟩ :=
    MoveToTrash_ok h1
  obtain ⟨-, -, hmem, hfid⟩ := findMedia_ok hf
  have hmr : media = r := eq_of_mem_of_id hinv.nodup hmem hr hfid
  have hdoc : bsonMedia t.OriginalDoc = r := by
    rw [htd, hmr, bsonMedia_idem]
    exact hs.bsonNormal r hr
  have hgone : ∀ x ∈ s1.media, x.ID ≠ r.ID := by
    intro x hx hxi
    have hnone := find_deleteOne_none s.media r.ID hinv.nodup
    rw [← hm, List.find?_eq_none] at hnone
    exact hnone x hx (by simpa using hxi)
  constructor
  · intro hfind hins hdel
    have hlast : (s.trash ++ [t]).find? (fun y => decide (y.ID = e1.uuid ∧ y.UserID = o)) =
        some t := by
      refine find_append_new _ _ _ ?_ (by simp [htid, htu])
      rw [List.any_eq_false]
      intro y hy
      simpa using fun hyi => absurd hyi (hfresh y hy)
    have hfound : findTrash e2 s1.trash e1.uuid o = .ok t := by
      unfold findTrash
      rw [hfind, ht]
      simp only [Bool.false_eq_true, if_false]
      rw [hlast]
    have hany : (s1.media.any (fun m => decide (m.ID = t.OriginalDoc.ID))) = false := by
      rw [List.any_eq_false]
      intro x hx
      have hid : t.OriginalDoc.ID = r.ID := by rw [← hdoc]; rfl
      simpa [hid] using hgone x hx
    unfold TrashService.RestoreFromTrash insertMedia
    simp only [hfound, hins, hany, hdel, Bool.false_eq_true, if_false]
  · intro s2 h2
    obtain ⟨x, hx, hm2, ht2, hv2, hb2, -⟩ := RestoreFromTrash_ok h2
    rw [ht] at hx
    have hxt : x = t := findTrash_last hfresh hx
    subst hxt
    rw [hdoc] at hm2
    have htrash : s2.trash = s.trash := by
      rw [ht2, ht]
      exact deleteOne_last hfresh htid
    refine ⟨by rw [hm2]; simp, by rw [hm2, hm], ?_, htrash, ?_, by rw [hb2, hb],
      by rw [hv2, hv]⟩
    · intro y hy hyi
      rw [hm2] at hy
      rcases List.mem_append.1 hy with hy | hy
      · exact absurd hyi (hgone y hy)
      · simpa using hy
    · rw [htrash]
      exact hfresh

theorem C20_trash_round_trip_witness :
    (TrashService.RestoreFromTrash (Env.calm [] 5000000000)
      (TrashService.MoveToTrash (Env.calm (lit "t1") 4000000000) Ex.s3 Ex.m1 Ex.u1).2
      (lit "t1") Ex.u1).1 = .ok () ∧
    Ex.catStored ∈ (TrashService.RestoreFromTrash (Env.calm [] 5000000000)
      (TrashService.MoveToTrash (Env.calm (lit "t1") 4000000000) Ex.s3 Ex.m1 Ex.u1).2
      (lit "t1") Ex.u1).2.media :=
  have h := C20_trash_round_trip (Env.calm (lit "t1") 4000000000) (Env.calm [] 5000000000)
    Ex.s3 _ Ex.catStored Ex.u1 Ex.s3_reachable (by decide) rfl
  ⟨h.1 rfl rfl rfl, (h.2 _ rfl).1⟩

/-! ## Theorems: the writers that keep the category -/

theorem CategoryOK_congr {a b : Media} (ht : a.Type_ = b.Type_) (hm : a.MimeType = b.MimeType)
    (h : CategoryOK b) : CategoryOK a := by
  unfold CategoryOK at *
  rw [ht, hm]
  exact h

theorem CatOn.keeps_updateOne {M : List Media} {T : List TrashedMedia}
    {C : List (GoString × Payload)} (h : CatOn M T C) (p : Media → Bool) (f : Media → Media)
    (ht : ∀ m, (f m).Type_ = m.Type_) (hm : ∀ m, (f m).MimeType = m.MimeType) :
    CatOn (updateOne p f M) T C := by
  intro d hd
  rw [mem_docsOf] at hd
  rcases hd with hd | hd | hd
  · rcases mem_updateOne hd with hd | ⟨y, hy, rfl⟩
    · exact h d (mem_docsOf.2 (Or.inl hd))
    · exact CategoryOK_congr (ht y) (hm y) (h y (mem_docsOf.2 (Or.inl hy)))
  · exact h d (mem_docsOf.2 (Or.inr (Or.inl hd)))
  · exact h d (mem_docsOf.2 (Or.inr (Or.inr hd)))

theorem CatOn.keeps_shrink {M M1 : List Media} {T T1 : List TrashedMedia}
    {C C1 : List (GoString × Payload)} (h : CatOn M T C)
    (hM : ∀ m ∈ M1, m ∈ M) (hT : ∀ t ∈ T1, t ∈ T) (hC : ∀ p ∈ C1, p ∈ C) :
    CatOn M1 T1 C1 := by
  intro d hd
  rw [mem_docsOf] at hd
  rcases hd with hd | ⟨t, ht, rfl⟩ | ⟨k, hk⟩
  · exact h d (mem_docsOf.2 (Or.inl (hM d hd)))
  · exact h _ (mem_docsOf.2 (Or.inr (Or.inl ⟨t, hT t ht, rfl⟩)))
  · exact h d (mem_docsOf.2 (Or.inr (Or.inr ⟨k, hC _ hk⟩)))

theorem CatOn.keeps_deleteMedia {M : List Media} {T : List TrashedMedia}
    {C : List (GoString × Payload)} (h : CatOn M T C) (p : Media → Bool) :
    CatOn (deleteOne p M) T C :=
  CatOn.keeps_shrink h (fun _ hm => (List.eraseP_sublist M).subset hm) (fun _ ht => ht) (fun _ hp => hp)

theorem CatOn.keeps_deleteTrash {M : List Media} {T : List TrashedMedia}
    {C : List (GoString × Payload)} (h : CatOn M T C) (p : TrashedMedia → Bool) :
    CatOn M (deleteOne p T) C :=
  CatOn.keeps_shrink h (fun _ hm => hm) (fun _ ht => (List.eraseP_sublist T).subset ht) (fun _ hp => hp)

theorem CatOn.keeps_filterTrash {M : List Media} {T : List TrashedMedia}
    {C : List (GoString × Payload)} (h : CatOn M T C) (p : TrashedMedia → Bool) :
    CatOn M (T.filter p) C :=
  CatOn.keeps_shrink h (fun _ hm => hm) (fun _ ht => (List.mem_filter.1 ht).1) (fun _ hp => hp)

theorem CatOn.keeps_cacheDel {M : List Media} {T : List TrashedMedia}
    {C : List (GoString × Payload)} (h : CatOn M T C) (k : GoString) :
    CatOn M T (cacheDel C k) :=
  CatOn.keeps_shrink h (fun _ hm => hm) (fun _ ht => ht) (fun _ hp => (List.mem_filter.1 hp).1)

theorem CatOn.keeps_cacheSet {M : List Media} {T : List TrashedMedia}
    {C : List (GoString × Payload)} (h : CatOn M T C) (k : GoString) (m : Media)
    (hm : CategoryOK m) : CatOn M T (cacheSet C k (some m)) := by
  intro d hd
  rw [mem_docsOf] at hd
  rcases hd with hd | hd | ⟨k1, hk⟩
  · exact h d (mem_docsOf.2 (Or.inl hd))
  · exact h d (mem_docsOf.2 (Or.inr (Or.inl hd)))
  · simp only [cacheSet, List.mem_cons, Prod.mk.injEq, Option.some.injEq,
      List.mem_filter] at hk
    rcases hk with ⟨-, rfl⟩ | ⟨hk, -⟩
    · exact hm
    · exact h d (mem_docsOf.2 (Or.inr (Or.inr ⟨k1, hk⟩)))

theorem CatOn.keeps_insertMedia {M M1 : List Media} {T : List TrashedMedia}
    {C : List (GoString × Payload)} (h : CatOn M T C) {e : Env} {d : Media}
    (hi : insertMedia e M d = .ok M1) (hd : CategoryOK d) : CatOn M1 T C := by
  obtain ⟨-, -, rfl⟩ := insertMedia_ok hi
  intro x hx
  rw [mem_docsOf] at hx
  rcases hx with hx | hx | hx
  · rcases List.mem_append.1 hx with hx | hx
    · exact h x (mem_docsOf.2 (Or.inl hx))
    · simp only [List.mem_singleton] at hx
      rw [hx]
      exact hd
  · exact h x (mem_docsOf.2 (Or.inr (Or.inl hx)))
  · exact h x (mem_docsOf.2 (Or.inr (Or.inr hx)))

theorem CatOn.keeps_insertTrash {M : List Media} {T T1 : List TrashedMedia}
    {C : List (GoString × Payload)} (h : CatOn M T C) {e : Env} {t : TrashedMedia}
    (hi : insertTrash e T t = .ok T1) (hd : CategoryOK t.OriginalDoc) : CatOn M T1 C := by
  unfold insertTrash at hi
  split_ifs at hi
  simp only [Except.ok.injEq] at hi
  subst hi
  intro x hx
  rw [mem_docsOf] at hx
  rcases hx with hx | ⟨t0, ht0, rfl⟩ | hx
  · exact h x (mem_docsOf.2 (Or.inl hx))
  · rcases List.mem_append.1 ht0 with ht0 | ht0
    · exact h _ (mem_docsOf.2 (Or.inr (Or.inl ⟨t0, ht0, rfl⟩)))
    · simp only [List.mem_singleton] at ht0
      rw [ht0]
      exact hd
  · exact h x (mem_docsOf.2 (Or.inr (Or.inr hx)))

/-- `Get` keeps the category of every held value and returns a value that
has the category of its MIME type. -/
theorem CategoryInv_Get {e : Env} {s : State} (i : GoString) (h : CategoryInv s) :
    CategoryInv (MediaService.Get e s i).2 ∧
    ∀ m s1, MediaService.Get e s i = (.ok m, s1) → CategoryOK m := by
  rcases Get_cases e s i with ⟨m, -, hc, h1⟩ | ⟨err, -, h1⟩ | ⟨found, hf, ⟨-, h1⟩ | ⟨-, h1⟩⟩
  · rw [h1]
    refine ⟨h, ?_⟩
    intro m1 s1 he
    simp only [Prod.mk.injEq, Except.ok.injEq] at he
    rw [← he.1]
    exact h m (mem_docsOf.2 (Or.inr (Or.inr ⟨_, mem_of_cacheGet hc⟩)))
  · rw [h1]
    refine ⟨h, ?_⟩
    intro m1 s1 he
    simp at he
  all_goals
    obtain ⟨-, -, hmem, -⟩ := findMedia_ok hf
    have hok : CategoryOK { found with URL := e.presign found.S3Key } :=
      CategoryOK_congr rfl rfl (h found (mem_docsOf.2 (Or.inl hmem)))
    rw [h1]
    refine ⟨?_, ?_⟩
    · first
        | exact h
        | exact CatOn.keeps_cacheSet h _ _ hok
    · intro m1 s1 he
      simp only [Prod.mk.injEq, Except.ok.injEq] at he
      rw [← he.1]
      exact hok

/-- Every event other than `RestoreVersion` keeps the category of every held
`Media` value in line with its MIME type. -/
theorem CategoryInv_exec {e : Env} {s : State} (c : Call) (h : CategoryInv s)
    (hc : ∀ v u, c ≠ .restoreVersion v u) : CategoryInv (exec e s c) := by
  cases c with
  | restoreVersion v u => exact absurd rfl (hc v u)
  | create u req =>
    simp only [exec, MediaService.Create]
    split
    · exact h
    · rename_i ty hty
      split
      · exact h
      · rename_i c hc
        exact CatOn.keeps_insertMedia h hc hty
  | get i => exact (CategoryInv_Get i h).1
  | delete i u =>
    have h1 := (CategoryInv_Get (e := e) i h).1
    simp only [exec, MediaService.Delete]
    generalize MediaService.Get e s i = o at h1 ⊢
    obtain ⟨r, s1⟩ := o
    cases r with
    | error err => exact h1
    | ok media =>
      simp only
      split_ifs <;> first
        | exact h1
        | exact CatOn.keeps_deleteMedia h1 _
        | exact CatOn.keeps_cacheDel (CatOn.keeps_deleteMedia h1 _) _
  | setURL i url =>
    simp only [exec, MediaService.SetURL]
    split_ifs
    · exact h
    · exact CatOn.keeps_updateOne h _ _ (fun _ => rfl) (fun _ => rfl)
  | updateMetadata i u md =>
    have h1 := (CategoryInv_Get (e := e) i h).1
    simp only [exec, MediaService.UpdateMetadata]
    generalize MediaService.Get e s i = o at h1 ⊢
    obtain ⟨r, s1⟩ := o
    cases r with
    | error err => exact h1
    | ok media =>
      simp only
      split_ifs <;> first
        | exact h1
        | exact CatOn.keeps_updateOne h1 _ _ (fun _ => rfl) (fun _ => rfl)
        | (refine CatOn.keeps_cacheDel (CatOn.keeps_updateOne h1 _ _ ?_ ?_) _ <;> exact fun _ => rfl)
  | rename i u f =>
    have h1 := (CategoryInv_Get (e := e) i h).1
    simp only [exec, MediaService.Rename]
    generalize MediaService.Get e s i = o at h1 ⊢
    obtain ⟨r, s1⟩ := o
    cases r with
    | error err => exact h1
    | ok media =>
      simp only
      split_ifs <;> first
        | exact h1
        | exact CatOn.keeps_updateOne h1 _ _ (fun _ => rfl) (fun _ => rfl)
        | (refine CatOn.keeps_cacheDel (CatOn.keeps_updateOne h1 _ _ ?_ ?_) _ <;> exact fun _ => rfl)
  | copyMedia i u w =>
    have h1 := (CategoryInv_Get (e := e) i h).1
    have h2 := (CategoryInv_Get (e := e) i h).2
    simp only [exec, MediaService.CopyMedia]
    generalize MediaService.Get e s i = o at h1 h2 ⊢
    obtain ⟨r, s1⟩ := o
    cases r with
    | error err => exact h1
    | ok media =>
      have hm : CategoryOK media := h2 media s1 rfl
      simp only
      split_ifs
      · exact h1
      · split
        · exact h1
        · rename_i c hc
          exact CatOn.keeps_insertMedia h1 hc hm
  | moveMedia i u w =>
    have h1 := (CategoryInv_Get (e := e) i h).1
    simp only [exec, MediaService.MoveMedia]
    generalize MediaService.Get e s i = o at h1 ⊢
    obtain ⟨r, s1⟩ := o
    cases r with
    | error err => exact h1
    | ok media =>
      simp only
      split_ifs <;> first
        | exact h1
        | exact CatOn.keeps_updateOne h1 _ _ (fun _ => rfl) (fun _ => rfl)
        | (refine CatOn.keeps_cacheDel (CatOn.keeps_updateOne h1 _ _ ?_ ?_) _ <;> exact fun _ => rfl)
  | createVersion i u req =>
    simp only [exec, VersionService.CreateVersion]
    split <;> exact h
  | deleteVersion v u =>
    have h1 := GetVersion_state e s v
    simp only [exec, VersionService.DeleteVersion]
    generalize VersionService.GetVersion e s v = o at h1 ⊢
    obtain ⟨r, s1⟩ := o
    simp only at h1
    subst h1
    cases r with
    | error err => exact h
    | ok version =>
      simp only
      split_ifs <;> exact h
  | moveToTrash i u =>
    simp only [exec, TrashService.MoveToTrash]
    split
    · exact h
    · rename_i media hf
      obtain ⟨-, -, hmem, -⟩ := findMedia_ok hf
      have hm : CategoryOK media := h media (mem_docsOf.2 (Or.inl hmem))
      by_cases hu : media.UserID ≠ u
      · rw [if_pos hu]
        exact h
      · rw [if_neg hu]
        split
        · exact h
        · rename_i c hc
          have h1 : CatOn s.media c s.cache := CatOn.keeps_insertTrash h hc hm
          split_ifs <;> first
            | exact h1
            | exact CatOn.keeps_deleteMedia h1 _
            | exact CatOn.keeps_cacheDel (CatOn.keeps_deleteMedia h1 _) _
  | restoreFromTrash t u =>
    simp only [exec, TrashService.RestoreFromTrash]
    split
    · exact h
    · rename_i trashed hf
      obtain ⟨-, hmem, -, -⟩ := findTrash_ok hf
      have hm : CategoryOK trashed.OriginalDoc :=
        h _ (mem_docsOf.2 (Or.inr (Or.inl ⟨trashed, hmem, rfl⟩)))
      split
      · exact h
      · rename_i c hc
        have h1 : CatOn c s.trash s.cache := CatOn.keeps_insertMedia h hc hm
        split_ifs <;> first
          | exact h1
          | exact CatOn.keeps_deleteTrash h1 _
  | permanentDelete t u =>
    simp only [exec, TrashService.PermanentDelete]
    split
    · exact h
    · split_ifs <;> first
        | exact h
        | exact CatOn.keeps_deleteTrash h _
  | emptyTrash u =>
    simp only [exec, TrashService.EmptyTrash]
    split_ifs <;> first
      | exact h
      | exact CatOn.keeps_filterTrash h _
  | applyWatermark req =>
    simp only [exec, WatermarkService.Apply]
    split_ifs
    · exact h
    · exact CatOn.keeps_updateOne h _ _ (fun _ => rfl) (fun _ => rfl)
  | removeWatermark i =>
    simp only [exec, WatermarkService.Remove]
    split_ifs
    · exact h
    · exact CatOn.keeps_updateOne h _ _ (fun _ => rfl) (fun _ => rfl)
  | upload key => exact h
  | expire key => exact CatOn.keeps_cacheDel h _

/-! ## Theorems: the ids of the trash entries -/

/-- Every event leaves the trash collection a sublist of what it was, or
appends one entry under an id no entry had. -/
theorem exec_trash (e : Env) (s : State) (c : Call) :
    (exec e s c).trash.Sublist s.trash ∨
      ∃ t : TrashedMedia, (exec e s c).trash = s.trash ++ [t] ∧ ∀ x ∈ s.trash, x.ID ≠ t.ID := by
  have hget : ∀ i, (MediaService.Get e s i).2.trash = s.trash :=
    fun i => (Get_frame e s i).2.2.1
  have hrefl : ∀ {s1 : State}, s1.trash = s.trash →
      s1.trash.Sublist s.trash ∨
        ∃ t : TrashedMedia, s1.trash = s.trash ++ [t] ∧ ∀ x ∈ s.trash, x.ID ≠ t.ID :=
    fun h => Or.inl (h ▸ List.Sublist.refl _)
  cases c with
  | create u req =>
    simp only [exec, MediaService.Create]
    repeat' (first | exact hrefl rfl | split)
  | get i => exact hrefl (hget i)
  | delete i u =>
    have h1 := hget i
    simp only [exec, MediaService.Delete]
    generalize MediaService.Get e s i = o at h1 ⊢
    obtain ⟨r, s1⟩ := o
    cases r with
    | error err => exact hrefl h1
    | ok media =>
      simp only
      split_ifs <;> exact hrefl h1
  | setURL i url =>
    simp only [exec, MediaService.SetURL]
    split_ifs <;> exact hrefl rfl
  | updateMetadata i u md =>
    have h1 := hget i
    simp only [exec, MediaService.UpdateMetadata]
    generalize MediaService.Get e s i = o at h1 ⊢
    obtain ⟨r, s1⟩ := o
    cases r with
    | error err => exact hrefl h1
    | ok media =>
      simp only
      split_ifs <;> exact hrefl h1
  | rename i u f =>
    have h1 := hget i
    simp only [exec, MediaService.Rename]
    generalize MediaService.Get e s i = o at h1 ⊢
    obtain ⟨r, s1⟩ := o
    cases r with
    | error err => exact hrefl h1
    | ok media =>
      simp only
      split_ifs <;> exact hrefl h1
  | copyMedia i u w =>
    have h1 := hget i
    simp only [exec, MediaService.CopyMedia]
    generalize MediaService.Get e s i = o at h1 ⊢
    obtain ⟨r, s1⟩ := o
    cases r with
    | error err => exact hrefl h1
    | ok media =>
      simp only
      split_ifs
      · exact hrefl h1
      · split <;> exact hrefl h1
  | moveMedia i u w =>
    have h1 := hget i
    simp only [exec, MediaService.MoveMedia]
    generalize MediaService.Get e s i = o at h1 ⊢
    obtain ⟨r, s1⟩ := o
    cases r with
    | error err => exact hrefl h1
    | ok media =>
      simp only
      split_ifs <;> exact hrefl h1
  | createVersion i u req =>
    simp only [exec, VersionService.CreateVersion]
    split <;> exact hrefl rfl
  | deleteVersion v u =>
    have h1 := GetVersion_state e s v
    simp only [exec, VersionService.DeleteVersion]
    generalize VersionService.GetVersion e s v = o at h1 ⊢
    obtain ⟨r, s1⟩ := o
    simp only at h1
    subst h1
    cases r with
    | error err => exact hrefl rfl
    | ok version =>
      simp only
      split_ifs <;> exact hrefl rfl
  | restoreVersion v u =>
    have h1 := GetVersion_state e s v
    simp only [exec, VersionService.RestoreVersion]
    generalize VersionService.GetVersion e s v = o at h1 ⊢
    obtain ⟨r, s1⟩ := o
    simp only at h1
    subst h1
    cases r with
    | error err => exact hrefl rfl
    | ok version =>
      simp only
      split_ifs <;> exact hrefl rfl
  | moveToTrash i u =>
    cases ho : TrashService.MoveToTrash e s i u with
    | mk res s1 =>
      simp only [exec, ho]
      cases res with
      | ok x =>
        obtain ⟨-, -, -, -, -, hfresh, ⟨t, ht, htid, -⟩, -⟩ := MoveToTrash_ok ho
        exact Or.inr ⟨t, ht, fun x hx => by rw [htid]; exact hfresh x hx⟩
      | error err =>
        unfold TrashService.MoveToTrash at ho
        split at ho
        · simp only [Prod.mk.injEq] at ho
          exact hrefl (by rw [← ho.2])
        · rename_i media hf
          by_cases hu : media.UserID ≠ u
          · rw [if_pos hu] at ho
            simp only [Prod.mk.injEq] at ho
            exact hrefl (by rw [← ho.2])
          · rw [if_neg hu] at ho
            simp only at ho
            split at ho
            · simp only [Prod.mk.injEq] at ho
              exact hrefl (by rw [← ho.2])
            · rename_i c hc
              unfold insertTrash at hc
              split_ifs at hc with h1 h2
              simp only [Except.ok.injEq] at hc
              subst hc
              split_ifs at ho
              · simp only [Prod.mk.injEq] at ho
                rw [← ho.2]
                refine Or.inr ⟨_, rfl, ?_⟩
                simpa using h2
              · simp at ho
              · simp at ho
  | restoreFromTrash t u =>
    simp only [exec, TrashService.RestoreFromTrash]
    repeat' (first | exact hrefl rfl | exact Or.inl (List.eraseP_sublist _) | split)
  | permanentDelete t u =>
    simp only [exec, TrashService.PermanentDelete]
    repeat' (first | exact hrefl rfl | exact Or.inl (List.eraseP_sublist _) | split)
  | emptyTrash u =>
    simp only [exec, TrashService.EmptyTrash]
    split_ifs <;> first | exact hrefl rfl | exact Or.inl (List.filter_sublist _)
  | applyWatermark req =>
    simp only [exec, WatermarkService.Apply]
    split_ifs <;> exact hrefl rfl
  | removeWatermark i =>
    simp only [exec, WatermarkService.Remove]
    split_ifs <;> exact hrefl rfl
  | upload key => exact hrefl rfl
  | expire key => exact hrefl rfl

/-- In a reachable state no two trash entries share an id. -/
theorem Reachable.trashNodup {s : State} (h : Reachable s) :
    (s.trash.map (fun t => t.ID)).Nodup := by
  induction h with
  | init => exact List.nodup_nil
  | step e c _ _ ih =>
    rcases exec_trash e _ c with hsub | ⟨t, ht, hfresh⟩
    · exact ih.sublist (hsub.map _)
    · rw [ht, List.map_append, List.nodup_append]
      refine ⟨ih, List.nodup_singleton _, ?_⟩
      intro a ha hb
      simp only [List.map_cons, List.map_nil, List.mem_singleton] at hb
      obtain ⟨x, hx, rfl⟩ := List.mem_map.1 ha
      exact hfresh x hx hb

/-! ## Theorems: the trash entry of another user -/

/-- The scenario with `m1` in the trash is reachable. -/
theorem Ex.w1_reachable : Reachable Ex.w1 :=
  Reachable.step _ _ Ex.s3_reachable (by intro h; cases h)

/-- C21: in a reachable state, for a trash entry with id `trashID` owned by
`o` and a caller `c` other than `o`, with the lookup answered,
`RestoreFromTrash` and `PermanentDelete` return `mongo.ErrNoDocuments` and
leave all stores as they were. -/
theorem C21_trash_entry_of_another_user (e : Env) (s : State) (trashID o c : GoString)
    (hs : Reachable s) (ht : ∃ t ∈ s.trash, t.ID = trashID ∧ t.UserID = o) (hc : c ≠ o)
    (hfind : e.findFails = false) :
    TrashService.RestoreFromTrash e s trashID c = (.error .noDocuments, s) ∧
    TrashService.PermanentDelete e s trashID c = (.error .noDocuments, s) := by
  obtain ⟨t, htm, htid, hto⟩ := ht
  have hnd := hs.trashNodup
  have hnone : s.trash.find? (fun x => decide (x.ID = trashID ∧ x.UserID = c)) = none := by
    rw [List.find?_eq_none]
    intro x hx hp
    simp only [decide_eq_true_eq] at hp
    have hxt : x = t := List.inj_on_of_nodup_map hnd hx htm (by rw [hp.1, htid])
    rw [hxt, hto] at hp
    exact hc hp.2.symm
  have hf : findTrash e s.trash trashID c = .error .noDocuments := by
    unfold findTrash
    rw [hfind]
    simp only [Bool.false_eq_true, if_false]
    rw [hnone]
  constructor
  · unfold TrashService.RestoreFromTrash
    rw [hf]
  · unfold TrashService.PermanentDelete
    rw [hf]

theorem C21_trash_entry_of_another_user_witness :
    TrashService.RestoreFromTrash (Env.calm [] 5000000000) Ex.w1 (lit "t1") (lit "u2") =
      (.error .noDocuments, Ex.w1) ∧
    TrashService.PermanentDelete (Env.calm [] 5000000000) Ex.w1 (lit "t1") (lit "u2") =
      (.error .noDocuments, Ex.w1) :=
  C21_trash_entry_of_another_user (Env.calm [] 5000000000) Ex.w1 (lit "t1") Ex.u1 (lit "u2")
    Ex.w1_reachable (by decide) (by decide) rfl

/-! ## Theorems: the bulk operations -/

theorem pick_cons (b c : Bool) (id : GoString) (ids : List GoString) (ok : List Bool) :
    pick b (id :: ids) (c :: ok) = (if c = b then [id] else []) ++ pick b ids ok := by
  unfold pick
  by_cases h : c = b <;> simp [List.filter_cons, h]

theorem pick_sublist (b : Bool) : ∀ (ids : List GoString) (ok : List Bool),
    (pick b ids ok).Sublist ids
  | [], ok => by simp [pick]
  | id :: ids, [] => by simp [pick]
  | id :: ids, c :: ok => by
    rw [pick_cons]
    split_ifs
    · exact (pick_sublist b ids ok).cons₂ id
    · exact (pick_sublist b ids ok).cons id

theorem pick_length : ∀ (ids : List GoString) (ok : List Bool), ok.length = ids.length →
    (pick true ids ok).length + (pick false ids ok).length = ids.length
  | [], ok, _ => by simp [pick]
  | id :: ids, [], h => by simp at h
  | id :: ids, c :: ok, h => by
    have ih := pick_length ids ok (by simpa using h)
    rw [pick_cons, pick_cons]
    cases c <;> simp <;> omega

/-- The loop, item by item: the flags of the items, the two lists they are
sorted into, and the state each single-item call runs on. -/
theorem bulkLoop_spec (op : Nat → State → GoString → Outcome Unit) :
    ∀ (ids : List GoString) (k : Nat) (resp : BulkDeleteResponse) (s : State),
      ∃ ok : List Bool, ok.length = ids.length ∧
        (bulkLoop op k ids (resp, s)).1.Deleted = resp.Deleted ++ pick true ids ok ∧
        (bulkLoop op k ids (resp, s)).1.Failed = resp.Failed ++ pick false ids ok ∧
        ∀ (j : Nat) (id : GoString), ids[j]? = some id →
          (ok[j]? = some true ↔
            (op (k + j) (bulkLoop op k (ids.take j) (resp, s)).2 id).1 = .ok ()) ∧
          (ok[j]? = some false ↔
            ∃ err, (op (k + j) (bulkLoop op k (ids.take j) (resp, s)).2 id).1 = .error err) := by
  intro ids
  induction ids with
  | nil =>
    intro k resp s
    exact ⟨[], rfl, by simp [bulkLoop, pick], by simp [bulkLoop, pick], by simp⟩
  | cons id rest ih =>
    intro k resp s
    cases ho : op k s id with
    | mk res s1 =>
      cases res with
      | error err =>
        obtain ⟨ok, hlen, hd, hf, hflag⟩ :=
          ih (k + 1) { resp with Failed := resp.Failed ++ [id] } s1
        refine ⟨false :: ok, by simp [hlen], ?_, ?_, ?_⟩
        · simp only [bulkLoop, ho, hd, pick_cons]
          simp
        · simp only [bulkLoop, ho, hf, pick_cons]
          simp
        · intro j x hx
          cases j with
          | zero =>
            simp only [List.getElem?_cons_zero, Option.some.injEq] at hx
            subst hx
            simp [bulkLoop, ho]
          | succ j =>
            simp only [List.getElem?_cons_succ] at hx
            have := hflag j x hx
            simp only [List.getElem?_cons_succ, List.take_succ_cons, bulkLoop, ho]
            rw [show k + (j + 1) = k + 1 + j by omega]
            exact this
      | ok u =>
        obtain ⟨ok, hlen, hd, hf, hflag⟩ :=
          ih (k + 1) { resp with Deleted := resp.Deleted ++ [id] } s1
        refine ⟨true :: ok, by simp [hlen], ?_, ?_, ?_⟩
        · simp only [bulkLoop, ho, hd, pick_cons]
          simp
        · simp only [bulkLoop, ho, hf, pick_cons]
          simp
        · intro j x hx
          cases j with
          | zero =>
            simp only [List.getElem?_cons_zero, Option.some.injEq] at hx
            subst hx
            simp [bulkLoop, ho]
          | succ j =>
            simp only [List.getElem?_cons_succ] at hx
            have := hflag j x hx
            simp only [List.getElem?_cons_succ, List.take_succ_cons, bulkLoop, ho]
            rw [show k + (j + 1) = k + 1 + j by omega]
            exact this

/-- The state the loop leaves is the state the single-item calls leave, run
one after the other in input order, each on the state left by the one
before. -/
theorem bulkLoop_state (op : Nat → State → GoString → Outcome Unit) :
    ∀ (ids : List GoString) (k : Nat) (resp : BulkDeleteResponse) (s : State),
      (bulkLoop op k ids (resp, s)).2 =
        (ids.enumFrom k).foldl (fun st p => (op p.1 st p.2).2) s := by
  intro ids
  induction ids with
  | nil => intro k resp s; rfl
  | cons id rest ih =>
    intro k resp s
    cases ho : op k s id with
    | mk res s1 =>
      cases res with
      | error err =>
        simp only [bulkLoop, ho, List.enumFrom_cons, List.foldl_cons]
        exact ih _ _ _
      | ok u =>
        simp only [bulkLoop, ho, List.enumFrom_cons, List.foldl_cons]
        exact ih _ _ _

/-- C22: `BulkDelete` and `BulkMove` make the single-item call for every id of
the input, in input order, each on the state the call before it left: the
state the bulk call leaves is the state reached from `s` by running `Delete`
(for `BulkMove`: `MoveMedia`) on the ids one after the other. There is a list
of flags, one per input position, such that the succeeded list is the ids
flagged `true` and the failed list the ids flagged `false`, both in input
order; so both are subsequences of the input and their lengths sum to its
length. The flag of position `j` is `true` exactly when `Delete` (`MoveMedia`)
of that id, run on the state the single-item calls for the first `j` ids left,
returned no error, and `false` exactly when it returned an error. -/
theorem C22_bulk_operations (e : Nat → Env) (s : State) (ids : List GoString)
    (u w : GoString) :
    ((MediaService.BulkDelete e s ids u).2 =
        ids.enum.foldl (fun st p => (MediaService.Delete (e p.1) st p.2 u).2) s ∧
      ∃ ok : List Bool, ok.length = ids.length ∧
        (MediaService.BulkDelete e s ids u).1.Deleted = pick true ids ok ∧
        (MediaService.BulkDelete e s ids u).1.Failed = pick false ids ok ∧
        ∀ (j : Nat) (id : GoString), ids[j]? = some id →
          (ok[j]? = some true ↔
            (MediaService.Delete (e j)
              ((ids.take j).enum.foldl (fun st p => (MediaService.Delete (e p.1) st p.2 u).2) s)
              id u).1 = .ok ()) ∧
          (ok[j]? = some false ↔
            ∃ err, (MediaService.Delete (e j)
              ((ids.take j).enum.foldl (fun st p => (MediaService.Delete (e p.1) st p.2 u).2) s)
              id u).1 = .error err)) ∧
    (MediaService.BulkDelete e s ids u).1.Deleted.Sublist ids ∧
    (MediaService.BulkDelete e s ids u).1.Failed.Sublist ids ∧
    (MediaService.BulkDelete e s ids u).1.Deleted.length +
      (MediaService.BulkDelete e s ids u).1.Failed.length = ids.length ∧
    ((MediaService.BulkMove e s ids u w).2 =
        ids.enum.foldl (fun st p => (MediaService.MoveMedia (e p.1) st p.2 u w).2) s ∧
      ∃ ok : List Bool, ok.length = ids.length ∧
        (MediaService.BulkMove e s ids u w).1.Deleted = pick true ids ok ∧
        (MediaService.BulkMove e s ids u w).1.Failed = pick false ids ok ∧
        ∀ (j : Nat) (id : GoString), ids[j]? = some id →
          (ok[j]? = some true ↔
            (MediaService.MoveMedia (e j)
              ((ids.take j).enum.foldl
                (fun st p => (MediaService.MoveMedia (e p.1) st p.2 u w).2) s)
              id u w).1 = .ok ()) ∧
          (ok[j]? = some false ↔
            ∃ err, (MediaService.MoveMedia (e j)
              ((ids.take j).enum.foldl
                (fun st p => (MediaService.MoveMedia (e p.1) st p.2 u w).2) s)
              id u w).1 = .error err)) ∧
    (MediaService.BulkMove e s ids u w).1.Deleted.Sublist ids ∧
    (MediaService.BulkMove e s ids u w).1.Failed.Sublist ids ∧
    (MediaService.BulkMove e s ids u w).1.Deleted.length +
      (MediaService.BulkMove e s ids u w).1.Failed.length = ids.length := by
  obtain ⟨ok1, hl1, hd1, hf1, hflag1⟩ :=
    bulkLoop_spec (fun k s1 id => MediaService.Delete (e k) s1 id u) ids 0
      { Deleted := [], Failed := [] } s
  obtain ⟨ok2, hl2, hd2, hf2, hflag2⟩ :=
    bulkLoop_spec (fun k s1 id => MediaService.MoveMedia (e k) s1 id u w) ids 0
      { Deleted := [], Failed := [] } s
  have hs1 : ∀ l : List GoString, (MediaService.BulkDelete e s l u).2 =
      l.enum.foldl (fun st p => (MediaService.Delete (e p.1) st p.2 u).2) s := fun l =>
    bulkLoop_state (fun k s1 id => MediaService.Delete (e k) s1 id u) l 0 _ s
  have hs2 : ∀ l : List GoString, (MediaService.BulkMove e s l u w).2 =
      l.enum.foldl (fun st p => (MediaService.MoveMedia (e p.1) st p.2 u w).2) s := fun l =>
    bulkLoop_state (fun k s1 id => MediaService.MoveMedia (e k) s1 id u w) l 0 _ s
  simp only [List.nil_append, Nat.zero_add] at hd1 hf1 hflag1 hd2 hf2 hflag2
  have hD1 : (MediaService.BulkDelete e s ids u).1.Deleted = pick true ids ok1 := hd1
  have hF1 : (MediaService.BulkDelete e s ids u).1.Failed = pick false ids ok1 := hf1
  have hD2 : (MediaService.BulkMove e s ids u w).1.Deleted = pick true ids ok2 := hd2
  have hF2 : (MediaService.BulkMove e s ids u w).1.Failed = pick false ids ok2 := hf2
  refine ⟨⟨hs1 ids, ok1, hl1, hD1, hF1, ?_⟩, ?_, ?_, ?_, ⟨hs2 ids, ok2, hl2, hD2, hF2, ?_⟩,
    ?_, ?_, ?_⟩
  · intro j id hj
    have h := hflag1 j id hj
    rw [← hs1 (ids.take j)]
    exact h
  · rw [hD1]; exact pick_sublist _ _ _
  · rw [hF1]; exact pick_sublist _ _ _
  · rw [hD1, hF1]; exact pick_length _ _ hl1
  · intro j id hj
    have h := hflag2 j id hj
    rw [← hs2 (ids.take j)]
    exact h
  · rw [hD2]; exact pick_sublist _ _ _
  · rw [hF2]; exact pick_sublist _ _ _
  · rw [hD2, hF2]; exact pick_length _ _ hl2

/-- C22 applied to the scenario: `u1` bulk-deletes `m1` twice and an id that
was never stored. The first call deletes the record, so the second one runs on
a collection without it and fails. -/
theorem C22_bulk_operations_witness :
    (MediaService.BulkDelete (fun _ => Env.calm [] 4000000000) Ex.s3
        [Ex.m1, Ex.m1, lit "zz"] Ex.u1).1 =
      { Deleted := [Ex.m1], Failed := [Ex.m1, lit "zz"] } ∧
    (MediaService.BulkDelete (fun _ => Env.calm [] 4000000000) Ex.s3
        [Ex.m1, Ex.m1, lit "zz"] Ex.u1).2.media = [] ∧
    Ex.s3.media ≠ [] ∧
    (MediaService.BulkDelete (fun _ => Env.calm [] 4000000000) Ex.s3
        [Ex.m1, Ex.m1, lit "zz"] Ex.u1).2 =
      [Ex.m1, Ex.m1, lit "zz"].enum.foldl
        (fun st p => (MediaService.Delete (Env.calm [] 4000000000) st p.2 Ex.u1).2) Ex.s3 :=
  ⟨by decide, by decide, by decide,
    (C22_bulk_operations (fun _ => Env.calm [] 4000000000) Ex.s3 [Ex.m1, Ex.m1, lit "zz"] Ex.u1
      []).1.1⟩

/-! ## Theorems: `CopyMedia` -/

/-- What a `CopyMedia` that returned no error did, in terms of the record
`Get` handed it. -/
theorem CopyMedia_ok {e : Env} {s s1 : State} {i o w : GoString} {n : Media}
    (h : MediaService.CopyMedia e s i o w = (.ok n, s1)) :
    ∃ media s0, MediaService.Get e s i = (.ok media, s0) ∧ media.UserID = o ∧
      n.ID = e.uuid ∧ n.UserID = o ∧ n.Type_ = media.Type_ ∧ n.Filename = media.Filename ∧
      n.MimeType = media.MimeType ∧ n.Size = media.Size ∧ n.S3Key = media.S3Key ∧
      n.Metadata = [(lit "workspaceId", w)] ∧
      (∀ x ∈ s.media, x.ID ≠ e.uuid) ∧
      s1.media = s.media ++ [bsonMedia n] ∧ s1.versions = s.versions ∧ s1.trash = s.trash ∧
      s1.blobs = s.blobs := by
  have hframe := Get_frame e s i
  unfold MediaService.CopyMedia at h
  cases hG : MediaService.Get e s i with
  | mk res s0 =>
    rw [hG] at h hframe
    obtain ⟨hm, hv, ht, hb⟩ := hframe
    simp only at hm hv ht hb
    cases res with
    | error err => simp at h
    | ok media =>
      simp only at h
      by_cases hu : media.UserID ≠ o
      · rw [if_pos hu] at h
        simp at h
      · rw [if_neg hu] at h
        split at h
        · simp at h
        · rename_i c hc
          obtain ⟨-, hany, rfl⟩ := insertMedia_ok hc
          simp only [Prod.mk.injEq, Except.ok.injEq] at h
          obtain ⟨rfl, rfl⟩ := h
          refine ⟨media, s0, rfl, not_not.1 hu, rfl, rfl, rfl, rfl, rfl, rfl, rfl, rfl, ?_,
            by simp only [hm], hv, ht, hb⟩
          intro x hx
          rw [← hm] at hx
          have := List.any_eq_false.1 hany x hx
          simpa using this

/-- When the cache holds no copy of the record `r` that differs from it in a
copied field, a `CopyMedia` of `r` that returned no error appended one record
under a new id, of the caller, with the type, filename, MIME type, size and
blob key of `r` and the target workspace; `r`, the other records and the bucket
are as before. -/
theorem CopyMedia_ok_of_coherent {e : Env} {s s1 : State} {r n : Media} {o w : GoString}
    (hs : Reachable s) (hr : r ∈ s.media)
    (hcoh : ∀ c, cacheGet s.cache (cacheKey r.ID) = some (some c) →
      c.Type_ = r.Type_ ∧ c.Filename = r.Filename ∧ c.MimeType = r.MimeType ∧
        c.Size = r.Size ∧ c.S3Key = r.S3Key)
    (h : MediaService.CopyMedia e s r.ID o w = (.ok n, s1)) :
    n.ID ≠ r.ID ∧ n.UserID = o ∧ n.Type_ = r.Type_ ∧ n.Filename = r.Filename ∧
      n.MimeType = r.MimeType ∧ n.Size = r.Size ∧ n.S3Key = r.S3Key ∧
      n.Metadata = [(lit "workspaceId", w)] ∧
      s1.media = s.media ++ [bsonMedia n] ∧ r ∈ s1.media ∧ s1.blobs = s.blobs := by
  have hinv := hs.storeInv
  obtain ⟨media, s0, hget, -, hid, hu, hty, hfn, hmt, hsz, hk, hmd, hfresh, hm, -, -, hb⟩ :=
    CopyMedia_ok h
  have hfields : media.Type_ = r.Type_ ∧ media.Filename = r.Filename ∧
      media.MimeType = r.MimeType ∧ media.Size = r.Size ∧ media.S3Key = r.S3Key := by
    rcases Get_cases e s r.ID with ⟨m, -, hhit, h1⟩ | ⟨err, -, h1⟩ | ⟨f1, hf1, ⟨-, h1⟩ | ⟨-, h1⟩⟩
    · rw [h1] at hget
      simp only [Prod.mk.injEq, Except.ok.injEq] at hget
      rw [← hget.1]
      exact hcoh m hhit
    · rw [h1] at hget
      simp at hget
    all_goals
      obtain ⟨-, -, hmem, hfid⟩ := findMedia_ok hf1
      rw [h1] at hget
      simp only [Prod.mk.injEq, Except.ok.injEq] at hget
      rw [← hget.1, ← eq_of_mem_of_id hinv.nodup hmem hr hfid]
      exact ⟨rfl, rfl, rfl, rfl, rfl⟩
  obtain ⟨f1, f2, f3, f4, f5⟩ := hfields
  refine ⟨?_, hu, by rw [hty, f1], by rw [hfn, f2], by rw [hmt, f3], by rw [hsz, f4],
    by rw [hk, f5], hmd, hm, by rw [hm]; exact List.mem_append_left _ hr, hb⟩
  rw [hid]
  exact fun he => hfresh r hr he.symm

/-- C23 (the code at the failing input): after the restore of version 1 the
record `m1` has filename `cat_edit.png` and blob key `keyV`, while the cache
still holds its copy from before the restore. `CopyMedia` of `m1` by its owner
returns no error and inserts a record with filename `cat.png` and blob key
`key0`, which are not those of the record. -/
theorem C23_copy_of_stale_cache :
    (∃ r ∈ Ex.s6.media, r.ID = Ex.m1 ∧ r.UserID = Ex.u1 ∧ r.Filename = lit "cat_edit.png" ∧
      r.Size = 3000 ∧ r.S3Key = Ex.keyV) ∧
    (∃ n, (MediaService.CopyMedia (Env.calm (lit "m2") 7000000000) Ex.s6 Ex.m1 Ex.u1
        (lit "w1")).1 = .ok n ∧
      n.Filename = lit "cat.png" ∧ n.Size = 2048 ∧ n.S3Key = Ex.key0) ∧
    (∃ x ∈ (MediaService.CopyMedia (Env.calm (lit "m2") 7000000000) Ex.s6 Ex.m1 Ex.u1
        (lit "w1")).2.media,
      x.ID = lit "m2" ∧ x.Filename = lit "cat.png" ∧ x.Size = 2048 ∧ x.S3Key = Ex.key0) ∧
    Ex.key0 ≠ Ex.keyV :=
  ⟨by decide, ⟨_, rfl, by decide, by decide, by decide⟩, by decide, by decide⟩

/-! ## Theorems: `SetQuota` -/

/-- With unique keys, `UpdateOne` by key rewrites the record with that key and
no other. -/
theorem updateOne_eq_map_key {α β : Type} [DecidableEq β] (g : α → β) (f : α → α) (i : β)
    (l : List α) (hn : (l.map g).Nodup) :
    updateOne (fun x => decide (g x = i)) f l = l.map (fun x => if g x = i then f x else x) := by
  induction l with
  | nil => rfl
  | cons d ds ih =>
    simp only [List.map_cons, List.nodup_cons] at hn
    unfold updateOne
    by_cases h : g d = i
    · simp only [h, decide_True, if_true, List.map_cons]
      congr 1
      have hds : ∀ x ∈ ds, (if g x = i then f x else x) = id x := by
        intro x hx
        rw [if_neg]
        · rfl
        · intro hxi
          apply hn.1
          rw [h, ← hxi]
          exact List.mem_map_of_mem g hx
      rw [List.map_congr_left hds, List.map_id]
    · simp only [h, decide_False, Bool.false_eq_true, if_false, List.map_cons, ih hn.2]

/-- The `$set` of `SetQuota` keeps the workspace of a record. -/
theorem find_quota_updateOne (req : SetQuotaRequest) (now : Time) (l : List StorageQuota) :
    (updateOne (fun q => decide (q.WorkspaceID = req.WorkspaceID))
      (fun q => { q with MaxStorageMB := req.MaxStorageMB, MaxFileCount := req.MaxFileCount,
                         UpdatedAt := bsonTime now }) l).find?
        (fun q => decide (q.WorkspaceID = req.WorkspaceID)) =
      (l.find? (fun q => decide (q.WorkspaceID = req.WorkspaceID))).map
        (fun q => { q with MaxStorageMB := req.MaxStorageMB, MaxFileCount := req.MaxFileCount,
                           UpdatedAt := bsonTime now }) :=
  by
  refine find_updateOne _ _ ?_ l
  exact fun _ hx => hx

theorem map_quota_updateOne (req : SetQuotaRequest) (now : Time) (l : List StorageQuota) :
    (updateOne (fun q => decide (q.WorkspaceID = req.WorkspaceID))
      (fun q => { q with MaxStorageMB := req.MaxStorageMB, MaxFileCount := req.MaxFileCount,
                         UpdatedAt := bsonTime now }) l).map (fun q => q.WorkspaceID) =
      l.map (fun q => q.WorkspaceID) :=
  by
  refine map_updateOne _ _ _ ?_ l
  exact fun _ => rfl

/-- C24: on a quota collection with at most one record per workspace, a
`SetQuota` whose update and lookup are answered: (1) for a workspace without
record (and a new id drawn) appends one record with the given limits, both
counters 0 and both timestamps the one clock reading, and returns it;
(2) for a workspace with record `q` replaces `q` by the record it returns,
which has the id, workspace, counters and `createdAt` of `q`, the given limits
and a new `updatedAt`, and leaves the number of records as it was; in both
cases (3) the collection still has at most one record per workspace,
(4) the records of other workspaces are the same, and (5) the other stores are
untouched. -/
theorem C24_setQuota_upsert (e : Env) (s : State) (req : SetQuotaRequest)
    (hnd : (s.quotas.map (fun q => q.WorkspaceID)).Nodup)
    (hupd : e.updateFails = false) (hfind : e.findFails = false) :
    ((∀ q ∈ s.quotas, q.WorkspaceID ≠ req.WorkspaceID) → (∀ q ∈ s.quotas, q.ID ≠ e.uuid) →
      ∃ n, (QuotaService.SetQuota e s req).1 = .ok n ∧
        (QuotaService.SetQuota e s req).2.quotas = s.quotas ++ [n] ∧
        n.ID = e.uuid ∧ n.WorkspaceID = req.WorkspaceID ∧
        n.MaxStorageMB = req.MaxStorageMB ∧ n.MaxFileCount = req.MaxFileCount ∧
        n.UsedStorageMB = 0 ∧ n.CurrentFileCount = 0 ∧
        n.CreatedAt = bsonTime (e.clock 0) ∧ n.UpdatedAt = bsonTime (e.clock 0)) ∧
    (∀ q ∈ s.quotas, q.WorkspaceID = req.WorkspaceID →
      ∃ n, (QuotaService.SetQuota e s req).1 = .ok n ∧
        (QuotaService.SetQuota e s req).2.quotas =
          s.quotas.map (fun x => if x.WorkspaceID = req.WorkspaceID then n else x) ∧
        n.ID = q.ID ∧ n.WorkspaceID = q.WorkspaceID ∧
        n.UsedStorageMB = q.UsedStorageMB ∧ n.CurrentFileCount = q.CurrentFileCount ∧
        n.CreatedAt = q.CreatedAt ∧
        n.MaxStorageMB = req.MaxStorageMB ∧ n.MaxFileCount = req.MaxFileCount ∧
        n.UpdatedAt = bsonTime (e.clock 0) ∧
        (QuotaService.SetQuota e s req).2.quotas.length = s.quotas.length) ∧
    ((QuotaService.SetQuota e s req).2.quotas.map (fun q => q.WorkspaceID)).Nodup ∧
    (∀ x : StorageQuota, x.WorkspaceID ≠ req.WorkspaceID →
      (x ∈ (QuotaService.SetQuota e s req).2.quotas ↔ x ∈ s.quotas)) ∧
    (QuotaService.SetQuota e s req).2.media = s.media ∧
    (QuotaService.SetQuota e s req).2.versions = s.versions ∧
    (QuotaService.SetQuota e s req).2.trash = s.trash ∧
    (QuotaService.SetQuota e s req).2.blobs = s.blobs ∧
    (QuotaService.SetQuota e s req).2.cache = s.cache := by
  by_cases hex : ∃ q ∈ s.quotas, q.WorkspaceID = req.WorkspaceID
  · obtain ⟨q, hq, hqw⟩ := hex
    have hany : s.quotas.any (fun q => decide (q.WorkspaceID = req.WorkspaceID)) = true :=
      List.any_eq_true.2 ⟨q, hq, by simpa using hqw⟩
    have hfound : s.quotas.find? (fun x => decide (x.WorkspaceID = req.WorkspaceID)) =
        some q := by
      cases hf : s.quotas.find? (fun x => decide (x.WorkspaceID = req.WorkspaceID)) with
      | none =>
        rw [List.find?_eq_none] at hf
        exact absurd (by simpa using hqw) (hf q hq)
      | some q1 =>
        have h1 := List.mem_of_find?_eq_some hf
        have h2 : q1.WorkspaceID = req.WorkspaceID := by simpa using List.find?_some hf
        rw [List.inj_on_of_nodup_map hnd h1 hq (by rw [h2, hqw])]
    have hrun : QuotaService.SetQuota e s req =
        (.ok { q with MaxStorageMB := req.MaxStorageMB, MaxFileCount := req.MaxFileCount,
                      UpdatedAt := bsonTime (e.clock 0) },
          { s with quotas := updateOne (fun x => decide (x.WorkspaceID = req.WorkspaceID))
                     (fun x => { x with MaxStorageMB := req.MaxStorageMB,
                                        MaxFileCount := req.MaxFileCount,
                                        UpdatedAt := bsonTime (e.clock 0) }) s.quotas }) := by
      unfold QuotaService.SetQuota upsertQuota QuotaService.GetByWorkspace
      simp only [hupd, hany, hfind, Bool.false_eq_true, if_false, if_true]
      rw [find_quota_updateOne, hfound]
      rfl
    rw [hrun]
    refine ⟨fun hnone => absurd hqw (hnone q hq), ?_, ?_, ?_, rfl, rfl, rfl, rfl, rfl⟩
    · intro q1 hq1 hq1w
      have hqq : q1 = q := List.inj_on_of_nodup_map hnd hq1 hq (by rw [hq1w, hqw])
      subst hqq
      refine ⟨_, rfl, ?_, rfl, rfl, rfl, rfl, rfl, rfl, rfl, rfl, ?_⟩
      · simp only
        rw [updateOne_eq_map_key (fun x : StorageQuota => x.WorkspaceID) _ _ _ hnd]
        apply List.map_congr_left
        intro x hx
        by_cases hxw : x.WorkspaceID = req.WorkspaceID
        · rw [if_pos hxw, if_pos hxw,
            List.inj_on_of_nodup_map hnd hx hq1 (by rw [hxw, hq1w])]
        · rw [if_neg hxw, if_neg hxw]
      · simp only
        rw [updateOne_eq_map_key (fun x : StorageQuota => x.WorkspaceID) _ _ _ hnd,
          List.length_map]
    · simp only
      rw [map_quota_updateOne]
      exact hnd
    · intro x hx
      simp only
      rw [updateOne_eq_map_key (fun x : StorageQuota => x.WorkspaceID) _ _ _ hnd, List.mem_map]
      constructor
      · rintro ⟨y, hy, hyx⟩
        by_cases hyw : y.WorkspaceID = req.WorkspaceID
        · rw [if_pos hyw] at hyx
          exact absurd (by rw [← hyx]; exact hyw) hx
        · rw [if_neg hyw] at hyx
          exact hyx ▸ hy
      · intro hxm
        exact ⟨x, hxm, by rw [if_neg hx]⟩
  · push_neg at hex
    have hany : s.quotas.any (fun q => decide (q.WorkspaceID = req.WorkspaceID)) = false := by
      rw [List.any_eq_false]
      intro x hx
      simpa using hex x hx
    by_cases hid : ∃ q ∈ s.quotas, q.ID = e.uuid
    · obtain ⟨q, hq, hqi⟩ := hid
      have hany2 : s.quotas.any (fun q => decide (q.ID = e.uuid)) = true :=
        List.any_eq_true.2 ⟨q, hq, by simpa using hqi⟩
      have hrun : QuotaService.SetQuota e s req = (.error .duplicateKey, s) := by
        unfold QuotaService.SetQuota upsertQuota
        simp only [hupd, hany, hany2, Bool.false_eq_true, if_false, if_true]
      rw [hrun]
      exact ⟨fun _ hfresh => absurd hqi (hfresh q hq),
        fun q1 hq1 hq1w => absurd hq1w (hex q1 hq1), hnd, fun _ _ => Iff.rfl,
        rfl, rfl, rfl, rfl, rfl⟩
    · push_neg at hid
      have hany2 : s.quotas.any (fun q => decide (q.ID = e.uuid)) = false := by
        rw [List.any_eq_false]
        intro x hx
        simpa using hid x hx
      have hrun : ∃ n : StorageQuota, QuotaService.SetQuota e s req =
          (.ok n, { s with quotas := s.quotas ++ [n] }) ∧
          n.ID = e.uuid ∧ n.WorkspaceID = req.WorkspaceID ∧
          n.MaxStorageMB = req.MaxStorageMB ∧ n.MaxFileCount = req.MaxFileCount ∧
          n.UsedStorageMB = 0 ∧ n.CurrentFileCount = 0 ∧
          n.CreatedAt = bsonTime (e.clock 0) ∧ n.UpdatedAt = bsonTime (e.clock 0) := by
        unfold QuotaService.SetQuota upsertQuota QuotaService.GetByWorkspace
        simp only [hupd, hany, hany2, hfind, Bool.false_eq_true, if_false]
        rw [find_append_new _ _ _ hany (by simp)]
        exact ⟨_, rfl, rfl, rfl, rfl, rfl, rfl, rfl, rfl, rfl⟩
      obtain ⟨n, hn, h1, h2, h3, h4, h5, h6, h7, h8⟩ := hrun
      rw [hn]
      refine ⟨fun _ _ => ⟨n, rfl, rfl, h1, h2, h3, h4, h5, h6, h7, h8⟩,
        fun q1 hq1 hq1w => absurd hq1w (hex q1 hq1), ?_, ?_, rfl, rfl, rfl, rfl, rfl⟩
      · simp only [List.map_append, List.map_cons, List.map_nil]
        rw [List.nodup_append]
        refine ⟨hnd, List.nodup_singleton _, ?_⟩
        intro a ha hb
        simp only [List.mem_singleton] at hb
        obtain ⟨x, hx, rfl⟩ := List.mem_map.1 ha
        exact hex x hx (by rw [hb, h2])
      · intro x hx
        simp only [List.mem_append, List.mem_singleton]
        constructor
        · rintro (h | h)
          · exact h
          · exact absurd (by rw [h, h2]) hx
        · exact Or.inl

theorem C24_setQuota_upsert_witness :
    (∃ n, (QuotaService.SetQuota (Env.calm (lit "q1") 8000000000) Ex.s3 Ex.quotaReq).1 = .ok n ∧
      (QuotaService.SetQuota (Env.calm (lit "q1") 8000000000) Ex.s3 Ex.quotaReq).2.quotas =
        Ex.s3.quotas ++ [n] ∧
      n.ID = lit "q1" ∧ n.WorkspaceID = lit "w1" ∧ n.MaxStorageMB = 1024 ∧
      n.MaxFileCount = 500 ∧ n.UsedStorageMB = 0 ∧ n.CurrentFileCount = 0 ∧
      n.CreatedAt = bsonTime 8000000000 ∧ n.UpdatedAt = bsonTime 8000000000) ∧
    ((QuotaService.SetQuota (Env.calm (lit "q2") 9000000000) Ex.k1 Ex.quotaReq2).2.quotas.map
      (fun q => q.WorkspaceID)).Nodup :=
  ⟨(C24_setQuota_upsert (Env.calm (lit "q1") 8000000000) Ex.s3 Ex.quotaReq (by decide) rfl
      rfl).1 (by decide) (by decide),
    (C24_setQuota_upsert (Env.calm (lit "q2") 9000000000) Ex.k1 Ex.quotaReq2 (by decide) rfl
      rfl).2.2.1⟩

/-! ## Theorems: the quota collection under the lifecycle operations -/

/-- No event of the lifecycle services writes the quota collection. -/
theorem exec_quotas (e : Env) (s : State) (c : Call) : (exec e s c).quotas = s.quotas := by
  have hget : ∀ i, (MediaService.Get e s i).2.quotas = s.quotas := by
    intro i
    rcases Get_cases e s i with ⟨m, -, -, h⟩ | ⟨err, -, h⟩ | ⟨found, -, ⟨-, h⟩ | ⟨-, h⟩⟩ <;>
      rw [h]
  cases c with
  | create u req =>
    simp only [exec, MediaService.Create]
    repeat' (first | rfl | split)
  | get i => exact hget i
  | delete i u =>
    have h1 := hget i
    simp only [exec, MediaService.Delete]
    generalize MediaService.Get e s i = o at h1 ⊢
    obtain ⟨r, s1⟩ := o
    cases r with
    | error err => exact h1
    | ok media =>
      simp only
      split_ifs <;> exact h1
  | setURL i url =>
    simp only [exec, MediaService.SetURL]
    split_ifs <;> rfl
  | updateMetadata i u md =>
    have h1 := hget i
    simp only [exec, MediaService.UpdateMetadata]
    generalize MediaService.Get e s i = o at h1 ⊢
    obtain ⟨r, s1⟩ := o
    cases r with
    | error err => exact h1
    | ok media =>
      simp only
      split_ifs <;> exact h1
  | rename i u f =>
    have h1 := hget i
    simp only [exec, MediaService.Rename]
    generalize MediaService.Get e s i = o at h1 ⊢
    obtain ⟨r, s1⟩ := o
    cases r with
    | error err => exact h1
    | ok media =>
      simp only
      split_ifs <;> exact h1
  | copyMedia i u w =>
    have h1 := hget i
    simp only [exec, MediaService.CopyMedia]
    generalize MediaService.Get e s i = o at h1 ⊢
    obtain ⟨r, s1⟩ := o
    cases r with
    | error err => exact h1
    | ok media =>
      simp only
      split_ifs
      · exact h1
      · split <;> exact h1
  | moveMedia i u w =>
    have h1 := hget i
    simp only [exec, MediaService.MoveMedia]
    generalize MediaService.Get e s i = o at h1 ⊢
    obtain ⟨r, s1⟩ := o
    cases r with
    | error err => exact h1
    | ok media =>
      simp only
      split_ifs <;> exact h1
  | createVersion i u req =>
    simp only [exec, VersionService.CreateVersion]
    split <;> rfl
  | deleteVersion v u =>
    have h1 := GetVersion_state e s v
    simp only [exec, VersionService.DeleteVersion]
    generalize VersionService.GetVersion e s v = o at h1 ⊢
    obtain ⟨r, s1⟩ := o
    simp only at h1
    subst h1
    cases r with
    | error err => rfl
    | ok version =>
      simp only
      split_ifs <;> rfl
  | restoreVersion v u =>
    have h1 := GetVersion_state e s v
    simp only [exec, VersionService.RestoreVersion]
    generalize VersionService.GetVersion e s v = o at h1 ⊢
    obtain ⟨r, s1⟩ := o
    simp only at h1
    subst h1
    cases r with
    | error err => rfl
    | ok version =>
      simp only
      split_ifs <;> rfl
  | moveToTrash i u =>
    simp only [exec, TrashService.MoveToTrash]
    repeat' (first | rfl | split)
  | restoreFromTrash t u =>
    simp only [exec, TrashService.RestoreFromTrash]
    repeat' (first | rfl | split)
  | permanentDelete t u =>
    simp only [exec, TrashService.PermanentDelete]
    repeat' (first | rfl | split)
  | emptyTrash u =>
    simp only [exec, TrashService.EmptyTrash]
    split_ifs <;> rfl
  | applyWatermark req =>
    simp only [exec, WatermarkService.Apply]
    split_ifs <;> rfl
  | removeWatermark i =>
    simp only [exec, WatermarkService.Remove]
    split_ifs <;> rfl
  | upload key => rfl
  | expire key => rfl

/-- A loop of single-item calls that do not write the quota collection does
not write it. -/
theorem bulkLoop_quotas (op : Nat → State → GoString → Outcome Unit)
    (hop : ∀ k s id, (op k s id).2.quotas = s.quotas) :
    ∀ (ids : List GoString) (k : Nat) (resp : BulkDeleteResponse) (s : State),
      (bulkLoop op k ids (resp, s)).2.quotas = s.quotas := by
  intro ids
  induction ids with
  | nil => intro k resp s; rfl
  | cons id rest ih =>
    intro k resp s
    have h := hop k s id
    cases ho : op k s id with
    | mk res s1 =>
      rw [ho] at h
      cases res with
      | error err =>
        simp only [bulkLoop, ho]
        rw [ih]
        exact h
      | ok u =>
        simp only [bulkLoop, ho]
        rw [ih]
        exact h

/-- `SetQuota` leaves the counters of every record as they were and gives a
record it creates the counters 0. -/
theorem SetQuota_counters (e : Env) (s : State) (req : SetQuotaRequest)
    (h : ∀ q ∈ s.quotas, q.UsedStorageMB = 0 ∧ q.CurrentFileCount = 0) :
    ∀ q ∈ (QuotaService.SetQuota e s req).2.quotas,
      q.UsedStorageMB = 0 ∧ q.CurrentFileCount = 0 := by
  have hstate : ∀ (c : List StorageQuota),
      (QuotaService.GetByWorkspace e { s with quotas := c } req.WorkspaceID).2.quotas = c := by
    intro c
    unfold QuotaService.GetByWorkspace
    split_ifs
    · rfl
    · split <;> rfl
  unfold QuotaService.SetQuota
  simp only
  cases hu : upsertQuota e s.quotas req (e.clock 0) with
  | error err => exact h
  | ok c =>
    simp only
    rw [hstate]
    unfold upsertQuota at hu
    split_ifs at hu
    · simp only [Except.ok.injEq] at hu
      subst hu
      intro q hq
      rcases mem_updateOne hq with hq | ⟨y, hy, rfl⟩
      · exact h q hq
      · exact h y hy
    · simp only [Except.ok.injEq] at hu
      subst hu
      intro q hq
      rcases List.mem_append.1 hq with hq | hq
      · exact h q hq
      · simp only [List.mem_singleton] at hq
        rw [hq]
        exact ⟨rfl, rfl⟩

/-- C25: no event of the lifecycle services (`Create`, `Delete`, `CopyMedia`,
`MoveMedia`, `MoveToTrash`, `RestoreFromTrash`, `PermanentDelete`,
`EmptyTrash`, `CreateVersion`, `DeleteVersion`, `RestoreVersion` and the
others) and no bulk operation changes the quota collection, in any state and
any surroundings; hence in every state the system can be in, every quota record
has both counters at 0, the value `SetQuota` created it with. -/
theorem C25_quotas_untouched :
    (∀ (e : Env) (s : State) (c : Call), (exec e s c).quotas = s.quotas) ∧
    (∀ (e : Nat → Env) (s : State) (ids : List GoString) (u : GoString),
      (MediaService.BulkDelete e s ids u).2.quotas = s.quotas) ∧
    (∀ (e : Nat → Env) (s : State) (ids : List GoString) (u w : GoString),
      (MediaService.BulkMove e s ids u w).2.quotas = s.quotas) ∧
    ∀ s : State, Operated s →
      ∀ q ∈ s.quotas, q.UsedStorageMB = 0 ∧ q.CurrentFileCount = 0 := by
  have hdel : ∀ (e : Nat → Env) (s : State) (ids : List GoString) (u : GoString),
      (MediaService.BulkDelete e s ids u).2.quotas = s.quotas := by
    intro e s ids u
    exact bulkLoop_quotas _ (fun k s1 id => exec_quotas (e k) s1 (.delete id u)) ids 0 _ s
  have hmove : ∀ (e : Nat → Env) (s : State) (ids : List GoString) (u w : GoString),
      (MediaService.BulkMove e s ids u w).2.quotas = s.quotas := by
    intro e s ids u w
    exact bulkLoop_quotas _ (fun k s1 id => exec_quotas (e k) s1 (.moveMedia id u w)) ids 0 _ s
  refine ⟨exec_quotas, hdel, hmove, ?_⟩
  intro s hs
  induction hs with
  | init => intro q hq; cases hq
  | call e c _ ih => rw [exec_quotas]; exact ih
  | bulkDelete e ids u _ ih => rw [hdel]; exact ih
  | bulkMove e ids u w _ ih => rw [hmove]; exact ih
  | setQuota e req _ ih => exact SetQuota_counters e _ req ih

/-! ## Theorems: a call that returns an error -/

/-- C26 (counterexample): with the final `DeleteOne` failing, each of the
three calls returns an error and leaves its earlier write behind. `Delete` of
`m1` has removed the object under `key0` while the record stays; `MoveToTrash`
of `m1` has inserted a trash entry while the record stays; `RestoreFromTrash`
of the entry `t1` has inserted the record while the entry stays. -/
theorem C26_counterexample :
    ((MediaService.Delete (Env.deleteDown [] 4000000000) Ex.s3 Ex.m1 Ex.u1).1 =
        .error .backend ∧
      Ex.key0 ∈ Ex.s3.blobs ∧
      Ex.key0 ∉ (MediaService.Delete (Env.deleteDown [] 4000000000) Ex.s3 Ex.m1 Ex.u1).2.blobs ∧
      (MediaService.Delete (Env.deleteDown [] 4000000000) Ex.s3 Ex.m1 Ex.u1).2.media =
        Ex.s3.media ∧ Ex.s3.media ≠ []) ∧
    ((TrashService.MoveToTrash (Env.deleteDown (lit "t1") 4000000000) Ex.s3 Ex.m1 Ex.u1).1 =
        .error .backend ∧
      Ex.s3.trash = [] ∧
      (∃ t ∈ (TrashService.MoveToTrash (Env.deleteDown (lit "t1") 4000000000) Ex.s3 Ex.m1
          Ex.u1).2.trash, t.MediaID = Ex.m1) ∧
      (TrashService.MoveToTrash (Env.deleteDown (lit "t1") 4000000000) Ex.s3 Ex.m1
        Ex.u1).2.media = Ex.s3.media) ∧
    ((TrashService.RestoreFromTrash (Env.deleteDown [] 5000000000) Ex.w1 (lit "t1") Ex.u1).1 =
        .error .backend ∧
      Ex.w1.media = [] ∧
      (∃ m ∈ (TrashService.RestoreFromTrash (Env.deleteDown [] 5000000000) Ex.w1 (lit "t1")
          Ex.u1).2.media, m.ID = Ex.m1) ∧
      (TrashService.RestoreFromTrash (Env.deleteDown [] 5000000000) Ex.w1 (lit "t1")
        Ex.u1).2.trash = Ex.w1.trash ∧ Ex.w1.trash ≠ []) :=
  ⟨⟨rfl, by decide, by decide, by decide, by decide⟩,
    ⟨rfl, by decide, by decide, by decide⟩,
    ⟨rfl, by decide, by decide, by decide, by decide⟩⟩

/-- A `Delete` that returned an error wrote neither the media nor the trash
collection, and the bucket only when it is the record deletion that failed. -/
theorem Delete_error {e : Env} {s s1 : State} {i u : GoString} {err : Err}
    (h : MediaService.Delete e s i u = (.error err, s1)) :
    s1.media = s.media ∧ s1.trash = s.trash ∧ (e.deleteFails = false → s1.blobs = s.blobs) := by
  have hframe := Get_frame e s i
  unfold MediaService.Delete at h
  cases hG : MediaService.Get e s i with
  | mk res s0 =>
    rw [hG] at h hframe
    obtain ⟨hm, -, ht, hb⟩ := hframe
    simp only at hm ht hb
    cases res with
    | error e1 =>
      simp only [Prod.mk.injEq] at h
      rw [← h.2]
      exact ⟨hm, ht, fun _ => hb⟩
    | ok media =>
      simp only at h
      split_ifs at h with h1 h2 h3 h4
      · simp only [Prod.mk.injEq] at h
        rw [← h.2]
        exact ⟨hm, ht, fun _ => hb⟩
      · simp only [Prod.mk.injEq] at h
        rw [← h.2]
        exact ⟨hm, ht, fun _ => hb⟩
      · simp only [Prod.mk.injEq] at h
        rw [← h.2]
        exact ⟨hm, ht, fun hd => by rw [hd] at h3; cases h3⟩
      · simp at h
      · simp at h

/-- A `MoveToTrash` that returned an error wrote neither the media collection
nor the bucket, and the trash only when it is the record deletion that
failed. -/
theorem MoveToTrash_error {e : Env} {s s1 : State} {i u : GoString} {err : Err}
    (h : TrashService.MoveToTrash e s i u = (.error err, s1)) :
    s1.media = s.media ∧ s1.blobs = s.blobs ∧ (e.deleteFails = false → s1.trash = s.trash) := by
  unfold TrashService.MoveToTrash at h
  split at h
  · simp only [Prod.mk.injEq] at h
    rw [← h.2]
    exact ⟨rfl, rfl, fun _ => rfl⟩
  · rename_i media hf
    by_cases hu : media.UserID ≠ u
    · rw [if_pos hu] at h
      simp only [Prod.mk.injEq] at h
      rw [← h.2]
      exact ⟨rfl, rfl, fun _ => rfl⟩
    · rw [if_neg hu] at h
      simp only at h
      split at h
      · simp only [Prod.mk.injEq] at h
        rw [← h.2]
        exact ⟨rfl, rfl, fun _ => rfl⟩
      · split_ifs at h with h3 h4
        · simp only [Prod.mk.injEq] at h
          rw [← h.2]
          exact ⟨rfl, rfl, fun hd => by rw [hd] at h3; cases h3⟩
        · simp at h
        · simp at h

/-- A `RestoreFromTrash` that returned an error wrote neither the trash
collection nor the bucket, and the media collection only when it is the
deletion of the entry that failed. -/
theorem RestoreFromTrash_error {e : Env} {s s1 : State} {i u : GoString} {err : Err}
    (h : TrashService.RestoreFromTrash e s i u = (.error err, s1)) :
    s1.trash = s.trash ∧ s1.blobs = s.blobs ∧ (e.deleteFails = false → s1.media = s.media) := by
  unfold TrashService.RestoreFromTrash at h
  split at h
  · simp only [Prod.mk.injEq] at h
    rw [← h.2]
    exact ⟨rfl, rfl, fun _ => rfl⟩
  · split at h
    · simp only [Prod.mk.injEq] at h
      rw [← h.2]
      exact ⟨rfl, rfl, fun _ => rfl⟩
    · split_ifs at h with h3
      · simp only [Prod.mk.injEq] at h
        rw [← h.2]
        exact ⟨rfl, rfl, fun hd => by rw [hd] at h3; cases h3⟩
      · simp at h

/-- C26 (amended): when the final `DeleteOne` of the call is answered,
a `Delete`, `MoveToTrash` or `RestoreFromTrash` that returns an error leaves
the media collection, the trash collection and the bucket exactly as they
were. -/
theorem C26_error_before_last_write (e : Env) (s : State) (i u : GoString)
    (hdel : e.deleteFails = false) :
    (∀ err s1, MediaService.Delete e s i u = (.error err, s1) →
      s1.media = s.media ∧ s1.trash = s.trash ∧ s1.blobs = s.blobs) ∧
    (∀ err s1, TrashService.MoveToTrash e s i u = (.error err, s1) →
      s1.media = s.media ∧ s1.trash = s.trash ∧ s1.blobs = s.blobs) ∧
    (∀ err s1, TrashService.RestoreFromTrash e s i u = (.error err, s1) →
      s1.media = s.media ∧ s1.trash = s.trash ∧ s1.blobs = s.blobs) := by
  refine ⟨?_, ?_, ?_⟩
  · intro err s1 h
    obtain ⟨h1, h2, h3⟩ := Delete_error h
    exact ⟨h1, h2, h3 hdel⟩
  · intro err s1 h
    obtain ⟨h1, h2, h3⟩ := MoveToTrash_error h
    exact ⟨h1, h3 hdel, h2⟩
  · intro err s1 h
    obtain ⟨h1, h2, h3⟩ := RestoreFromTrash_error h
    exact ⟨h3 hdel, h1, h2⟩

theorem C26_error_before_last_write_witness :
    (MediaService.Delete (Env.calm [] 4000000000) Ex.s3 Ex.m1 (lit "u2")).1 =
      .error .unauthorized ∧
    (MediaService.Delete (Env.calm [] 4000000000) Ex.s3 Ex.m1 (lit "u2")).2.media =
      Ex.s3.media ∧
    (MediaService.Delete (Env.calm [] 4000000000) Ex.s3 Ex.m1 (lit "u2")).2.trash =
      Ex.s3.trash ∧
    (MediaService.Delete (Env.calm [] 4000000000) Ex.s3 Ex.m1 (lit "u2")).2.blobs =
      Ex.s3.blobs :=
  ⟨rfl, (C26_error_before_last_write (Env.calm [] 4000000000) Ex.s3 Ex.m1 (lit "u2") rfl).1
    .unauthorized _ rfl⟩

/-! ## Theorems: input validation -/

/-- C27 (counterexample): `Create` called with a zero-length filename returns
no error and inserts a record, whose filename is empty and whose blob key ends
in `/`. -/
theorem C27_counterexample :
    mediaKeyOf (MediaService.Create (Env.calm Ex.m1 1000000000) State.init Ex.u1
      Ex.noNameReq).1 = some (lit "media/u1/m1/") ∧
    Ex.noNameReq.Filename.length = 0 ∧
    (∃ m ∈ (MediaService.Create (Env.calm Ex.m1 1000000000) State.init Ex.u1
      Ex.noNameReq).2.media, m.ID = Ex.m1 ∧ m.Filename = []) := by
  decide

/-- C27 (amended): `Create` does not look at the filename. With a zero-length
filename, any owner, MIME type and size, an answered insert and a new id it
returns a record with the empty filename and inserts its BSON image. The check
is made by the handler: `Upload` answers a body whose filename is empty with
status 400 and leaves the stores as they were. -/
theorem C27_validation_in_handler (e : Env) (s : State) (u mime : GoString) (size : Int)
    (hins : e.insertFails = false) (hfresh : ∀ m ∈ s.media, m.ID ≠ e.uuid) :
    (∃ m, MediaService.Create e s u { Filename := [], MimeType := mime, Size := size } =
        (.ok m, { s with media := s.media ++ [bsonMedia m] }) ∧
      m.Filename = [] ∧ m.ID = e.uuid ∧ m.UserID = u) ∧
    MediaHandler.Upload e s u (some { Filename := [], MimeType := mime, Size := size }) =
      (400, s) := by
  constructor
  · have hany : (s.media.any (fun m => decide (m.ID = e.uuid))) = false := by
      rw [List.any_eq_false]
      intro m hm
      simpa using hfresh m hm
    unfold MediaService.Create insertMedia
    simp only [getMediaType_eq, hins, hany, Bool.false_eq_true, if_false]
    exact ⟨_, rfl, rfl, rfl, rfl⟩
  · unfold MediaHandler.Upload bindUploadRequest
    simp

theorem C27_validation_in_handler_witness :
    (∃ m, MediaService.Create (Env.calm Ex.m1 1000000000) State.init Ex.u1
        { Filename := [], MimeType := lit "image/png", Size := 2048 } =
        (.ok m, { State.init with media := State.init.media ++ [bsonMedia m] }) ∧
      m.Filename = [] ∧ m.ID = Ex.m1 ∧ m.UserID = Ex.u1) ∧
    MediaHandler.Upload (Env.calm Ex.m1 1000000000) State.init Ex.u1
      (some { Filename := [], MimeType := lit "image/png", Size := 2048 }) =
      (400, State.init) :=
  C27_validation_in_handler (Env.calm Ex.m1 1000000000) State.init Ex.u1 (lit "image/png") 2048
    rfl (by decide)

/-! ## Theorems: a failed lookup in `CreateVersion` -/

/-- C29 (the code at the failing input): `m1` has a stored version numbered 1
and the lookup of the latest version fails with a backend error, which
`GetVersion` in the same surroundings returns as it is. `CreateVersion` returns
no error, assigns number 1 and inserts the version: `m1` has two versions
numbered 1. -/
theorem C29_lookup_error_masked :
    (Env.findDown (lit "vz") 6000000000).findFails = true ∧
    versionNumbers Ex.s5 Ex.m1 = [1] ∧
    (VersionService.GetVersion (Env.findDown (lit "vz") 6000000000) Ex.s5 Ex.v1).1 =
      .error .backend ∧
    assigned (VersionService.CreateVersion (Env.findDown (lit "vz") 6000000000) Ex.s5 Ex.m1
      Ex.u1 Ex.editReq).1 = some 1 ∧
    versionNumbers (VersionService.CreateVersion (Env.findDown (lit "vz") 6000000000) Ex.s5
      Ex.m1 Ex.u1 Ex.editReq).2 Ex.m1 = [1, 1] :=
  ⟨rfl, by decide, rfl, by decide, by decide⟩

/-- Whatever the stored versions are, a `CreateVersion` whose lookup fails and
whose insert is answered returns no error and assigns number 1. -/
theorem CreateVersion_of_failed_lookup (e : Env) (s : State) (m u : GoString)
    (req : CreateVersionRequest) (hfind : e.findFails = true) (hins : e.insertFails = false)
    (hfresh : ∀ x ∈ s.versions, x.ID ≠ e.uuid) :
    ∃ v s1, VersionService.CreateVersion e s m u req = (.ok v, s1) ∧ v.Version = 1 := by
  obtain ⟨v, hv, -, hnum, -⟩ := insertNumbered_answers m u req
    (VersionService.readNextVersion e s m) hins hfresh
  refine ⟨v, _, by rw [CreateVersion_eq_steps, hv], ?_⟩
  rw [hnum]
  unfold VersionService.readNextVersion
  simp [hfind]

/-! ## Theorems: the metadata map -/

theorem StrMap.lookup_set_ne (m : StrMap) (k v k1 : GoString) (h : k1 ≠ k) :
    (m.set k v).lookup k1 = m.lookup k1 := by
  have hb : (k1 == k) = false := by simpa using h
  unfold StrMap.set
  rw [List.lookup_cons, hb]
  induction m with
  | nil => rfl
  | cons p ps ih =>
    obtain ⟨a, b⟩ := p
    by_cases ha : a = k
    · subst ha
      have hb1 : (k1 == a) = false := hb
      simp only [List.filter_cons, ne_eq, not_true_eq_false, decide_False, Bool.false_eq_true,
        if_false, List.lookup_cons, hb1]
      exact ih
    · by_cases hk : k1 = a
      · subst hk
        simp [List.filter_cons, ha, List.lookup_cons]
      · have hb2 : (k1 == a) = false := by simpa using hk
        simp only [List.filter_cons, ne_eq, ha, not_false_eq_true, decide_True, if_true,
          List.lookup_cons, hb2]
        exact ih

/-- C30: in a reachable state, for a stored media record `r`: after an
`UpdateMetadata` with `md` that returned no error, the media collection is the
old one with the record of id `r.ID` carrying `md` as its whole metadata map
(and a new `updatedAt`), so a key that `md` lacks, `workspaceId` included, is
not in the stored map; after a `MoveMedia` to `w` that returned no error, the
stored map has `workspaceId = w` and every other key as in `r`. -/
theorem C30_metadata_replaced_or_merged (e : Env) (s : State) (r : Media) (u w : GoString)
    (md : StrMap) (hs : Reachable s) (hr : r ∈ s.media) :
    (∀ s1, MediaService.UpdateMetadata e s r.ID u md = (.ok (), s1) →
      s1.media = s.media.map (fun m => if m.ID = r.ID then
        { m with Metadata := md, UpdatedAt := bsonTime (e.clock 0) } else m) ∧
      (∃ x ∈ s1.media, x.ID = r.ID) ∧
      ∀ x ∈ s1.media, x.ID = r.ID → x.Metadata = md ∧
        ∀ k, md.lookup k = none → x.Metadata.lookup k = none) ∧
    (∀ s1, MediaService.MoveMedia e s r.ID u w = (.ok (), s1) →
      (∃ x ∈ s1.media, x.ID = r.ID) ∧
      ∀ x ∈ s1.media, x.ID = r.ID →
        x.Metadata.lookup (lit "workspaceId") = some w ∧
        ∀ k, k ≠ lit "workspaceId" → x.Metadata.lookup k = r.Metadata.lookup k) := by
  have hnd := hs.storeInv.nodup
  constructor
  · intro s1 h
    obtain ⟨C, -, hm⟩ := UpdateMetadata_ok h
    rw [updateOne_eq_map _ _ _ hnd] at hm
    refine ⟨hm, ?_, ?_⟩
    · rw [hm]
      exact ⟨_, List.mem_map.2 ⟨r, hr, rfl⟩, by rw [if_pos rfl]⟩
    · intro x hx hxi
      rw [hm] at hx
      obtain ⟨y, hy, rfl⟩ := List.mem_map.1 hx
      by_cases hyi : y.ID = r.ID
      · rw [if_pos hyi]
        exact ⟨rfl, fun k hk => hk⟩
      · rw [if_neg hyi] at hxi
        exact absurd hxi hyi
  · intro s1 h
    obtain ⟨C, -, hm⟩ := MoveMedia_ok h
    rw [updateOne_eq_map _ _ _ hnd] at hm
    refine ⟨?_, ?_⟩
    · rw [hm]
      exact ⟨_, List.mem_map.2 ⟨r, hr, rfl⟩, by rw [if_pos rfl]⟩
    · intro x hx hxi
      rw [hm] at hx
      obtain ⟨y, hy, rfl⟩ := List.mem_map.1 hx
      by_cases hyi : y.ID = r.ID
      · rw [if_pos hyi]
        have hyr : y = r := eq_of_mem_of_id hnd hy hr hyi
        subst hyr
        exact ⟨StrMap.lookup_set _ _ _, fun k hk => StrMap.lookup_set_ne _ _ _ _ hk⟩
      · rw [if_neg hyi] at hxi
        exact absurd hxi hyi

theorem C30_metadata_replaced_or_merged_witness :
    ∃ x ∈ (MediaService.UpdateMetadata (Env.calm [] 5000000000)
        (MediaService.MoveMedia (Env.calm [] 4000000000) Ex.s3 Ex.m1 Ex.u1 (lit "w1")).2
        Ex.m1 Ex.u1 [(lit "album", lit "cats")]).2.media,
      x.ID = Ex.m1 ∧ x.Metadata = [(lit "album", lit "cats")] ∧
        x.Metadata.lookup (lit "workspaceId") = none :=
  have h := (C30_metadata_replaced_or_merged (Env.calm [] 5000000000)
    (MediaService.MoveMedia (Env.calm [] 4000000000) Ex.s3 Ex.m1 Ex.u1 (lit "w1")).2
    { Ex.catStored with Metadata := [(lit "workspaceId", lit "w1")], UpdatedAt := 4000000000 }
    Ex.u1 (lit "w2") [(lit "album", lit "cats")]
    (Reachable.step (Env.calm [] 4000000000) (.moveMedia Ex.m1 Ex.u1 (lit "w1")) Ex.s3_reachable
      (by intro h; cases h))
    (by decide)).1 _ rfl
  match h.2.1 with
  | ⟨x, hx, hxi⟩ => ⟨x, hx, hxi, (h.2.2 x hx hxi).1, (h.2.2 x hx hxi).2 _ (by decide)⟩

/-! ## Theorems: the invalidation comes after the mutation -/

theorem Effect.not_quiet_of_aborts {i : GoString} {x : Effect} (h : x.aborts i = true) :
    x.quiet = false := by
  cases x <;> simp_all [Effect.aborts, Effect.quiet]

theorem Effect.not_aborts_of_commits {i : GoString} {x : Effect} (h : x.commits i = true) :
    x.aborts i = false := by
  cases x <;> simp_all [Effect.aborts, Effect.commits]

/-- A call of one of the three shapes invalidates only after the mutation
returned without error, and invalidates exactly when it returns no error. -/
theorem CommitShape.invalidateAfterCommit {i : GoString} {r : Outcome Unit × List Effect}
    (h : CommitShape i r) :
    InvalidateAfterCommit i r.2 ∧
    (Effect.cacheDel (cacheKey i) ∈ r.2 ↔ r.1.1 = .ok ()) := by
  obtain ⟨pre, hq, h⟩ := h
  have hpre : Effect.cacheDel (cacheKey i) ∉ pre := fun hm => by
    have := hq _ hm
    simp [Effect.quiet] at this
  rcases h with ⟨err, herr, hlog | ⟨x, hx, hlog⟩⟩ | ⟨hok, x, hx, hlog⟩
  · have hno : Effect.cacheDel (cacheKey i) ∉ r.2 := by rw [hlog]; exact hpre
    refine ⟨⟨fun p hp => absurd (List.getElem?_mem hp) hno, fun _ => hno⟩, ?_⟩
    rw [herr]
    exact ⟨fun hm => absurd hm hno, fun hc => by cases hc⟩
  · have hno : Effect.cacheDel (cacheKey i) ∉ r.2 := by
      rw [hlog, List.mem_append, List.mem_singleton]
      rintro (hm | hm)
      · exact hpre hm
      · rw [← hm] at hx
        simp [Effect.aborts] at hx
    refine ⟨⟨fun p hp => absurd (List.getElem?_mem hp) hno, fun _ => hno⟩, ?_⟩
    rw [herr]
    exact ⟨fun hm => absurd hm hno, fun hc => by cases hc⟩
  · refine ⟨⟨?_, ?_⟩, ?_⟩
    · intro p hp
      rw [hlog] at hp
      refine ⟨pre.length, x, ?_, ?_⟩
      · by_contra hlt
        rw [not_lt] at hlt
        rcases Nat.lt_or_eq_of_le hlt with hlt | heq
        · rw [List.getElem?_append_left hlt] at hp
          exact hpre (List.getElem?_mem hp)
        · rw [heq, List.getElem?_append_right (le_refl _), Nat.sub_self] at hp
          simp only [List.getElem?_cons_zero, Option.some.injEq] at hp
          rw [hp] at hx
          simp [Effect.commits] at hx
      · rw [hlog, List.getElem?_append_right (le_refl _), Nat.sub_self]
        exact ⟨rfl, hx⟩
    · rintro ⟨y, hy, hya⟩
      rw [hlog] at hy
      simp only [List.mem_append, List.mem_cons, List.mem_singleton, List.not_mem_nil,
        or_false] at hy
      rcases hy with hy | hy | hy
      · have h1 := hq y hy
        rw [Effect.not_quiet_of_aborts hya] at h1
        cases h1
      · rw [hy, Effect.not_aborts_of_commits hx] at hya
        cases hya
      · rw [hy] at hya
        simp [Effect.aborts] at hya
    · rw [hok, hlog]
      simp

/-- The traced `Get` computes what `Get` computes. -/
theorem GetT_fst (e : Env) (s : State) (i : GoString) :
    (MediaService.GetT e s i).1 = MediaService.Get e s i := by
  unfold MediaService.GetT MediaService.Get
  generalize (if e.cacheGetFails then none else cacheGet s.cache (cacheKey i)) = c
  have hmiss : (match findMedia e s.media i with
      | .error err => ((Except.error err, s), [Effect.cacheGet (cacheKey i), Effect.findMedia i])
      | .ok found =>
        let media := { found with URL := e.presign found.S3Key }
        if e.cacheSetFails then
          ((.ok media, s),
            [.cacheGet (cacheKey i), .findMedia i, .cacheSet (cacheKey i) false])
        else
          ((.ok media, { s with cache := cacheSet s.cache (cacheKey i) (some media) }),
            [.cacheGet (cacheKey i), .findMedia i, .cacheSet (cacheKey i) true])).1 =
      (match findMedia e s.media i with
      | .error err => (.error err, s)
      | .ok found =>
        let media := { found with URL := e.presign found.S3Key }
        if e.cacheSetFails then (.ok media, s)
        else (.ok media, { s with cache := cacheSet s.cache (cacheKey i) (some media) })) := by
    cases findMedia e s.media i with
    | error err => rfl
    | ok found =>
      simp only
      split_ifs <;> rfl
  rcases c with _ | _ | media
  · exact hmiss
  · exact hmiss
  · rfl

/-- `Get` issues neither a mutation of `media` nor an invalidation. -/
theorem GetT_quiet (e : Env) (s : State) (i : GoString) :
    ∀ x ∈ (MediaService.GetT e s i).2, x.quiet = true := by
  unfold MediaService.GetT
  repeat' split
  all_goals simp [Effect.quiet]

theorem updateThenInvalidate_shape (e : Env) (s1 : State) (i : GoString) (upd : Media → Media)
    (log : List Effect) (hq : ∀ x ∈ log, x.quiet = true) :
    CommitShape i (updateThenInvalidate e s1 i upd log) := by
  refine ⟨log, hq, ?_⟩
  unfold updateThenInvalidate
  split_ifs
  · exact Or.inl ⟨_, rfl, Or.inr ⟨_, by simp [Effect.aborts], rfl⟩⟩
  · exact Or.inr ⟨rfl, _, by simp [Effect.commits], rfl⟩
  · exact Or.inr ⟨rfl, _, by simp [Effect.commits], rfl⟩

theorem DeleteT_fst (e : Env) (s : State) (i u : GoString) :
    (MediaService.DeleteT e s i u).1 = MediaService.Delete e s i u := by
  have hG := GetT_fst e s i
  unfold MediaService.DeleteT MediaService.Delete
  rw [← hG]
  generalize MediaService.GetT e s i = o
  obtain ⟨⟨r, s1⟩, log⟩ := o
  cases r with
  | error err => rfl
  | ok media =>
    simp only
    split_ifs <;> rfl

theorem DeleteT_shape (e : Env) (s : State) (i u : GoString) :
    CommitShape i (MediaService.DeleteT e s i u) := by
  have hq := GetT_quiet e s i
  unfold MediaService.DeleteT
  generalize MediaService.GetT e s i = o at hq ⊢
  obtain ⟨⟨r, s1⟩, log⟩ := o
  simp only at hq
  cases r with
  | error err => exact ⟨log, hq, Or.inl ⟨_, rfl, Or.inl rfl⟩⟩
  | ok media =>
    simp only
    split_ifs
    · exact ⟨log, hq, Or.inl ⟨_, rfl, Or.inl rfl⟩⟩
    · refine ⟨log ++ [.blobDelete media.S3Key false], ?_, Or.inl ⟨_, rfl, Or.inl rfl⟩⟩
      intro x hx
      rcases List.mem_append.1 hx with hx | hx
      · exact hq x hx
      · rw [List.mem_singleton.1 hx]; rfl
    · refine ⟨log ++ [.blobDelete media.S3Key true], ?_,
        Or.inl ⟨_, rfl, Or.inr ⟨.deleteMedia i false, by simp [Effect.aborts], by simp⟩⟩⟩
      intro x hx
      rcases List.mem_append.1 hx with hx | hx
      · exact hq x hx
      · rw [List.mem_singleton.1 hx]; rfl
    · refine ⟨log ++ [.blobDelete media.S3Key true], ?_,
        Or.inr ⟨rfl, .deleteMedia i true, by simp [Effect.commits], by simp⟩⟩
      intro x hx
      rcases List.mem_append.1 hx with hx | hx
      · exact hq x hx
      · rw [List.mem_singleton.1 hx]; rfl
    · refine ⟨log ++ [.blobDelete media.S3Key true], ?_,
        Or.inr ⟨rfl, .deleteMedia i true, by simp [Effect.commits], by simp⟩⟩
      intro x hx
      rcases List.mem_append.1 hx with hx | hx
      · exact hq x hx
      · rw [List.mem_singleton.1 hx]; rfl

theorem updateThenInvalidate_fst (e : Env) (s1 : State) (i : GoString) (upd : Media → Media)
    (log : List Effect) :
    (updateThenInvalidate e s1 i upd log).1 =
      if e.updateFails then (.error .backend, s1)
      else if e.cacheDelFails then
        (.ok (), { s1 with media := updateOne (fun m => m.ID = i) upd s1.media })
      else (.ok (), { s1 with media := updateOne (fun m => m.ID = i) upd s1.media,
                              cache := cacheDel s1.cache (cacheKey i) }) := by
  unfold updateThenInvalidate
  split_ifs <;> rfl

theorem UpdateMetadataT_fst (e : Env) (s : State) (i u : GoString) (md : StrMap) :
    (MediaService.UpdateMetadataT e s i u md).1 = MediaService.UpdateMetadata e s i u md := by
  have hG := GetT_fst e s i
  unfold MediaService.UpdateMetadataT MediaService.UpdateMetadata
  rw [← hG]
  generalize MediaService.GetT e s i = o
  obtain ⟨⟨r, s1⟩, log⟩ := o
  cases r with
  | error err => rfl
  | ok media =>
    simp only
    by_cases hu : media.UserID ≠ u
    · rw [if_pos hu, if_pos hu]
    · rw [if_neg hu, if_neg hu, updateThenInvalidate_fst]

theorem RenameT_fst (e : Env) (s : State) (i u f : GoString) :
    (MediaService.RenameT e s i u f).1 = MediaService.Rename e s i u f := by
  have hG := GetT_fst e s i
  unfold MediaService.RenameT MediaService.Rename
  rw [← hG]
  generalize MediaService.GetT e s i = o
  obtain ⟨⟨r, s1⟩, log⟩ := o
  cases r with
  | error err => rfl
  | ok media =>
    simp only
    by_cases hu : media.UserID ≠ u
    · rw [if_pos hu, if_pos hu]
    · rw [if_neg hu, if_neg hu, updateThenInvalidate_fst]

theorem MoveMediaT_fst (e : Env) (s : State) (i u w : GoString) :
    (MediaService.MoveMediaT e s i u w).1 = MediaService.MoveMedia e s i u w := by
  have hG := GetT_fst e s i
  unfold MediaService.MoveMediaT MediaService.MoveMedia
  rw [← hG]
  generalize MediaService.GetT e s i = o
  obtain ⟨⟨r, s1⟩, log⟩ := o
  cases r with
  | error err => rfl
  | ok media =>
    simp only
    by_cases hu : media.UserID ≠ u
    · rw [if_pos hu, if_pos hu]
    · rw [if_neg hu, if_neg hu, updateThenInvalidate_fst]

/-- After `Get` and the ownership check, an update followed by the
invalidation has one of the three shapes. -/
theorem getThenUpdate_shape (e : Env) (s : State) (i u : GoString) (upd : Media → Media) :
    CommitShape i
      (match MediaService.GetT e s i with
      | ((.error err, s1), log) => ((.error err, s1), log)
      | ((.ok media, s1), log) =>
        if media.UserID ≠ u then ((.error .unauthorized, s1), log)
        else updateThenInvalidate e s1 i upd log) := by
  have hq := GetT_quiet e s i
  generalize MediaService.GetT e s i = o at hq ⊢
  obtain ⟨⟨r, s1⟩, log⟩ := o
  simp only at hq
  cases r with
  | error err => exact ⟨log, hq, Or.inl ⟨_, rfl, Or.inl rfl⟩⟩
  | ok media =>
    simp only
    split_ifs
    · exact ⟨log, hq, Or.inl ⟨_, rfl, Or.inl rfl⟩⟩
    · exact updateThenInvalidate_shape e s1 i upd log hq

theorem MoveToTrashT_fst (e : Env) (s : State) (i u : GoString) :
    (TrashService.MoveToTrashT e s i u).1 = TrashService.MoveToTrash e s i u := by
  unfold TrashService.MoveToTrashT TrashService.MoveToTrash
  cases findMedia e s.media i with
  | error err => rfl
  | ok media =>
    simp only
    by_cases hu : media.UserID ≠ u
    · rw [if_pos hu, if_pos hu]
    · rw [if_neg hu, if_neg hu]
      generalize insertTrash e s.trash _ = c
      cases c with
      | error err => rfl
      | ok c =>
        simp only
        split_ifs <;> rfl

theorem MoveToTrashT_shape (e : Env) (s : State) (i u : GoString) :
    CommitShape i (TrashService.MoveToTrashT e s i u) := by
  unfold TrashService.MoveToTrashT
  split
  · exact ⟨_, by simp [Effect.quiet], Or.inl ⟨_, rfl, Or.inl rfl⟩⟩
  · split
    · exact ⟨_, by simp [Effect.quiet], Or.inl ⟨_, rfl, Or.inl rfl⟩⟩
    · simp only
      split
      · exact ⟨_, by simp [Effect.quiet], Or.inl ⟨_, rfl, Or.inl rfl⟩⟩
      · split_ifs
        · exact ⟨[.findMedia i, .insertTrash e.uuid true], by simp [Effect.quiet],
            Or.inl ⟨_, rfl, Or.inr ⟨.deleteMedia i false, by simp [Effect.aborts], rfl⟩⟩⟩
        · exact ⟨[.findMedia i, .insertTrash e.uuid true], by simp [Effect.quiet],
            Or.inr ⟨rfl, .deleteMedia i true, by simp [Effect.commits], rfl⟩⟩
        · exact ⟨[.findMedia i, .insertTrash e.uuid true], by simp [Effect.quiet],
            Or.inr ⟨rfl, .deleteMedia i true, by simp [Effect.commits], rfl⟩⟩

theorem RenameT_shape (e : Env) (s : State) (i u f : GoString) :
    CommitShape i (MediaService.RenameT e s i u f) :=
  getThenUpdate_shape e s i u _

theorem UpdateMetadataT_shape (e : Env) (s : State) (i u : GoString) (md : StrMap) :
    CommitShape i (MediaService.UpdateMetadataT e s i u md) :=
  getThenUpdate_shape e s i u _

theorem MoveMediaT_shape (e : Env) (s : State) (i u w : GoString) :
    CommitShape i (MediaService.MoveMediaT e s i u w) :=
  getThenUpdate_shape e s i u _

/-- C28: each of `Delete`, `Rename`, `UpdateMetadata`, `MoveMedia` and
`MoveToTrash`, traced with the store, blob and cache calls it issues in order,
computes what the untraced function computes, and in its sequence of calls
every invalidation of `media:<id>` stands after a mutation of the record `id`
in the metadata store that returned without error, there is no invalidation
when that mutation returned an error, and the invalidation is issued exactly
when the call returns no error. -/
theorem C28_invalidate_after_commit (e : Env) (s : State) (i u f w : GoString) (md : StrMap) :
    ((MediaService.DeleteT e s i u).1 = MediaService.Delete e s i u ∧
      InvalidateAfterCommit i (MediaService.DeleteT e s i u).2 ∧
      (Effect.cacheDel (cacheKey i) ∈ (MediaService.DeleteT e s i u).2 ↔
        (MediaService.Delete e s i u).1 = .ok ())) ∧
    ((MediaService.RenameT e s i u f).1 = MediaService.Rename e s i u f ∧
      InvalidateAfterCommit i (MediaService.RenameT e s i u f).2 ∧
      (Effect.cacheDel (cacheKey i) ∈ (MediaService.RenameT e s i u f).2 ↔
        (MediaService.Rename e s i u f).1 = .ok ())) ∧
    ((MediaService.UpdateMetadataT e s i u md).1 = MediaService.UpdateMetadata e s i u md ∧
      InvalidateAfterCommit i (MediaService.UpdateMetadataT e s i u md).2 ∧
      (Effect.cacheDel (cacheKey i) ∈ (MediaService.UpdateMetadataT e s i u md).2 ↔
        (MediaService.UpdateMetadata e s i u md).1 = .ok ())) ∧
    ((MediaService.MoveMediaT e s i u w).1 = MediaService.MoveMedia e s i u w ∧
      InvalidateAfterCommit i (MediaService.MoveMediaT e s i u w).2 ∧
      (Effect.cacheDel (cacheKey i) ∈ (MediaService.MoveMediaT e s i u w).2 ↔
        (MediaService.MoveMedia e s i u w).1 = .ok ())) ∧
    ((TrashService.MoveToTrashT e s i u).1 = TrashService.MoveToTrash e s i u ∧
      InvalidateAfterCommit i (TrashService.MoveToTrashT e s i u).2 ∧
      (Effect.cacheDel (cacheKey i) ∈ (TrashService.MoveToTrashT e s i u).2 ↔
        (TrashService.MoveToTrash e s i u).1 = .ok ())) := by
  refine ⟨?_, ?_, ?_, ?_, ?_⟩
  · have h := (DeleteT_shape e s i u).invalidateAfterCommit
    rw [DeleteT_fst] at h
    exact ⟨DeleteT_fst e s i u, h⟩
  · have h := (RenameT_shape e s i u f).invalidateAfterCommit
    rw [RenameT_fst] at h
    exact ⟨RenameT_fst e s i u f, h⟩
  · have h := (UpdateMetadataT_shape e s i u md).invalidateAfterCommit
    rw [UpdateMetadataT_fst] at h
    exact ⟨UpdateMetadataT_fst e s i u md, h⟩
  · have h := (MoveMediaT_shape e s i u w).invalidateAfterCommit
    rw [MoveMediaT_fst] at h
    exact ⟨MoveMediaT_fst e s i u w, h⟩
  · have h := (MoveToTrashT_shape e s i u).invalidateAfterCommit
    rw [MoveToTrashT_fst] at h
    exact ⟨MoveToTrashT_fst e s i u, h⟩

/-! ## Theorems: a cache invalidation that is lost -/

/-- C7 (counterexample): in the reachable state in which `cat.png` is stored
and cached, `u1` deletes it while `redis.Del` fails. The call returns no
error, the record is gone and the cached copy stays. The second `Delete` by
`u1`, with every backend answering, finds the cached copy and returns no
error instead of the not-found error. -/
theorem C7_counterexample :
    Reachable Ex.s3 ∧
    (MediaService.Delete (Env.delLost [] 4000000000) Ex.s3 Ex.m1 Ex.u1).1 = .ok () ∧
    (MediaService.Delete (Env.delLost [] 4000000000) Ex.s3 Ex.m1 Ex.u1).2.media = [] ∧
    cacheGet (MediaService.Delete (Env.delLost [] 4000000000) Ex.s3 Ex.m1 Ex.u1).2.cache
      (cacheKey Ex.m1) ≠ none ∧
    (MediaService.Delete (Env.calm [] 5000000000)
      (MediaService.Delete (Env.delLost [] 4000000000) Ex.s3 Ex.m1 Ex.u1).2 Ex.m1 Ex.u1).1 =
      .ok () ∧
    (MediaService.Delete (Env.calm [] 5000000000)
      (MediaService.Delete (Env.delLost [] 4000000000) Ex.s3 Ex.m1 Ex.u1).2 Ex.m1 Ex.u1).1 ≠
      .error .noDocuments :=
  ⟨Ex.s3_reachable, rfl, by decide, by decide, rfl, fun h => by cases h⟩

/-- C8 (counterexample): the cache holds the copy of `cat.png` and `redis.Del`
fails. `Rename` to `dog.png`, `UpdateMetadata` with `channelId = c1` and
`MoveMedia` to `w2` each return no error and write the record, and the `Get`
that follows, with every backend answering, returns the cached copy: filename
`cat.png`, an empty metadata map, no `workspaceId`. -/
theorem C8_counterexample :
    ((MediaService.Rename (Env.delLost [] 4000000000) Ex.s3 Ex.m1 Ex.u1 (lit "dog.png")).1 =
        .ok () ∧
      (MediaService.Rename (Env.delLost [] 4000000000) Ex.s3 Ex.m1 Ex.u1
        (lit "dog.png")).2.media.map (fun m => m.Filename) = [lit "dog.png"] ∧
      ∃ m, (MediaService.Get (Env.calm [] 5000000000)
          (MediaService.Rename (Env.delLost [] 4000000000) Ex.s3 Ex.m1 Ex.u1 (lit "dog.png")).2
          Ex.m1).1 = .ok m ∧ m.Filename = lit "cat.png") ∧
    ((MediaService.UpdateMetadata (Env.delLost [] 4000000000) Ex.s3 Ex.m1 Ex.u1
        [(lit "channelId", lit "c1")]).1 = .ok () ∧
      (MediaService.UpdateMetadata (Env.delLost [] 4000000000) Ex.s3 Ex.m1 Ex.u1
        [(lit "channelId", lit "c1")]).2.media.map (fun m => m.Metadata) =
        [[(lit "channelId", lit "c1")]] ∧
      ∃ m, (MediaService.Get (Env.calm [] 5000000000)
          (MediaService.UpdateMetadata (Env.delLost [] 4000000000) Ex.s3 Ex.m1 Ex.u1
            [(lit "channelId", lit "c1")]).2 Ex.m1).1 = .ok m ∧ m.Metadata = []) ∧
    ((MediaService.MoveMedia (Env.delLost [] 4000000000) Ex.s3 Ex.m1 Ex.u1 (lit "w2")).1 =
        .ok () ∧
      (MediaService.MoveMedia (Env.delLost [] 4000000000) Ex.s3 Ex.m1 Ex.u1
        (lit "w2")).2.media.map (fun m => m.Metadata.lookup (lit "workspaceId")) =
        [some (lit "w2")] ∧
      ∃ m, (MediaService.Get (Env.calm [] 5000000000)
          (MediaService.MoveMedia (Env.delLost [] 4000000000) Ex.s3 Ex.m1 Ex.u1 (lit "w2")).2
          Ex.m1).1 = .ok m ∧ m.Metadata.lookup (lit "workspaceId") = none) :=
  ⟨⟨rfl, by decide, _, rfl, by decide⟩, ⟨rfl, by decide, _, rfl, by decide⟩,
    ⟨rfl, by decide, _, rfl, by decide⟩⟩

/-- C18 (counterexample): in the reachable state in which `cat.png` is stored
and cached, `u1` moves it to the trash while `redis.Del` fails. The call
returns no error, the trash holds the entry and the record is gone, and the
cache still has the entry under `media:m1`. -/
theorem C18_counterexample :
    Reachable Ex.s3 ∧ Ex.catStored ∈ Ex.s3.media ∧
    (TrashService.MoveToTrash (Env.delLost (lit "t1") 4000000000) Ex.s3 Ex.m1 Ex.u1).1 =
      .ok () ∧
    (TrashService.MoveToTrash (Env.delLost (lit "t1") 4000000000) Ex.s3 Ex.m1
      Ex.u1).2.trash.map (fun t => t.MediaID) = [Ex.m1] ∧
    (TrashService.MoveToTrash (Env.delLost (lit "t1") 4000000000) Ex.s3 Ex.m1
      Ex.u1).2.media = [] ∧
    cacheGet (TrashService.MoveToTrash (Env.delLost (lit "t1") 4000000000) Ex.s3 Ex.m1
      Ex.u1).2.cache (cacheKey Ex.m1) ≠ none :=
  ⟨Ex.s3_reachable, by decide, rfl, by decide, by decide, by decide⟩

/-! ## Theorems: a repeated version number -/

/-- The scenario with two versions of `m1` is reachable. -/
theorem Ex.r2_reachable : Reachable Ex.r2 :=
  Reachable.step _ _ (Reachable.step _ _ Ex.s3_reachable (by intro h; cases h))
    (by intro h; cases h)

/-- C11 (the code at the failing input): `m1` has the versions 1 and 2 and
the lookup of the latest version fails. `CreateVersion` returns no error and
assigns 1, not 3; the state it leaves is reachable and has two versions of
`m1` numbered 1. -/
theorem C11_failed_lookup_repeats_number :
    versionNumbers Ex.r2 Ex.m1 = [1, 2] ∧
    assigned (VersionService.CreateVersion (Env.findDown (lit "vc") 6000000000) Ex.r2 Ex.m1
      Ex.u1 Ex.editReq).1 = some 1 ∧
    Reachable (exec (Env.findDown (lit "vc") 6000000000) Ex.r2
      (.createVersion Ex.m1 Ex.u1 Ex.editReq)) ∧
    versionNumbers (exec (Env.findDown (lit "vc") 6000000000) Ex.r2
      (.createVersion Ex.m1 Ex.u1 Ex.editReq)) Ex.m1 = [1, 2, 1] ∧
    ¬ VersionsDistinct (exec (Env.findDown (lit "vc") 6000000000) Ex.r2
      (.createVersion Ex.m1 Ex.u1 Ex.editReq)) :=
  ⟨by decide, by decide, Reachable.step _ _ Ex.r2_reachable (by intro h; cases h), by decide,
    fun h => absurd (h Ex.m1) (by decide)⟩
